import Mathlib

/-!
# Timeline capture and audio extraction engine of `src/FrameExtractor.jsx`

A shallow embedding of the computational core of the `App` component:

* `bufferToWave`            the PCM container encoder (lines 371-401),
* `handleExtractAudio`      full / trimmed audio extraction (lines 403-455),
* `handleMouseMove`, `handleTimelineMouseDown`, `handleMainVideoLoaded`
                            the trim-range model (lines 122-186, 517-523),
* `analyzeAudioWaveform`, `forceAnalyzeAudio`, `handleFileChange`
                            the amplitude profiler and its size policy (lines 71-118, 195-228),
* `captureFrame`            the seek-snapshot primitive (lines 231-271),
* `handleGenerateStoryboard` the batch storyboard pipeline (lines 306-368).

JavaScript numbers are modelled twice.

* `JSNum`: a finite value is an exact rational, and `Infinity`, `-Infinity` and
  `NaN` are kept apart. Arithmetic on finite values is exact. This model is used
  where the values the code handles are computed without rounding (byte
  layouts, sample quantisation of given sample values, comparisons with a limit,
  integer frame indices) and for statements that are explicitly about exact
  times.
* `F64`: a finite value is an integer number of units of `2^-1074`, which is
  every finite double, and each operation rounds the exact result to the nearest
  double, ties to even, overflowing to an infinity at `2^1024`. The sign of zero
  is not modelled. The definitions of the namespace `Binary64` translate the
  storyboard loop (whose capture times are accumulated by `currentTime +=
  interval`), the naming of archive entries, the frame count of a trimmed
  extraction and the trim-range handlers with this arithmetic, operation by
  operation.
-/

namespace FrameExtractor

/-! ## JavaScript numbers -/

/-- A JavaScript number: a finite value, `Infinity`, `-Infinity` or `NaN`.
`undefined` coerced to a number is `nan`. -/
inductive JSNum where
  | fin (q : ℚ)
  | posInf
  | negInf
  | nan
  deriving DecidableEq

namespace JSNum

/-- The operator `a + b`. -/
def add : JSNum → JSNum → JSNum
  | fin a, fin b => fin (a + b)
  | nan, _ => nan
  | _, nan => nan
  | posInf, negInf => nan
  | negInf, posInf => nan
  | posInf, _ => posInf
  | _, posInf => posInf
  | negInf, _ => negInf
  | _, negInf => negInf

/-- The operator `a * b`. -/
def mul : JSNum → JSNum → JSNum
  | fin a, fin b => fin (a * b)
  | nan, _ => nan
  | _, nan => nan
  | fin a, posInf => if a = 0 then nan else if 0 < a then posInf else negInf
  | fin a, negInf => if a = 0 then nan else if 0 < a then negInf else posInf
  | posInf, fin b => if b = 0 then nan else if 0 < b then posInf else negInf
  | negInf, fin b => if b = 0 then nan else if 0 < b then negInf else posInf
  | posInf, posInf => posInf
  | negInf, negInf => posInf
  | posInf, negInf => negInf
  | negInf, posInf => negInf

/-- The operator `a / b` (a zero divisor is the positive zero). -/
def div : JSNum → JSNum → JSNum
  | fin a, fin b =>
      if b = 0 then (if a = 0 then nan else if 0 < a then posInf else negInf)
      else fin (a / b)
  | nan, _ => nan
  | _, nan => nan
  | fin _, posInf => fin 0
  | fin _, negInf => fin 0
  | posInf, fin b => if 0 ≤ b then posInf else negInf
  | negInf, fin b => if 0 ≤ b then negInf else posInf
  | posInf, posInf => nan
  | posInf, negInf => nan
  | negInf, posInf => nan
  | negInf, negInf => nan

/-- The comparison `a < b`, false as soon as one side is `NaN`. -/
def lt : JSNum → JSNum → Bool
  | fin a, fin b => decide (a < b)
  | nan, _ => false
  | _, nan => false
  | negInf, negInf => false
  | negInf, _ => true
  | _, negInf => false
  | posInf, _ => false
  | fin _, posInf => true

/-- The call `Math.abs(a)`. -/
def abs : JSNum → JSNum
  | fin a => fin |a|
  | posInf => posInf
  | negInf => posInf
  | nan => nan

/-- The call `Math.max(a, b)`. -/
def max : JSNum → JSNum → JSNum
  | fin a, fin b => fin (Max.max a b)
  | nan, _ => nan
  | _, nan => nan
  | posInf, _ => posInf
  | _, posInf => posInf
  | negInf, b => b
  | a, negInf => a

/-- The call `Math.min(a, b)`. -/
def min : JSNum → JSNum → JSNum
  | fin a, fin b => fin (Min.min a b)
  | nan, _ => nan
  | _, nan => nan
  | negInf, _ => negInf
  | _, negInf => negInf
  | posInf, b => b
  | a, posInf => a

/-- The call `Math.max(...xs)`: `-Infinity` for no argument. -/
def maxList (xs : List JSNum) : JSNum :=
  xs.foldl max negInf

/-- The call `Math.pow(a, -1)`. -/
def powNegOne (a : JSNum) : JSNum :=
  div (fin 1) a

/-- The call `Math.round(a)`: the nearest integer, halves rounded up. -/
def round : JSNum → JSNum
  | fin a => fin (⌊a + 1 / 2⌋ : Int)
  | a => a

/-- Truncation of a rational toward zero. -/
def truncQ (q : ℚ) : Int :=
  if 0 ≤ q then ⌊q⌋ else -⌊-q⌋

/-- The conversion `ToInt32`, written `a | 0` in the source: truncate toward
zero, wrap modulo `2^32` into the signed range; `NaN` and the infinities give 0. -/
def toInt32 : JSNum → Int
  | fin q => (truncQ q + 2147483648) % 4294967296 - 2147483648
  | _ => 0

end JSNum

open JSNum (fin nan posInf negInf)

/-! ## Byte buffers (`ArrayBuffer` seen through a `DataView`) -/

/-- Little-endian bytes of `v`, lowest byte first, `n` of them. -/
def leBytes : Nat → Nat → List Nat
  | 0, _ => []
  | n + 1, v => (v % 256) :: leBytes n (v / 256)

/-- Value of a little-endian byte sequence. -/
def ofLeBytes : List Nat → Nat
  | [] => 0
  | b :: bs => b + 256 * ofLeBytes bs

/-- Store `bs` at byte offset `off`; `none` is the `RangeError` a `DataView`
setter throws when the write does not fit in the buffer. -/
def writeBytes (view : List Nat) (off : Nat) (bs : List Nat) : Option (List Nat) :=
  if off + bs.length ≤ view.length then
    some (view.take off ++ bs ++ view.drop (off + bs.length))
  else none

/-- The call `view.getUint32(off, true)` on an in-range offset. -/
def getUint32 (view : List Nat) (off : Nat) : Nat :=
  ofLeBytes ((view.drop off).take 4)

/-- The call `view.getUint16(off, true)` on an in-range offset. -/
def getUint16 (view : List Nat) (off : Nat) : Nat :=
  ofLeBytes ((view.drop off).take 2)

/-- The call `view.getInt16(off, true)` on an in-range offset. -/
def getInt16 (view : List Nat) (off : Nat) : Int :=
  let u := getUint16 view off
  if u < 32768 then (u : Int) else (u : Int) - 65536

/-- The call `view.setInt16(off, value, true)`. -/
def setInt16 (view : List Nat) (off : Nat) (value : Int) : Option (List Nat) :=
  writeBytes view off (leBytes 2 (value % 65536).toNat)

/-- The `DataView` of `bufferToWave` together with its write position `pos`. -/
structure Writer where
  view : List Nat
  pos : Nat

/-- The closure `setUint16` of `bufferToWave`. -/
def setUint16 (data : Nat) (w : Writer) : Option Writer :=
  (writeBytes w.view w.pos (leBytes 2 (data % 65536))).map
    fun v => { view := v, pos := w.pos + 2 }

/-- The closure `setUint32` of `bufferToWave`. -/
def setUint32 (data : Nat) (w : Writer) : Option Writer :=
  (writeBytes w.view w.pos (leBytes 4 (data % 4294967296))).map
    fun v => { view := v, pos := w.pos + 4 }

/-! ## Audio buffers and the PCM container encoder -/

/-- A decoded `AudioBuffer`: `channelData[i]` is what `getChannelData(i)`
returns. -/
structure AudioBuffer where
  sampleRate : Nat
  length : Nat
  channelData : List (List JSNum)

/-- The property `numberOfChannels`. -/
def AudioBuffer.numberOfChannels (b : AudioBuffer) : Nat :=
  b.channelData.length

/-- An element read `arr[k]` of a typed array, `undefined` (here `nan`) out of
range. -/
def readSample (arr : List JSNum) (k : Nat) : JSNum :=
  arr.getD k nan

/-- Lines 394-395: clamp a sample into `[-1, 1]`, scale it and convert it with
`| 0`. -/
def quantise (x : JSNum) : Int :=
  let sample := JSNum.max (fin (-1)) (JSNum.min (fin 1) x)
  JSNum.toInt32
    (if JSNum.lt (JSNum.add (fin (1 / 2)) sample) (fin 0)
     then JSNum.mul sample (fin 32768)
     else JSNum.mul sample (fin 32767))

/-- The inner `for` loop of lines 393-397 from channel `i` on: returns the view
and the new `offset`. -/
def channelLoop (channels : List (List JSNum)) (numOfChan pos : Nat)
    (i offset : Nat) (view : List Nat) : Option (List Nat × Nat) :=
  if i < numOfChan then
    match setInt16 view (44 + offset) (quantise (readSample (channels.getD i []) pos)) with
    | none => none
    | some view1 => channelLoop channels numOfChan pos (i + 1) (offset + 2) view1
  else some (view, offset)
termination_by numOfChan - i

/-- The `while (pos < len)` loop of lines 392-399. -/
def sampleLoop (channels : List (List JSNum)) (numOfChan len : Nat)
    (pos offset : Nat) (view : List Nat) : Option (List Nat) :=
  if pos < len then
    match channelLoop channels numOfChan pos 0 offset view with
    | none => none
    | some (view1, offset1) => sampleLoop channels numOfChan len (pos + 1) offset1 view1
  else some view
termination_by len - pos

/-- The function `bufferToWave(abuffer, len)`: the bytes of the blob, or `none`
when a `DataView` write throws. -/
def bufferToWave (abuffer : AudioBuffer) (len : Nat) : Option (List Nat) :=
  let numOfChan := abuffer.numberOfChannels
  let length := len * numOfChan * 2 + 44
  let channels := (List.range abuffer.numberOfChannels).map
    fun i => abuffer.channelData.getD i []
  some { view := List.replicate length 0, pos := 0 }
    >>= setUint32 0x46464952 >>= setUint32 (length - 8) >>= setUint32 0x45564157
    >>= setUint32 0x20746d66 >>= setUint32 16 >>= setUint16 1
    >>= setUint16 numOfChan >>= setUint32 abuffer.sampleRate
    >>= setUint32 (abuffer.sampleRate * 2 * numOfChan)
    >>= setUint16 (numOfChan * 2) >>= setUint16 16
    >>= setUint32 0x61746164 >>= (fun w => setUint32 (length - w.pos - 4) w)
    >>= fun w => sampleLoop channels numOfChan len w.pos 0 w.view

/-! ## Proof-side descriptions of the encoder output -/

/-- The two bytes `setInt16` stores for the sample at frame `pos` of a channel. -/
def sampleBytes (chan : List JSNum) (pos : Nat) : List Nat :=
  leBytes 2 (quantise (readSample chan pos) % 65536).toNat

/-- Bytes of one frame: channels `i, i+1, ..., i+n-1` at frame `pos`. -/
def frameBytesFrom (channels : List (List JSNum)) (pos : Nat) : Nat → Nat → List Nat
  | 0, _ => []
  | n + 1, i => sampleBytes (channels.getD i []) pos ++ frameBytesFrom channels pos n i.succ

/-- Bytes of `n` consecutive frames of `c` channels starting at frame `pos`. -/
def payloadFrom (channels : List (List JSNum)) (c : Nat) : Nat → Nat → List Nat
  | 0, _ => []
  | n + 1, pos => frameBytesFrom channels pos c 0 ++ payloadFrom channels c n pos.succ

/-- The 44 header bytes for `c` channels, sample rate `sr` and `len` frames. -/
def headerBytes (c sr len : Nat) : List Nat :=
  [0x52, 0x49, 0x46, 0x46] ++ leBytes 4 ((len * c * 2 + 44 - 8) % 4294967296)
    ++ [0x57, 0x41, 0x56, 0x45]
    ++ [0x66, 0x6d, 0x74, 0x20] ++ leBytes 4 16 ++ leBytes 2 1
    ++ leBytes 2 (c % 65536) ++ leBytes 4 (sr % 4294967296)
    ++ leBytes 4 (sr * 2 * c % 4294967296)
    ++ leBytes 2 (c * 2 % 65536) ++ leBytes 2 16
    ++ [0x64, 0x61, 0x74, 0x61] ++ leBytes 4 ((len * c * 2) % 4294967296)

/-- A one-channel buffer at 44100 Hz holding the single full-scale sample 1.0. -/
def monoOne : AudioBuffer :=
  { sampleRate := 44100, length := 1, channelData := [[fin 1]] }

/-! ## Audio extraction (`handleExtractAudio`) -/

/-- The state `trimRange`, in seconds; `end_` is the source's `end`. -/
structure TrimRange where
  start : ℚ
  end_ : ℚ

/-- Outcome of `audioContext.decodeAudioData`: the decoded buffer, or a rejection
whose message does or does not contain the word `memory`. -/
inductive DecodeResult where
  | decoded (originalBuffer : AudioBuffer)
  | rejected (mentionsMemory : Bool)

/-- The messages `handleExtractAudio` passes to `setError`. -/
inductive ExtractError where
  /-- Line 406: the end of the range must be after its start. -/
  | endNotAfterStart
  /-- Line 448: the file is too large to process in the browser. -/
  | tooLarge
  /-- Line 450: the audio could not be processed. -/
  | processingFailed
  deriving DecidableEq

/-- What a call of `handleExtractAudio` does: nothing (no file loaded), report an
error, or hand the bytes of a container to `downloadFile`. -/
inductive ExtractResult where
  | ignored
  | error (e : ExtractError)
  | downloaded (wav : List Nat)
  deriving DecidableEq

/-- Lines 430-437: `createBuffer` followed by the copy loops,
`newData[j] = oldData[j + actualStart]` for every channel. -/
def trimBuffer (originalBuffer : AudioBuffer) (actualStart frameCount : Nat) : AudioBuffer :=
  { sampleRate := originalBuffer.sampleRate
    length := frameCount
    channelData := (List.range originalBuffer.numberOfChannels).map fun i =>
      (List.range frameCount).map fun j =>
        readSample (originalBuffer.channelData.getD i []) (j + actualStart) }

/-- The function `handleExtractAudio(useTrim)`. `videoFile` tells whether a file
is loaded and `decode` is the outcome of decoding it. The download file name and
the `isExtractingAudio` flag are left out. The products `start * sampleRate` and
`end * sampleRate` are exact here; `Binary64.handleExtractAudio` rounds them as
the code does. -/
def handleExtractAudio (videoFile : Bool) (trimRange : TrimRange) (decode : DecodeResult)
    (useTrim : Bool) : ExtractResult :=
  if !videoFile then .ignored
  else if useTrim && decide (trimRange.end_ ≤ trimRange.start) then .error .endNotAfterStart
  else
    match decode with
    | .rejected mentionsMemory =>
        .error (if mentionsMemory then .tooLarge else .processingFailed)
    | .decoded originalBuffer =>
        if useTrim then
          let sampleRate := originalBuffer.sampleRate
          let startSample : Int := ⌊trimRange.start * sampleRate⌋
          let endSample : Int := ⌊trimRange.end_ * sampleRate⌋
          let actualStart : Int := max 0 startSample
          let actualEnd : Int := min (originalBuffer.length : Int) endSample
          let frameCount : Int := actualEnd - actualStart
          if frameCount ≤ 0 then .error .processingFailed
          else
            match bufferToWave
                (trimBuffer originalBuffer actualStart.toNat frameCount.toNat)
                frameCount.toNat with
            | none => .error .processingFailed
            | some wav => .downloaded wav
        else
          match bufferToWave originalBuffer originalBuffer.length with
          | none => .error .processingFailed
          | some wav => .downloaded wav

/-- A silent mono buffer of 5 s at 44100 Hz. -/
def fiveSecondMono : AudioBuffer :=
  { sampleRate := 44100, length := 220500, channelData := [List.replicate 220500 (fin 0)] }

/-- The trim range from 1.0 s to 1.1 s. -/
def tenthSecondTrim : TrimRange :=
  { start := 1, end_ := 11 / 10 }

/-! ## The trim-range model (drag handlers) -/

/-- The non-null values of `draggingHandle`: `'start'`, `'end'` (here `end_`)
and `'range'`. -/
inductive HandleType where
  | start
  | end_
  | range
  deriving DecidableEq

/-- What `timelineRef.current.getBoundingClientRect()` returns, as far as the
handlers read it. -/
structure Rect where
  left : ℚ
  width : ℚ

/-- The component state the drag handlers read and write. -/
structure TrimState where
  duration : ℚ
  trimRange : TrimRange
  draggingHandle : Option HandleType
  dragOffset : ℚ

/-- Lines 125-130: the pointer position as a time, clamped into `[0, duration]`.
Difference, quotient and product are exact here; `Binary64.pointerTime` rounds
them as the code does. -/
def pointerTime (duration clientX : ℚ) (rect : Rect) : ℚ :=
  let x := clientX - rect.left
  let width := rect.width
  let mouseTime := (x / width) * duration
  max 0 (min duration mouseTime)

/-- Lines 132-157: the updater passed to `setTrimRange`. The writes to the
playhead of the preview video are left out. Sums and differences are exact
here; `Binary64.nextTrimRange` rounds them as the code does. -/
def nextTrimRange (draggingHandle : HandleType) (mouseTime dragOffset duration : ℚ)
    (prev : TrimRange) : TrimRange :=
  match draggingHandle with
  | .start => { prev with start := min mouseTime (prev.end_ - 1 / 10) }
  | .end_ => { prev with end_ := max mouseTime (prev.start + 1 / 10) }
  | .range =>
      let rangeDuration := prev.end_ - prev.start
      let newStart := mouseTime - dragOffset
      let newStart := if newStart < 0 then 0 else newStart
      let newStart :=
        if newStart + rangeDuration > duration then duration - rangeDuration else newStart
      { start := newStart, end_ := newStart + rangeDuration }

/-- The handler `handleMouseMove(e)`; `timeline` is `timelineRef.current`. -/
def handleMouseMove (s : TrimState) (clientX : ℚ) (timeline : Option Rect) : TrimState :=
  match s.draggingHandle, timeline with
  | some draggingHandle, some rect =>
      if s.duration = 0 then s
      else
        let mouseTime := pointerTime s.duration clientX rect
        { s with
          trimRange := nextTrimRange draggingHandle mouseTime s.dragOffset s.duration s.trimRange }
  | _, _ => s

/-- A timeline 200 pixels wide starting at the left edge of the window. -/
def timeline200 : Rect :=
  { left := 0, width := 200 }

/-- A state in the middle of a drag of the whole range `[2, 5]` of a 10 s video. -/
def rangeDragState : TrimState :=
  { duration := 10, trimRange := { start := 2, end_ := 5 }, draggingHandle := some .range,
    dragOffset := 1 }

/-- A state in the middle of a drag of the start handle of the range `[2, 5]`. -/
def startDragState : TrimState :=
  { duration := 10, trimRange := { start := 2, end_ := 5 }, draggingHandle := some .start,
    dragOffset := 0 }

/-! ## The amplitude profiler (`analyzeAudioWaveform`) -/

/-- The number of entries of the profile (`samples`, line 88). -/
def samples : Nat := 200

/-- The constant `LARGE_FILE_THRESHOLD`, in bytes. -/
def LARGE_FILE_THRESHOLD : Nat := 350 * 1024 * 1024

/-- Lines 88-99: `filteredData`, the mean absolute amplitude of each of the 200
blocks of `blockSize = floor(length / 200)` samples. -/
def blockMeans (rawData : List JSNum) : List JSNum :=
  let blockSize := rawData.length / samples
  (List.range samples).map fun i =>
    let blockStart := blockSize * i
    let sum := (List.range blockSize).foldl
      (fun sum j => JSNum.add sum (JSNum.abs (readSample rawData (blockStart + j)))) (fin 0)
    JSNum.div sum (fin blockSize)

/-- Lines 88-102: `normalizedData`, every block mean multiplied by
`Math.pow(Math.max(...filteredData), -1)`. -/
def amplitudeProfile (rawData : List JSNum) : List JSNum :=
  let filteredData := blockMeans rawData
  let multiplier := JSNum.powNegOne (JSNum.maxList filteredData)
  filteredData.map fun n => JSNum.mul n multiplier

/-- A selected file, as far as the profiler reads it: its size in bytes. -/
structure MediaFile where
  size : Nat

/-- The component state `analyzeAudioWaveform` writes. The field
`isAnalyzingAudio` of the argument is the value the closure captured at the last
render. -/
structure AnalysisState where
  waveformData : List JSNum
  isAnalyzingAudio : Bool
  isLargeFile : Bool

/-- The function `analyzeAudioWaveform(file)`: the state once the promise has
settled. `decode` is the outcome of reading and decoding the file; a buffer
without channel 0 makes `getChannelData(0)` throw, which the `catch` block
absorbs like a failed decode. -/
def analyzeAudioWaveform (s : AnalysisState) (file : Option MediaFile)
    (decode : DecodeResult) : AnalysisState :=
  match file with
  | none => s
  | some file =>
      if file.size > LARGE_FILE_THRESHOLD && !s.isAnalyzingAudio then
        { waveformData := [], isLargeFile := true, isAnalyzingAudio := false }
      else
        match decode with
        | .rejected _ => { s with waveformData := [], isAnalyzingAudio := false }
        | .decoded audioBuffer =>
            match audioBuffer.channelData.head? with
            | none => { s with waveformData := [], isAnalyzingAudio := false }
            | some rawData =>
                { waveformData := amplitudeProfile rawData, isLargeFile := false,
                  isAnalyzingAudio := false }

/-- The function `forceAnalyzeAudio()`. -/
def forceAnalyzeAudio (s : AnalysisState) (videoFile : Option MediaFile)
    (decode : DecodeResult) : AnalysisState :=
  match videoFile with
  | none => s
  | some file => analyzeAudioWaveform { s with isLargeFile := false } (some file) decode

/-- Sum of the absolute values of `n` rational samples from index `start` on. -/
def blockSumQ (qs : List ℚ) (start n : Nat) : ℚ :=
  ((List.range n).map fun j => |qs.getD (start + j) 0|).sum

/-- The block means of a rational sample array, for a nonzero block size. -/
def blockMeansQ (qs : List ℚ) : List ℚ :=
  (List.range samples).map fun i =>
    blockSumQ qs (qs.length / samples * i) (qs.length / samples) / ((qs.length / samples : Nat) : ℚ)

/-- The profiler state before the first analysis. -/
def idleAnalysis : AnalysisState :=
  { waveformData := [], isAnalyzingAudio := false, isLargeFile := false }

/-- A file of one megabyte. -/
def smallFile : MediaFile :=
  { size := 1000000 }

/-- 200 samples of amplitude 0.5. -/
def halfScale : List ℚ := List.replicate 200 (1 / 2)

/-- A mono buffer holding `halfScale`. -/
def halfScaleBuffer : AudioBuffer :=
  { sampleRate := 44100, length := 200, channelData := [halfScale.map fin] }

/-- 200 silent samples followed by one full-scale sample. -/
def tailOnly : List ℚ := List.replicate 200 0 ++ [1]

/-- A mono buffer holding `tailOnly`. -/
def tailOnlyBuffer : AudioBuffer :=
  { sampleRate := 44100, length := 201, channelData := [tailOnly.map fin] }

/-- 200 silent samples. -/
def silence : List ℚ := List.replicate 200 0

/-- A mono buffer holding `silence`. -/
def silentBuffer : AudioBuffer :=
  { sampleRate := 44100, length := 200, channelData := [silence.map fin] }

/-! ## The storyboard pipeline (`handleGenerateStoryboard`) -/

/-- The constant `MAX_STORYBOARD_DURATION`, in seconds. -/
def MAX_STORYBOARD_DURATION : ℚ := 60

/-- The remainder `a % b` of JavaScript, which has the sign of `a`. -/
def jsMod (a b : ℚ) : ℚ :=
  a - b * (JSNum.truncQ (a / b) : ℚ)

/-- The method `s.padStart(n, c)`. -/
def padStart (s : String) (n : Nat) (c : Char) : String :=
  String.mk (List.replicate (n - s.length) c) ++ s

/-- The method `s.replace(c, r)` for one-character strings: only the first
occurrence is replaced. -/
def replaceFirst : List Char → Char → Char → List Char
  | [], _, _ => []
  | x :: xs, c, r => if x = c then r :: xs else x :: replaceFirst xs c r

/-- The function `formatTime(seconds)` on an exact time; `Binary64.formatTime`
is the same function on a double. -/
def formatTime (seconds : ℚ) : String :=
  let mins : Int := ⌊seconds / 60⌋
  let secs : Int := ⌊jsMod seconds 60⌋
  let ms : Int := ⌊jsMod seconds 1 * 10⌋
  toString mins ++ ":" ++ padStart (toString secs) 2 '0' ++ "." ++ toString ms

/-- The values of `storyboardFormat`. -/
inductive ImageFormat where
  | png
  | jpg
  deriving DecidableEq

/-- What a run of `handleGenerateStoryboard` does to the component state and to
its collaborators, in order. -/
inductive StoryEffect where
  /-- The call `setError(msg)`. -/
  | setError (msg : String)
  /-- The call `setIsZipping(b)`. -/
  | setIsZipping (b : Bool)
  /-- The call `setZipProgress(p)`. -/
  | setZipProgress (p : JSNum)
  /-- Lines 319-320: `new JSZip()` and its folder. -/
  | newZip
  /-- Line 330: `video.currentTime = t`, followed by the wait for `seeked`. -/
  | seek (t : ℚ)
  /-- Line 343: `captureFrame(video, null, storyboardFormat)` with the playhead at `t`. -/
  | capture (t : ℚ) (format : ImageFormat)
  /-- Line 348: `folder.file(name, ...)`. -/
  | addFile (name : String)
  /-- Line 356: `zip.generateAsync`. -/
  | generateZip
  /-- Line 358: `downloadFile(url, filename)`. -/
  | download (filename : String)
  /-- Line 366: the timer that sets the progress back to 0 two seconds later. -/
  | scheduleProgressReset
  deriving DecidableEq

/-- What follows the assignment `video.currentTime = t` of line 330: the
`seeked` event fires, the assignment throws, or the event never fires and the
`await` of lines 331-337 stays suspended (that promise has no rejection path). -/
inductive SeekOutcome where
  | seeked
  | throws
  | pending
  deriving DecidableEq

/-- How the `while` loop of lines 328-353 ends: it runs to completion, a step
throws into the `catch` block, or it stays suspended on a seek. -/
inductive LoopEnd where
  | completed
  | threw
  | suspended
  deriving DecidableEq

/-- The behaviour of the collaborators during a run, by frame index: the outcome
of the seek, whether the capture resolves, and whether the archive can be
generated. -/
structure StoryboardEnv where
  seek : Nat → SeekOutcome
  captureOk : Nat → Bool
  zipOk : Bool

/-- The state and references `handleGenerateStoryboard` reads: the name of the
loaded file if any, whether `processingVideoRef.current` is set, the duration
and the chosen format. -/
structure StoryboardInput where
  videoFile : Option String
  video : Bool
  duration : ℚ
  storyboardFormat : ImageFormat

/-- Line 311: the message of the capacity error. -/
def capacityMessage (duration : ℚ) : String :=
  "Видео слишком длинное (" ++ formatTime duration ++ "). Для режима 10 FPS лимит: "
    ++ formatTime MAX_STORYBOARD_DURATION ++ " (до 600 кадров)."

/-- Line 363: the message of the pipeline error. -/
def pipelineMessage : String := "Ошибка при создании раскадровки."

/-- Lines 347-348: the name of the archive entry of frame `frameCount`. -/
def entryName (frameCount : Nat) (currentTime : ℚ) (ext : String) : String :=
  let timeStr := String.mk
    (replaceFirst (replaceFirst (formatTime currentTime).data ':' '-') '.' '_')
  "frame_" ++ padStart (toString frameCount) 4 '0' ++ "_" ++ timeStr ++ "." ++ ext

/-- Line 352: `Math.min(99, Math.round((frameCount / totalFrames) * 100))`; the
quotient is `Infinity` when `totalFrames` is 0 and `frameCount` is positive.
Quotient and product are exact here; `Binary64.loopProgress` rounds them. -/
def loopProgress (frameCount : Nat) (totalFrames : Int) : JSNum :=
  JSNum.min (fin 99)
    (JSNum.round (JSNum.mul (JSNum.div (fin frameCount) (fin totalFrames)) (fin 100)))

/-- The `while (currentTime < duration)` loop of lines 328-353: its effects and
how it ends. The capture times are the exact multiples of one tenth here;
`Binary64.storyboardLoop` accumulates the rounded sums the code computes. -/
def storyboardLoop (env : StoryboardEnv) (duration : ℚ) (format : ImageFormat) (ext : String)
    (totalFrames : Int) (currentTime : ℚ) (frameCount : Nat) : List StoryEffect × LoopEnd :=
  if _h : currentTime < duration then
    match env.seek frameCount with
    | .throws => ([.seek currentTime], .threw)
    | .pending => ([.seek currentTime], .suspended)
    | .seeked =>
        if env.captureOk frameCount then
          let rest := storyboardLoop env duration format ext totalFrames (currentTime + 1 / 10)
            (frameCount + 1)
          (.seek currentTime :: .capture currentTime format
              :: .addFile (entryName frameCount currentTime ext)
              :: .setZipProgress (loopProgress (frameCount + 1) totalFrames) :: rest.1, rest.2)
        else ([.seek currentTime, .capture currentTime format], .threw)
  else ([], .completed)
termination_by ⌈(duration - currentTime) * 10⌉.toNat
decreasing_by
  have h1 : 0 < (duration - currentTime) * 10 := by linarith
  have h2 : 0 < ⌈(duration - currentTime) * 10⌉ := Int.ceil_pos.mpr h1
  have h3 : ⌈(duration - (currentTime + 1 / 10)) * 10⌉ = ⌈(duration - currentTime) * 10⌉ - 1 := by
    rw [← Int.ceil_sub_one]
    exact congrArg Int.ceil (by ring)
  rw [h3]
  omega

/-- The function `handleGenerateStoryboard()`: the effects of one run. A run
suspended on a seek reaches neither the `catch` nor the `finally` block. -/
def handleGenerateStoryboard (inp : StoryboardInput) (env : StoryboardEnv) : List StoryEffect :=
  match inp.videoFile, inp.video with
  | some name, true =>
      if inp.duration > MAX_STORYBOARD_DURATION then
        [.setError (capacityMessage inp.duration)]
      else
        let interval : ℚ := 1 / 10
        let totalFrames : Int := ⌊inp.duration / interval⌋
        let ext := if inp.storyboardFormat = .png then "png" else "jpg"
        let loop := storyboardLoop env inp.duration inp.storyboardFormat ext totalFrames 0 0
        let start : List StoryEffect :=
          [.setIsZipping true, .setZipProgress (fin 0), .setError "", .newZip]
        let cleanup : List StoryEffect := [.setIsZipping false, .scheduleProgressReset]
        match loop.2 with
        | .completed =>
            if env.zipOk then
              start ++ loop.1
                ++ [.generateZip, .download ((name.splitOn ".").headD "" ++ "_storyboard.zip"),
                  .setZipProgress (fin 100)]
                ++ cleanup
            else start ++ loop.1 ++ [.generateZip, .setError pipelineMessage] ++ cleanup
        | .threw => start ++ loop.1 ++ [.setError pipelineMessage] ++ cleanup
        | .suspended => start ++ loop.1
  | _, _ => []

/-- A loaded 61 s video with the default format. -/
def overLongInput : StoryboardInput :=
  { videoFile := some "clip.mp4", video := true, duration := 61, storyboardFormat := .png }

/-- Collaborators that never fail. -/
def reliableEnv : StoryboardEnv :=
  { seek := fun _ => .seeked, captureOk := fun _ => true, zipOk := true }

/-- The effects of `n` consecutive successful loop iterations starting at frame
`k`, whose capture time is `k / 10`. -/
def frameEffects (format : ImageFormat) (ext : String) (totalFrames : Int) :
    Nat → Nat → List StoryEffect
  | 0, _ => []
  | n + 1, k =>
      .seek ((k : ℚ) / 10) :: .capture ((k : ℚ) / 10) format
        :: .addFile (entryName k ((k : ℚ) / 10) ext)
        :: .setZipProgress (loopProgress (k + 1) totalFrames)
        :: frameEffects format ext totalFrames n (k + 1)

/-- The times of the capture invocations of a run, in order. -/
def captureTimes (trace : List StoryEffect) : List ℚ :=
  trace.filterMap fun e => match e with
    | .capture t _ => some t
    | _ => none

/-- The names of the entries added to the archive during a run, in order. -/
def archiveEntries (trace : List StoryEffect) : List String :=
  trace.filterMap fun e => match e with
    | .addFile name => some name
    | _ => none

/-- The values passed to `setIsZipping` during a run, in order. -/
def zippingValues (trace : List StoryEffect) : List Bool :=
  trace.filterMap fun e => match e with
    | .setIsZipping b => some b
    | _ => none

/-- The number of loop iterations for a duration `d`: the least `n` with
`d ≤ n / 10`. -/
def captureCount (d : ℚ) : Nat :=
  ⌈d * 10⌉.toNat

/-- A loaded 2 s video with the default format. -/
def twoSecondInput : StoryboardInput :=
  { videoFile := some "clip.mp4", video := true, duration := 2, storyboardFormat := .png }

/-- Collaborators whose very first seek never signals `seeked`. -/
def stuckSeekEnv : StoryboardEnv :=
  { seek := fun _ => .pending, captureOk := fun _ => true, zipOk := true }

/-- Collaborators whose capture of frame 3 rejects. -/
def thirdCaptureFailsEnv : StoryboardEnv :=
  { seek := fun _ => .seeked, captureOk := fun i => decide (i ≠ 3), zipOk := true }

/-- The progress formula `min(99, round(framesCompleted / totalExpectedFrames * 100))`
as an integer, a division by zero frames being read as infinity. -/
def specProgress (framesCompleted : Nat) (totalExpectedFrames : Int) : Int :=
  if totalExpectedFrames = 0 then 99
  else min 99 ⌊((framesCompleted : ℚ) / (totalExpectedFrames : ℚ)) * 100 + 1 / 2⌋

/-! ## The effects of an audio extraction -/

/-- What a call of `handleExtractAudio` does, in order. -/
inductive ExtractEffect where
  /-- The call `setError(msg)`. -/
  | setError (e : ExtractError)
  /-- The call `setIsExtractingAudio(b)`. -/
  | setIsExtractingAudio (b : Bool)
  /-- Lines 412-414: reading the file and `decodeAudioData`. -/
  | decode
  /-- Line 441: the call `bufferToWave(finalBuffer, finalLength)`. -/
  | encode (finalLength : Nat)
  /-- Line 444: `downloadFile` with the bytes of the container. -/
  | download (wav : List Nat)
  deriving DecidableEq

/-! ## File loading and the forced analysis -/

/-- The part of `handleFileChange` that concerns the profiler: the resets of
lines 206-207, the type check, the size flag of lines 217-219 and the automatic
call of line 227. `isVideo` is `file.type.startsWith('video/')`. -/
def handleFileChange (s : AnalysisState) (file : Option MediaFile) (isVideo : Bool)
    (decode : DecodeResult) : AnalysisState :=
  match file with
  | none => s
  | some f =>
      let s1 : AnalysisState := { s with waveformData := [], isLargeFile := false }
      if !isVideo then s1
      else
        let s2 : AnalysisState :=
          if f.size > LARGE_FILE_THRESHOLD then { s1 with isLargeFile := true } else s1
        analyzeAudioWaveform s2 (some f) decode

/-- A file of 400 MiB. -/
def largeFile : MediaFile :=
  { size := 400 * 1024 * 1024 }

/-- The profiler state after a large file was skipped on load. -/
def skippedAnalysis : AnalysisState :=
  { waveformData := [], isAnalyzingAudio := false, isLargeFile := true }

/-! ## The seek-snapshot primitive (`captureFrame`) -/

/-- The video element as `captureFrame` reads and writes it. -/
structure VideoElement where
  videoWidth : Nat
  videoHeight : Nat
  currentTime : ℚ

/-- The hidden canvas: its size and the playhead time of the frame drawn on it,
if any. -/
structure Canvas where
  width : Nat
  height : Nat
  drawn : Option ℚ

/-- The data URL returned by `canvas.toDataURL(mime, quality)`, described by
what it encodes. -/
structure Image where
  time : ℚ
  width : Nat
  height : Nat
  format : ImageFormat
  quality : Option ℚ
  deriving DecidableEq

/-- How the promise of a `captureFrame` call settles. -/
inductive Settlement where
  | resolved (imageUrl : Image)
  /-- Line 239: `new Error("Video not ready")`. -/
  | videoNotReady
  deriving DecidableEq

/-- Lines 233-256, the closure `processCapture`: the canvas afterwards and the
settlement of the promise. -/
def processCapture (videoElement : VideoElement) (canvas : Canvas) (format : ImageFormat) :
    Canvas × Settlement :=
  if videoElement.videoWidth = 0 then (canvas, .videoNotReady)
  else
    let canvas1 : Canvas :=
      { width := videoElement.videoWidth, height := videoElement.videoHeight,
        drawn := some videoElement.currentTime }
    let quality : Option ℚ := if format = .png then none else some (9 / 10)
    (canvas1, .resolved
      { time := videoElement.currentTime, width := canvas1.width, height := canvas1.height,
        format := format, quality := quality })

/-- A pending `captureFrame` call: its identity and its format. -/
structure PendingCapture where
  id : Nat
  format : ImageFormat
  deriving DecidableEq

/-- A rasterisation queued with `requestAnimationFrame` by `handleSeeked`,
together with the seek whose `seeked` event triggered it. -/
structure QueuedCapture where
  id : Nat
  format : ImageFormat
  signalOf : Nat
  deriving DecidableEq

/-- The video element, the canvas, the `handleSeeked` listeners attached to the
element, the queued animation-frame callbacks and the promises settled so far
(with the seek whose signal triggered them, if any). -/
structure CaptureState where
  video : VideoElement
  canvas : Canvas
  listeners : List PendingCapture
  frameCallbacks : List QueuedCapture
  settled : List (Nat × Option Nat × Settlement)

/-- What happens around `captureFrame`: a call, the dispatch of the `seeked`
event that completes the seek issued by call `signalOf`, and an animation
frame. -/
inductive CaptureEvent where
  | call (id : Nat) (time : Option ℚ) (format : ImageFormat)
  | seeked (signalOf : Nat)
  | animationFrame

/-- The callbacks of one animation frame, run in order. -/
def runFrameCallbacks (video : VideoElement) :
    List QueuedCapture → Canvas → List (Nat × Option Nat × Settlement)
      → Canvas × List (Nat × Option Nat × Settlement)
  | [], canvas, settled => (canvas, settled)
  | q :: qs, canvas, settled =>
      let r := processCapture video canvas q.format
      runFrameCallbacks video qs r.1 (settled ++ [(q.id, some q.signalOf, r.2)])

/-- One step of the element: lines 258-269 for a call, the listeners
`handleSeeked` of lines 260-265 for a `seeked` event (every attached listener
runs, queues its rasterisation and detaches itself), and the queued callbacks
for an animation frame. -/
def captureStep (s : CaptureState) : CaptureEvent → CaptureState
  | .call id (some time) format =>
      { s with video := { s.video with currentTime := time },
               listeners := s.listeners ++ [{ id := id, format := format }] }
  | .call id none format =>
      let r := processCapture s.video s.canvas format
      { s with canvas := r.1, settled := s.settled ++ [(id, none, r.2)] }
  | .seeked signalOf =>
      { s with listeners := [],
               frameCallbacks := s.frameCallbacks ++ s.listeners.map fun l =>
                 { id := l.id, format := l.format, signalOf := signalOf } }
  | .animationFrame =>
      let r := runFrameCallbacks s.video s.frameCallbacks s.canvas s.settled
      { s with canvas := r.1, settled := r.2, frameCallbacks := [] }

/-- The state after a sequence of events. -/
def captureRun (s : CaptureState) (events : List CaptureEvent) : CaptureState :=
  events.foldl captureStep s

/-- A loaded 1280x720 video at rest, with a fresh canvas. -/
def readyCapture : CaptureState :=
  { video := { videoWidth := 1280, videoHeight := 720, currentTime := 0 },
    canvas := { width := 300, height := 150, drawn := none },
    listeners := [], frameCallbacks := [], settled := [] }

/-- A video whose dimensions are not known yet, with a fresh canvas. -/
def notReadyCapture : CaptureState :=
  { video := { videoWidth := 0, videoHeight := 0, currentTime := 0 },
    canvas := { width := 300, height := 150, drawn := none },
    listeners := [], frameCallbacks := [], settled := [] }

/-! ## Reading archive entry names -/

/-- The number a sequence of decimal digits denotes. -/
def decimalValue (cs : List Char) : Nat :=
  cs.foldl (fun acc c => 10 * acc + (c.toNat - 48)) 0

/-- The characters a printed integer is made of: decimal digits and the sign. -/
def isNumberChar (c : Char) : Bool :=
  c.isDigit || c == '-'

/-- A mono buffer of 46 frames whose sample `k` is `k / 100`. -/
def rampBuffer : AudioBuffer :=
  { sampleRate := 44100, length := 46,
    channelData := [(List.range 46).map fun k : Nat => fin ((k : ℚ) / 100)] }

/-! ## Binary64 arithmetic

The definitions up to here compute on exact rationals. From here on every
arithmetic operation is the IEEE 754 binary64 one that JavaScript performs:
the exact result rounded to the nearest double, ties to the even one, with
overflow to an infinity. -/

/-- A JavaScript number as a binary64 value. Every finite double is an integer
multiple of `2^-1074`, the smallest positive double: `fin k` is the value
`k * 2^-1074`. The sign of zero is not represented. -/
inductive F64 where
  | fin (k : Int)
  | posInf
  | negInf
  | nan
  deriving DecidableEq

namespace F64

/-- The number of units `2^-1074` in the value 1. -/
def scale : Nat := 2 ^ 1074

/-- The rational value of `k` units. -/
def toRat (k : Int) : ℚ := (k : ℚ) / (scale : ℚ)

/-- The quotient `n / d` rounded to the nearest integer, a tie going to the even
neighbour. -/
def rneDiv (n d : Nat) : Nat :=
  let q := n / d
  let r := n % d
  if 2 * r < d then q else if d < 2 * r then q + 1 else if q % 2 = 0 then q else q + 1

/-- Binary search for the position of the leading bit: with `2^acc ≤ x` and
`x < 2^(acc + 2^j)` on entry, the result `r` has `2^r ≤ x < 2^(r+1)`. -/
def log2Aux (x : Nat) : Nat → Nat → Nat
  | 0, acc => acc
  | j + 1, acc =>
      if 2 ^ (acc + 2 ^ j) ≤ x then log2Aux x j (acc + 2 ^ j) else log2Aux x j acc

/-- The position of the leading bit of `x`, for `1 ≤ x < 2^4096` (every
quotient and product of finite doubles, counted in units, is below that). -/
def ilog2 (x : Nat) : Nat := log2Aux x 12 0

/-- The positive rational `n / d`, counted in units, rounded to the nearest
double. Below `2^53` units (the subnormals and the first binade of normal
numbers) the doubles are one unit apart; in `[2^(52+e), 2^(53+e))` they are the
multiples of `2^e` units. -/
def roundUnits (n d : Nat) : Nat :=
  if n < 2 ^ 53 * d then rneDiv n d
  else
    let e := ilog2 (n / d) - 52
    rneDiv n (d * 2 ^ e) * 2 ^ e

/-- The rational `n / d`, counted in units, rounded to binary64. A magnitude
that rounds to `2^1024` (that is `2^2098` units) or more becomes an infinity. -/
def roundNearest (n : Int) (d : Nat) : F64 :=
  let m := roundUnits n.natAbs d
  if 2 ^ 2098 ≤ m then (if 0 ≤ n then posInf else negInf)
  else fin (if 0 ≤ n then (m : Int) else -(m : Int))

/-- The number literal whose decimal value is `n / d`. -/
def lit (n : Int) (d : Nat) : F64 := roundNearest (n * (scale : Int)) d

/-- The number that holds the integer `n`. -/
def ofNat (n : Nat) : F64 := roundNearest ((n : Int) * (scale : Int)) 1

/-- The operator `a + b`. -/
def add : F64 → F64 → F64
  | fin a, fin b => roundNearest (a + b) 1
  | nan, _ => nan
  | _, nan => nan
  | posInf, negInf => nan
  | negInf, posInf => nan
  | posInf, _ => posInf
  | _, posInf => posInf
  | negInf, _ => negInf
  | _, negInf => negInf

/-- The operator `a - b`. -/
def sub : F64 → F64 → F64
  | fin a, fin b => roundNearest (a - b) 1
  | nan, _ => nan
  | _, nan => nan
  | posInf, posInf => nan
  | negInf, negInf => nan
  | posInf, _ => posInf
  | _, negInf => posInf
  | negInf, _ => negInf
  | _, posInf => negInf

/-- The operator `a * b`. -/
def mul : F64 → F64 → F64
  | fin a, fin b => roundNearest (a * b) scale
  | nan, _ => nan
  | _, nan => nan
  | fin a, posInf => if a = 0 then nan else if 0 < a then posInf else negInf
  | fin a, negInf => if a = 0 then nan else if 0 < a then negInf else posInf
  | posInf, fin b => if b = 0 then nan else if 0 < b then posInf else negInf
  | negInf, fin b => if b = 0 then nan else if 0 < b then negInf else posInf
  | posInf, posInf => posInf
  | negInf, negInf => posInf
  | posInf, negInf => negInf
  | negInf, posInf => negInf

/-- The operator `a / b` (a zero divisor is the positive zero). -/
def div : F64 → F64 → F64
  | fin a, fin b =>
      if b = 0 then (if a = 0 then nan else if 0 < a then posInf else negInf)
      else roundNearest (if 0 < b then a * (scale : Int) else -(a * (scale : Int))) b.natAbs
  | nan, _ => nan
  | _, nan => nan
  | fin _, posInf => fin 0
  | fin _, negInf => fin 0
  | posInf, fin b => if 0 ≤ b then posInf else negInf
  | negInf, fin b => if 0 ≤ b then negInf else posInf
  | posInf, posInf => nan
  | posInf, negInf => nan
  | negInf, posInf => nan
  | negInf, negInf => nan

/-- The operator `a % b`: the remainder has the sign of `a` and is exact. -/
def mod : F64 → F64 → F64
  | fin a, fin b => if b = 0 then nan else fin (Int.tmod a b)
  | fin a, posInf => fin a
  | fin a, negInf => fin a
  | _, _ => nan

/-- The comparison `a < b`, false as soon as one side is `NaN`. -/
def lt : F64 → F64 → Bool
  | fin a, fin b => decide (a < b)
  | nan, _ => false
  | _, nan => false
  | negInf, negInf => false
  | negInf, _ => true
  | _, negInf => false
  | posInf, _ => false
  | fin _, posInf => true

/-- The comparison `a <= b`, false as soon as one side is `NaN`. -/
def le : F64 → F64 → Bool
  | fin a, fin b => decide (a ≤ b)
  | nan, _ => false
  | _, nan => false
  | negInf, _ => true
  | _, posInf => true
  | posInf, _ => false
  | fin _, negInf => false

/-- The comparison `a > b`. -/
def gt (a b : F64) : Bool := lt b a

/-- The call `Math.max(a, b)`. -/
def max : F64 → F64 → F64
  | fin a, fin b => fin (Max.max a b)
  | nan, _ => nan
  | _, nan => nan
  | posInf, _ => posInf
  | _, posInf => posInf
  | negInf, b => b
  | a, negInf => a

/-- The call `Math.min(a, b)`. -/
def min : F64 → F64 → F64
  | fin a, fin b => fin (Min.min a b)
  | nan, _ => nan
  | _, nan => nan
  | negInf, _ => negInf
  | _, negInf => negInf
  | posInf, b => b
  | a, posInf => a

/-- The call `Math.floor(a)`; the floor of a double is a double. -/
def floor : F64 → F64
  | fin k => fin (k / (scale : Int) * (scale : Int))
  | a => a

/-- The call `Math.round(a)`: the nearest integer, halves rounded up. -/
def mathRound : F64 → F64
  | fin k => fin ((k + ((scale / 2 : Nat) : Int)) / (scale : Int) * (scale : Int))
  | a => a

/-- The integer an integer-valued number holds, `none` for a number that is not
an integer. -/
def toInt : F64 → Option Int
  | fin k => if k % (scale : Int) = 0 then some (k / (scale : Int)) else none
  | _ => none

end F64
/-! ## The storyboard pipeline in binary64 arithmetic -/

namespace Binary64

/-- The constant `MAX_STORYBOARD_DURATION`, in seconds. -/
def MAX_STORYBOARD_DURATION : F64 := F64.ofNat 60

/-- Line 321: `const interval = 0.1`, the double nearest to one tenth. -/
def interval : F64 := F64.lit 1 10

/-- The conversion of a number to a string in a template literal or by
`toString()`, for the numbers `Math.floor` returns: the decimal expansion of an
integer (JavaScript prints it so below `10^21`) and the names of the special
values. -/
def numberToString : F64 → String
  | .fin k => toString (k / (F64.scale : Int))
  | .posInf => "Infinity"
  | .negInf => "-Infinity"
  | .nan => "NaN"

/-- The function `formatTime(seconds)`. -/
def formatTime (seconds : F64) : String :=
  let mins := F64.floor (F64.div seconds (F64.ofNat 60))
  let secs := F64.floor (F64.mod seconds (F64.ofNat 60))
  let ms := F64.floor (F64.mul (F64.mod seconds (F64.ofNat 1)) (F64.ofNat 10))
  numberToString mins ++ ":" ++ padStart (numberToString secs) 2 '0' ++ "." ++ numberToString ms

/-- The handlers of the component that replace the source of the capture video
(`videoSrc`, the `src` of the element behind `processingVideoRef`): `resetApp`
empties it, `handleFileChange` with a video file sets a new one. -/
inductive UserEvent where
  | resetApp
  | loadVideo
  deriving DecidableEq

/-- What a run of `handleGenerateStoryboard` does to the component state and to
its collaborators, in order, together with the handlers that run while it is
suspended. -/
inductive StoryEffect where
  /-- The call `setError(msg)`. -/
  | setError (msg : String)
  /-- The call `setIsZipping(b)`. -/
  | setIsZipping (b : Bool)
  /-- The call `setZipProgress(p)`. -/
  | setZipProgress (p : F64)
  /-- Lines 319-320: `new JSZip()` and its folder. -/
  | newZip
  /-- Line 330: `video.currentTime = t`, followed by the wait for `seeked`. -/
  | seek (t : F64)
  /-- A handler invoked by the user while the run waits for `seeked`. -/
  | handler (e : UserEvent)
  /-- Line 343: `captureFrame(video, null, storyboardFormat)` with the playhead at `t`. -/
  | capture (t : F64) (format : ImageFormat)
  /-- Line 348: `folder.file(name, ...)`. -/
  | addFile (name : String)
  /-- Line 356: `zip.generateAsync`. -/
  | generateZip
  /-- Line 358: `downloadFile(url, filename)`. -/
  | download (filename : String)
  /-- Line 366: the timer that sets the progress back to 0 two seconds later. -/
  | scheduleProgressReset
  deriving DecidableEq

/-- How the `while` loop of lines 328-353 ends: it runs to completion, a step
throws into the `catch` block, it stays suspended on a seek, or the model ran
out of fuel before the loop ended. -/
inductive LoopEnd where
  | completed
  | threw
  | suspended
  | outOfFuel
  deriving DecidableEq

/-- The behaviour of the collaborators during a run, by frame index: the outcome
of the seek on a video element that has a source, whether the capture resolves,
whether the archive can be generated, and the handlers the user invokes while
the run waits for the `seeked` event of the frame. -/
structure StoryboardEnv where
  seek : Nat → SeekOutcome
  captureOk : Nat → Bool
  zipOk : Bool
  events : Nat → List UserEvent

/-- Whether the capture video has a source once the handlers `es` have run,
given that it had one before. An element whose source was emptied has no media:
an assignment to `currentTime` starts no seek on it, a seek in progress is
abandoned, and no `seeked` event is dispatched. -/
def hasSource (es : List UserEvent) : Bool :=
  match es.getLast? with
  | none => true
  | some .loadVideo => true
  | some .resetApp => false

/-- The state and references `handleGenerateStoryboard` reads: the name of the
loaded file if any, whether `processingVideoRef.current` is set, the duration
and the chosen format. -/
structure StoryboardInput where
  videoFile : Option String
  video : Bool
  duration : F64
  storyboardFormat : ImageFormat

/-- Line 311: the message of the capacity error. -/
def capacityMessage (duration : F64) : String :=
  "Видео слишком длинное (" ++ formatTime duration ++ "). Для режима 10 FPS лимит: "
    ++ formatTime MAX_STORYBOARD_DURATION ++ " (до 600 кадров)."

/-- Lines 347-348: the name of the archive entry of frame `frameCount`. -/
def entryName (frameCount : Nat) (currentTime : F64) (ext : String) : String :=
  let timeStr := String.mk
    (replaceFirst (replaceFirst (formatTime currentTime).data ':' '-') '.' '_')
  "frame_" ++ padStart (toString frameCount) 4 '0' ++ "_" ++ timeStr ++ "." ++ ext

/-- Line 352: `Math.min(99, Math.round((frameCount / totalFrames) * 100))`. -/
def loopProgress (frameCount : Nat) (totalFrames : F64) : F64 :=
  F64.min (F64.ofNat 99)
    (F64.mathRound (F64.mul (F64.div (F64.ofNat frameCount) totalFrames) (F64.ofNat 100)))

/-- The `while (currentTime < duration)` loop of lines 328-353: its effects and
how it ends. The source loop has no bound; `fuel` bounds the number of
iterations the model follows. -/
def storyboardLoop (env : StoryboardEnv) (duration : F64) (format : ImageFormat) (ext : String)
    (totalFrames : F64) : Nat → F64 → Nat → List StoryEffect × LoopEnd
  | 0, _, _ => ([], .outOfFuel)
  | fuel + 1, currentTime, frameCount =>
      if F64.lt currentTime duration then
        match env.seek frameCount with
        | .throws => ([.seek currentTime], .threw)
        | outcome =>
            let handlers := (env.events frameCount).map StoryEffect.handler
            if hasSource (env.events frameCount) && decide (outcome = .seeked) then
              if env.captureOk frameCount then
                let rest := storyboardLoop env duration format ext totalFrames fuel
                  (F64.add currentTime interval) (frameCount + 1)
                (.seek currentTime :: handlers ++ .capture currentTime format
                    :: .addFile (entryName frameCount currentTime ext)
                    :: .setZipProgress (loopProgress (frameCount + 1) totalFrames) :: rest.1,
                  rest.2)
              else (.seek currentTime :: handlers ++ [.capture currentTime format], .threw)
            else (.seek currentTime :: handlers, .suspended)
      else ([], .completed)

/-- The function `handleGenerateStoryboard()`: the effects of one run, `none`
when the model ran out of fuel. A run suspended on a seek reaches neither the
`catch` nor the `finally` block. -/
def handleGenerateStoryboard (fuel : Nat) (inp : StoryboardInput) (env : StoryboardEnv) :
    Option (List StoryEffect) :=
  match inp.videoFile, inp.video with
  | some name, true =>
      if F64.gt inp.duration MAX_STORYBOARD_DURATION then
        some [.setError (capacityMessage inp.duration)]
      else
        let totalFrames := F64.floor (F64.div inp.duration interval)
        let ext := if inp.storyboardFormat = .png then "png" else "jpg"
        let loop := storyboardLoop env inp.duration inp.storyboardFormat ext totalFrames fuel
          (F64.fin 0) 0
        let start : List StoryEffect :=
          [.setIsZipping true, .setZipProgress (F64.fin 0), .setError "", .newZip]
        let cleanup : List StoryEffect := [.setIsZipping false, .scheduleProgressReset]
        match loop.2 with
        | .completed =>
            if env.zipOk then
              some (start ++ loop.1
                ++ [.generateZip, .download ((name.splitOn ".").headD "" ++ "_storyboard.zip"),
                  .setZipProgress (F64.ofNat 100)]
                ++ cleanup)
            else some (start ++ loop.1 ++ [.generateZip, .setError pipelineMessage] ++ cleanup)
        | .threw => some (start ++ loop.1 ++ [.setError pipelineMessage] ++ cleanup)
        | .suspended => some (start ++ loop.1)
        | .outOfFuel => none
  | _, _ => some []

/-- The value of `currentTime` at the start of iteration `k`: `0` with
`interval` added `k` times, each sum rounded. -/
def tick : Nat → F64
  | 0 => F64.fin 0
  | k + 1 => F64.add (tick k) interval

/-- Whether `t` is a finite time within `2^-36` of `k` tenths of a second, that
is `|10 t - k| ≤ 2^-36`. -/
def tickNear (k : Nat) : F64 → Bool
  | .fin x => decide ((10 * x - (k : Int) * (F64.scale : Int)).natAbs ≤ F64.scale / 2 ^ 36)
  | _ => false

/-- The effects of `n` consecutive successful loop iterations starting at frame
`k`. -/
def frameEffects (env : StoryboardEnv) (format : ImageFormat) (ext : String) (totalFrames : F64) :
    Nat → Nat → List StoryEffect
  | 0, _ => []
  | n + 1, k =>
      .seek (tick k) :: (env.events k).map StoryEffect.handler ++ .capture (tick k) format
        :: .addFile (entryName k (tick k) ext)
        :: .setZipProgress (loopProgress (k + 1) totalFrames)
        :: frameEffects env format ext totalFrames n (k + 1)

/-- The times of the capture invocations of a run, in order. -/
def captureTimes (trace : List StoryEffect) : List F64 :=
  trace.filterMap fun e => match e with
    | .capture t _ => some t
    | _ => none

/-- The names of the entries added to the archive during a run, in order. -/
def archiveEntries (trace : List StoryEffect) : List String :=
  trace.filterMap fun e => match e with
    | .addFile name => some name
    | _ => none

/-- The values passed to `setZipProgress` during a run, in order. -/
def progressValues (trace : List StoryEffect) : List F64 :=
  trace.filterMap fun e => match e with
    | .setZipProgress p => some p
    | _ => none

/-- The file names passed to `downloadFile` during a run, in order. -/
def downloads (trace : List StoryEffect) : List String :=
  trace.filterMap fun e => match e with
    | .download filename => some filename
    | _ => none

/-- The values passed to `setIsZipping` during a run, in order. -/
def zippingValues (trace : List StoryEffect) : List Bool :=
  trace.filterMap fun e => match e with
    | .setIsZipping b => some b
    | _ => none

/-- Collaborators that never fail, with no handler invoked during the run. -/
def reliableEnv : StoryboardEnv :=
  { seek := fun _ => .seeked, captureOk := fun _ => true, zipOk := true, events := fun _ => [] }

/-- Collaborators that never fail, while the user invokes the handlers `es`
during the wait for the seek of frame `j`. -/
def handlersAt (j : Nat) (es : List UserEvent) : StoryboardEnv :=
  { reliableEnv with events := fun i => if i = j then es else [] }

/-- The double nearest to 1.2, `5404319552844595 * 2^-52`, in units. -/
def sixFifths : Int := ((5404319552844595 * 2 ^ 1022 : Nat) : Int)

/-- A loaded 1 s video with the default format. -/
def oneSecondInput : StoryboardInput :=
  { videoFile := some "clip.mp4", video := true, duration := F64.ofNat 1,
    storyboardFormat := .png }

/-- A loaded 2 s video with the default format. -/
def twoSecondInput : StoryboardInput :=
  { videoFile := some "clip.mp4", video := true, duration := F64.ofNat 2,
    storyboardFormat := .png }

end Binary64
/-! ## Audio extraction in binary64 arithmetic -/

namespace Binary64

/-- The state `trimRange`, in seconds; `end_` is the source's `end`. -/
structure TrimRange where
  start : F64
  end_ : F64

/-- Lines 420-426: `actualStart` and `frameCount` of a trimmed extraction. -/
def trimFrames (trimRange : TrimRange) (originalBuffer : AudioBuffer) : F64 × F64 :=
  let sampleRate := F64.ofNat originalBuffer.sampleRate
  let startSample := F64.floor (F64.mul trimRange.start sampleRate)
  let endSample := F64.floor (F64.mul trimRange.end_ sampleRate)
  let actualStart := F64.max (F64.ofNat 0) startSample
  let actualEnd := F64.min (F64.ofNat originalBuffer.length) endSample
  (actualStart, F64.sub actualEnd actualStart)

/-- The value of `finalLength` at line 441, when that line is reached: the frame
count of the trimmed buffer, or the length of the decoded buffer. -/
def finalLength (useTrim : Bool) (trimRange : TrimRange) (originalBuffer : AudioBuffer) : F64 :=
  if useTrim then (trimFrames trimRange originalBuffer).2
  else F64.ofNat originalBuffer.length

/-- The function `handleExtractAudio(useTrim)` as the sequence of its effects.
`videoFile` tells whether a file is loaded and `decode` is the outcome of
decoding it; a decoded buffer has at least one frame and fewer than `2^32`
(its `length` is an `unsigned long`, and neither `decodeAudioData` nor
`createBuffer` produces an empty buffer). `createBuffer` throws when the frame
count it is given is not a positive whole number (`NaN` converts to 0). The
download file name is left out. -/
def handleExtractAudio (videoFile : Bool) (trimRange : TrimRange) (decode : DecodeResult)
    (useTrim : Bool) : List ExtractEffect :=
  if !videoFile then []
  else if useTrim && F64.le trimRange.end_ trimRange.start then [.setError .endNotAfterStart]
  else
    let body : List ExtractEffect :=
      match decode with
      | .rejected mentionsMemory =>
          [.setError (if mentionsMemory then .tooLarge else .processingFailed)]
      | .decoded originalBuffer =>
          if useTrim then
            let actualStart := (trimFrames trimRange originalBuffer).1
            let frameCount := (trimFrames trimRange originalBuffer).2
            if F64.le frameCount (F64.ofNat 0) then [.setError .processingFailed]
            else
              match F64.toInt frameCount, F64.toInt actualStart with
              | some frames, some first =>
                  match bufferToWave (trimBuffer originalBuffer first.toNat frames.toNat)
                      frames.toNat with
                  | none => [.encode frames.toNat, .setError .processingFailed]
                  | some wav => [.encode frames.toNat, .download wav]
              | _, _ => [.setError .processingFailed]
          else
            match bufferToWave originalBuffer originalBuffer.length with
            | none => [.encode originalBuffer.length, .setError .processingFailed]
            | some wav => [.encode originalBuffer.length, .download wav]
    [.setIsExtractingAudio true, .decode] ++ body ++ [.setIsExtractingAudio false]

/-- The trim range from 1.0 s to the double nearest to 1.1 s. -/
def tenthSecondTrim : TrimRange :=
  { start := F64.ofNat 1, end_ := F64.lit 11 10 }

/-- A trim range shorter than one sample period at 44100 Hz: from 0 to `2^-17` s. -/
def narrowTrim : TrimRange :=
  { start := F64.fin 0, end_ := F64.lit 1 131072 }

/-- A trim range whose end is before its start. -/
def reversedTrim : TrimRange :=
  { start := F64.ofNat 2, end_ := F64.ofNat 1 }

end Binary64
/-! ## The trim-range model in binary64 arithmetic -/

namespace Binary64

/-- What `timelineRef.current.getBoundingClientRect()` returns, as far as the
handlers read it. -/
structure Rect where
  left : F64
  width : F64

/-- The component state the drag handlers read and write. -/
structure TrimState where
  duration : F64
  trimRange : TrimRange
  draggingHandle : Option HandleType
  dragOffset : F64

/-- The initial values given to `useState`. -/
def initialTrimState : TrimState :=
  { duration := F64.fin 0, trimRange := { start := F64.fin 0, end_ := F64.fin 0 },
    draggingHandle := none, dragOffset := F64.fin 0 }

/-- Lines 125-130: the pointer position as a time, clamped into `[0, duration]`. -/
def pointerTime (duration clientX : F64) (rect : Rect) : F64 :=
  let x := F64.sub clientX rect.left
  let width := rect.width
  let mouseTime := F64.mul (F64.div x width) duration
  F64.max (F64.ofNat 0) (F64.min duration mouseTime)

/-- Lines 132-157: the updater passed to `setTrimRange`. The writes to the
playhead of the preview video are left out. -/
def nextTrimRange (draggingHandle : HandleType) (mouseTime dragOffset duration : F64)
    (prev : TrimRange) : TrimRange :=
  match draggingHandle with
  | .start => { prev with start := F64.min mouseTime (F64.sub prev.end_ (F64.lit 1 10)) }
  | .end_ => { prev with end_ := F64.max mouseTime (F64.add prev.start (F64.lit 1 10)) }
  | .range =>
      let rangeDuration := F64.sub prev.end_ prev.start
      let newStart := F64.sub mouseTime dragOffset
      let newStart := if F64.lt newStart (F64.ofNat 0) then F64.ofNat 0 else newStart
      let newStart :=
        if F64.gt (F64.add newStart rangeDuration) duration then F64.sub duration rangeDuration
        else newStart
      { start := newStart, end_ := F64.add newStart rangeDuration }

/-- The handler `handleMouseMove(e)`; `timeline` is `timelineRef.current`. -/
def handleMouseMove (s : TrimState) (clientX : F64) (timeline : Option Rect) : TrimState :=
  match s.draggingHandle, timeline with
  | some draggingHandle, some rect =>
      if s.duration = F64.fin 0 then s
      else
        let mouseTime := pointerTime s.duration clientX rect
        { s with
          trimRange := nextTrimRange draggingHandle mouseTime s.dragOffset s.duration s.trimRange }
  | _, _ => s

/-- The handler `handleMouseUp`. -/
def handleMouseUp (s : TrimState) : TrimState :=
  { s with draggingHandle := none }

/-- The handler `handleTimelineMouseDown(e, handleType)`. -/
def handleTimelineMouseDown (s : TrimState) (handleType : HandleType) (clientX : F64)
    (timeline : Option Rect) : TrimState :=
  let s1 := { s with draggingHandle := some handleType }
  match handleType, timeline with
  | .range, some rect =>
      let x := F64.sub clientX rect.left
      let mouseTime := F64.mul (F64.div x rect.width) s.duration
      { s1 with dragOffset := F64.sub mouseTime s.trimRange.start }
  | _, _ => s1

/-- The handler `handleMainVideoLoaded`; `mainVideo` is the `duration` of
`mainVideoRef.current`, `none` when the reference is not set. -/
def handleMainVideoLoaded (s : TrimState) (mainVideo : Option F64) : TrimState :=
  match mainVideo with
  | some dur => { s with duration := dur, trimRange := { start := F64.fin 0, end_ := dur } }
  | none => s

/-- The pointer events of a drag gesture. -/
inductive DragEvent where
  | mouseDown (handleType : HandleType) (clientX : F64) (timeline : Option Rect)
  | mouseMove (clientX : F64) (timeline : Option Rect)
  | mouseUp

/-- The layout assumed of a pointer event. During a move over the mounted
timeline the pointer and element coordinates are finite and the timeline has a
positive width. A press on the range handle happens with the pointer on the
timeline (`left ≤ clientX ≤ left + width`), the timeline being between `2^-20`
and `2^32` pixels wide. Nothing is assumed of the other events. -/
def DragEvent.LaidOut : DragEvent → Prop
  | .mouseDown .range clientX (some rect) =>
      ∃ x l w : Int, clientX = F64.fin x ∧ rect.left = F64.fin l ∧ rect.width = F64.fin w
        ∧ l ≤ x ∧ x - l ≤ w ∧ (F64.scale : Int) ≤ 2 ^ 20 * w ∧ w ≤ 2 ^ 32 * (F64.scale : Int)
  | .mouseMove clientX (some rect) =>
      ∃ x l w : Int, clientX = F64.fin x ∧ rect.left = F64.fin l ∧ rect.width = F64.fin w
        ∧ 0 < w
  | _ => True

/-- The state after one pointer event. -/
def dragStep (s : TrimState) : DragEvent → TrimState
  | .mouseDown handleType clientX timeline => handleTimelineMouseDown s handleType clientX timeline
  | .mouseMove clientX timeline => handleMouseMove s clientX timeline
  | .mouseUp => handleMouseUp s

/-- The state after a sequence of pointer events. -/
def runDrag (s : TrimState) (events : List DragEvent) : TrimState :=
  events.foldl dragStep s

/-- A timeline 200 pixels wide starting at the left edge of the window. -/
def timeline200 : Rect :=
  { left := F64.fin 0, width := F64.ofNat 200 }

/-- A press on the start handle followed by a move to the right edge of the
timeline. -/
def dragStartToRightEdge : List DragEvent :=
  [.mouseDown .start (F64.fin 0) (some timeline200), .mouseMove (F64.ofNat 200) (some timeline200)]

/-- A press on the range handle in the middle of the timeline, a move to three
quarters of it and a release. -/
def dragRangeEvents : List DragEvent :=
  [.mouseDown .range (F64.ofNat 100) (some timeline200),
    .mouseMove (F64.ofNat 150) (some timeline200), .mouseUp]

/-- The bounds `0 ≤ start`, `end ≤ d`, `end - start ≥ 0.1` and their
consequences `end - start ≤ d`, `end ≥ 0.1`, `start ≤ d - 0.1`, each loosened by
`τ`. All quantities are counted in units of `2^-1074` seconds, `S` units making
one second. -/
def Within (S d τ s e : ℚ) : Prop :=
  -τ ≤ s ∧ e ≤ d + τ ∧ S / 10 - τ ≤ e - s ∧ e - s ≤ d + τ ∧ S / 10 - τ ≤ e ∧ s ≤ d - S / 10 + τ

/-- A state of duration `d` units whose range is within `τ` units of the bounds
and whose drag offset is at most `4 * 2^j` seconds in magnitude. -/
def TrimState.Near (d : Int) (j : Nat) (τ : ℚ) (st : TrimState) : Prop :=
  ∃ s e o : Int, st.duration = F64.fin d
    ∧ st.trimRange = { start := F64.fin s, end_ := F64.fin e }
    ∧ st.dragOffset = F64.fin o ∧ Within F64.scale d τ s e
    ∧ |(o : ℚ)| ≤ 4 * (2 ^ j * (F64.scale : ℚ))

end Binary64

/-! ## Theorems: byte buffers and the encoder -/

theorem leBytes_length (n v : Nat) : (leBytes n v).length = n := by
  induction n generalizing v with
  | zero => rfl
  | succ n ih => simp [leBytes, ih]

theorem writeBytes_zeros (pre bs : List Nat) (p k : Nat) (hp : pre.length = p)
    (hk : bs.length ≤ k) :
    writeBytes (pre ++ List.replicate k 0) p bs
      = some (pre ++ bs ++ List.replicate (k - bs.length) 0) := by
  subst hp
  unfold writeBytes
  rw [if_pos (by simp; omega)]
  simp [List.take_append_eq_append_take, List.drop_append_eq_append_drop]

theorem setUint32_zeros (d p k : Nat) (pre : List Nat) (hp : pre.length = p)
    (hk : 4 ≤ k) :
    setUint32 d ⟨pre ++ List.replicate k 0, p⟩
      = some ⟨pre ++ leBytes 4 (d % 4294967296) ++ List.replicate (k - 4) 0, p + 4⟩ := by
  unfold setUint32
  simp only
  rw [writeBytes_zeros pre _ p k hp (by simp [leBytes_length, hk])]
  simp [leBytes_length]

theorem setUint16_zeros (d p k : Nat) (pre : List Nat) (hp : pre.length = p)
    (hk : 2 ≤ k) :
    setUint16 d ⟨pre ++ List.replicate k 0, p⟩
      = some ⟨pre ++ leBytes 2 (d % 65536) ++ List.replicate (k - 2) 0, p + 2⟩ := by
  unfold setUint16
  simp only
  rw [writeBytes_zeros pre _ p k hp (by simp [leBytes_length, hk])]
  simp [leBytes_length]

set_option maxHeartbeats 2000000 in
theorem header_zeros (c sr len : Nat) :
    (some ({ view := List.replicate (len * c * 2 + 44) 0, pos := 0 } : Writer)
      >>= setUint32 0x46464952 >>= setUint32 (len * c * 2 + 44 - 8) >>= setUint32 0x45564157
      >>= setUint32 0x20746d66 >>= setUint32 16 >>= setUint16 1
      >>= setUint16 c >>= setUint32 sr
      >>= setUint32 (sr * 2 * c)
      >>= setUint16 (c * 2) >>= setUint16 16
      >>= setUint32 0x61746164 >>= (fun w => setUint32 (len * c * 2 + 44 - w.pos - 4) w))
      = some ⟨headerBytes c sr len ++ List.replicate (len * c * 2) 0, 44⟩ := by
  have e0 : List.replicate (len * c * 2 + 44) 0 = [] ++ List.replicate (len * c * 2 + 44) 0 := rfl
  rw [e0]
  simp only [Option.bind_eq_bind, Option.some_bind]
  rw [setUint32_zeros _ _ _ _ (by simp [leBytes_length]) (by omega)]
  simp only [Option.some_bind]
  rw [setUint32_zeros _ _ _ _ (by simp [leBytes_length]) (by omega)]
  simp only [Option.some_bind]
  rw [setUint32_zeros _ _ _ _ (by simp [leBytes_length]) (by omega)]
  simp only [Option.some_bind]
  rw [setUint32_zeros _ _ _ _ (by simp [leBytes_length]) (by omega)]
  simp only [Option.some_bind]
  rw [setUint32_zeros _ _ _ _ (by simp [leBytes_length]) (by omega)]
  simp only [Option.some_bind]
  rw [setUint16_zeros _ _ _ _ (by simp [leBytes_length]) (by omega)]
  simp only [Option.some_bind]
  rw [setUint16_zeros _ _ _ _ (by simp [leBytes_length]) (by omega)]
  simp only [Option.some_bind]
  rw [setUint32_zeros _ _ _ _ (by simp [leBytes_length]) (by omega)]
  simp only [Option.some_bind]
  rw [setUint32_zeros _ _ _ _ (by simp [leBytes_length]) (by omega)]
  simp only [Option.some_bind]
  rw [setUint16_zeros _ _ _ _ (by simp [leBytes_length]) (by omega)]
  simp only [Option.some_bind]
  rw [setUint16_zeros _ _ _ _ (by simp [leBytes_length]) (by omega)]
  simp only [Option.some_bind]
  rw [setUint32_zeros _ _ _ _ (by simp [leBytes_length]) (by omega)]
  simp only [Option.some_bind]
  rw [setUint32_zeros _ _ _ _ (by simp [leBytes_length]) (by omega)]
  have a1 : leBytes 4 (1179011410 % 4294967296) = [0x52, 0x49, 0x46, 0x46] := by norm_num [leBytes]
  have a2 : leBytes 4 (1163280727 % 4294967296) = [0x57, 0x41, 0x56, 0x45] := by norm_num [leBytes]
  have a3 : leBytes 4 (544501094 % 4294967296) = [0x66, 0x6d, 0x74, 0x20] := by norm_num [leBytes]
  have a4 : leBytes 4 (1635017060 % 4294967296) = [0x64, 0x61, 0x74, 0x61] := by norm_num [leBytes]
  have a5 : len * c * 2 + 44 - (0 + 4 + 4 + 4 + 4 + 4 + 2 + 2 + 4 + 4 + 2 + 2 + 4) - 4
      = len * c * 2 := by omega
  have a6 : len * c * 2 + 44 - 4 - 4 - 4 - 4 - 4 - 2 - 2 - 4 - 4 - 2 - 2 - 4 - 4
      = len * c * 2 := by omega
  have a7 : (16 : Nat) % 4294967296 = 16 := by norm_num [leBytes]
  have a8 : (1 : Nat) % 65536 = 1 := by norm_num [leBytes]
  rw [a1, a2, a3, a4, a5, a6, a7, a8]
  simp only [headerBytes, List.nil_append, List.append_assoc]

theorem sampleBytes_length (chan : List JSNum) (pos : Nat) :
    (sampleBytes chan pos).length = 2 := by
  simp [sampleBytes, leBytes_length]

theorem frameBytesFrom_length (channels : List (List JSNum)) (pos n i : Nat) :
    (frameBytesFrom channels pos n i).length = 2 * n := by
  induction n generalizing i with
  | zero => rfl
  | succ n ih => simp [frameBytesFrom, ih, sampleBytes_length]; omega

theorem payloadFrom_length (channels : List (List JSNum)) (c n pos : Nat) :
    (payloadFrom channels c n pos).length = 2 * c * n := by
  induction n generalizing pos with
  | zero => rfl
  | succ n ih =>
    simp only [payloadFrom, List.length_append, ih, frameBytesFrom_length]
    ring

theorem channelLoop_zeros (channels : List (List JSNum)) (c pos : Nat) :
    ∀ (n i offset k : Nat) (pre : List Nat), i + n = c → pre.length = 44 + offset →
      channelLoop channels c pos i offset (pre ++ List.replicate (2 * n + k) 0)
        = some (pre ++ frameBytesFrom channels pos n i ++ List.replicate k 0,
            offset + 2 * n) := by
  intro n
  induction n with
  | zero =>
    intro i offset k pre hi _
    rw [channelLoop, if_neg (by omega)]
    simp [frameBytesFrom]
  | succ n ih =>
    intro i offset k pre hi hpre
    rw [channelLoop, if_pos (by omega)]
    have hw : setInt16 (pre ++ List.replicate (2 * (n + 1) + k) 0) (44 + offset)
        (quantise (readSample (channels.getD i []) pos))
        = some ((pre ++ sampleBytes (channels.getD i []) pos)
            ++ List.replicate (2 * n + k) 0) := by
      unfold setInt16
      rw [writeBytes_zeros pre _ (44 + offset) _ hpre (by simp [leBytes_length]; omega)]
      simp only [leBytes_length, sampleBytes]
      congr 3
      omega
    rw [hw]
    simp only
    rw [ih (i + 1) (offset + 2) k _ (by omega)
      (by simp [sampleBytes_length, hpre]; omega)]
    simp only [frameBytesFrom, List.append_assoc]
    congr 2
    omega

theorem sampleLoop_zeros (channels : List (List JSNum)) (c len : Nat) :
    ∀ (n pos offset k : Nat) (pre : List Nat), pos + n = len ∨ (n = 0 ∧ len ≤ pos) →
      pre.length = 44 + offset →
      sampleLoop channels c len pos offset (pre ++ List.replicate (2 * c * n + k) 0)
        = some (pre ++ payloadFrom channels c n pos ++ List.replicate k 0) := by
  intro n
  induction n with
  | zero =>
    intro pos offset k pre hpos _
    rw [sampleLoop, if_neg (by omega)]
    simp [payloadFrom]
  | succ n ih =>
    intro pos offset k pre hpos hpre
    rw [sampleLoop, if_pos (by omega)]
    have e : 2 * c * (n + 1) + k = 2 * c + (2 * c * n + k) := by ring
    rw [e, channelLoop_zeros channels c pos c 0 offset _ pre (by omega) hpre]
    simp only
    rw [ih (pos + 1) (offset + 2 * c) k _ (Or.inl (by omega))
      (by simp [frameBytesFrom_length, hpre]; omega)]
    simp only [payloadFrom, List.append_assoc]

theorem headerBytes_length (c sr len : Nat) : (headerBytes c sr len).length = 44 := by
  simp [headerBytes, leBytes_length]

theorem range_map_getD (l : List (List JSNum)) :
    (List.range l.length).map (fun i => l.getD i []) = l := by
  apply List.ext_getElem
  · simp
  · intro n h1 h2
    simp [List.getD_eq_getElem, h2]

/-- Closed form of the encoder: the header, the quantised frames `44 .. len-1`
of the input, then zero bytes up to the declared size. -/
theorem bufferToWave_eq (abuffer : AudioBuffer) (len : Nat) :
    bufferToWave abuffer len
      = some (headerBytes abuffer.numberOfChannels abuffer.sampleRate len
          ++ payloadFrom abuffer.channelData abuffer.numberOfChannels (len - 44) 44
          ++ List.replicate (2 * abuffer.numberOfChannels * min len 44) 0) := by
  unfold bufferToWave
  simp only
  rw [header_zeros]
  simp only [Option.bind_eq_bind, Option.some_bind]
  have e : len * abuffer.numberOfChannels * 2
      = 2 * abuffer.numberOfChannels * (len - 44)
        + 2 * abuffer.numberOfChannels * min len 44 := by
    rw [← Nat.mul_add]
    have : len - 44 + min len 44 = len := by omega
    rw [this]; ring
  rw [e]
  have hc : (List.range abuffer.numberOfChannels).map
      (fun i => abuffer.channelData.getD i []) = abuffer.channelData :=
    range_map_getD abuffer.channelData
  rw [hc]
  exact sampleLoop_zeros abuffer.channelData abuffer.numberOfChannels len (len - 44) 44 0 _ _
    (by omega) (by simp [headerBytes_length])

theorem ofLeBytes_leBytes (n v : Nat) : ofLeBytes (leBytes n v) = v % 256 ^ n := by
  induction n generalizing v with
  | zero => simp [leBytes, ofLeBytes, Nat.mod_one]
  | succ n ih =>
    simp only [leBytes, ofLeBytes, ih]
    rw [pow_succ, Nat.mul_comm (256 ^ n) 256, Nat.mod_mul]

theorem bufferToWave_length (abuffer : AudioBuffer) (len : Nat) (out : List Nat)
    (h : bufferToWave abuffer len = some out) :
    out.length = 44 + 2 * abuffer.numberOfChannels * len := by
  rw [bufferToWave_eq] at h
  injection h with h
  subst h
  simp only [List.length_append, headerBytes_length, payloadFrom_length, List.length_replicate]
  rw [Nat.add_assoc, ← Nat.mul_add]
  congr 2
  omega

theorem bufferToWave_take_header (abuffer : AudioBuffer) (len : Nat) (out : List Nat)
    (h : bufferToWave abuffer len = some out) :
    out.take 44 = headerBytes abuffer.numberOfChannels abuffer.sampleRate len := by
  rw [bufferToWave_eq] at h
  injection h with h
  subst h
  rw [List.append_assoc]
  exact List.take_left' (headerBytes_length _ _ _)

theorem take_drop_append_left (l r : List Nat) (off n : Nat) (h : off + n ≤ l.length) :
    ((l ++ r).drop off).take n = (l.drop off).take n := by
  rw [List.drop_append_of_le_length (by omega), List.take_append_of_le_length]
  simp only [List.length_drop]
  omega

theorem take_drop_append_exact (pre bs : List Nat) (off n : Nat) (hp : pre.length = off)
    (hn : bs.length = n) : ((pre ++ bs).drop off).take n = bs := by
  subst hp hn
  simp

set_option maxHeartbeats 1000000 in
/-- C2. Header layout of `bufferToWave`: when the channel count, the sample rate,
the byte rate and the total length fit their fields, the encoder returns a blob
of exactly `44 + 2*c*len` bytes whose first 44 bytes are `RIFF`, the
little-endian u32 `total - 8`, `WAVE`, `fmt `, u32 16, u16 1, u16 `c`, u32 `r`,
u32 `r*2*c`, u16 `2*c`, u16 16, `data`, u32 `2*c*len`; each little-endian field
decodes to the value written. -/
theorem bufferToWave_header_layout (abuffer : AudioBuffer) (len : Nat)
    (hc : 2 * abuffer.numberOfChannels < 65536)
    (hr : abuffer.sampleRate < 4294967296)
    (hbr : abuffer.sampleRate * 2 * abuffer.numberOfChannels < 4294967296)
    (hlen : 44 + 2 * abuffer.numberOfChannels * len < 4294967296) :
    ∃ out, bufferToWave abuffer len = some out
      ∧ out.length = 44 + 2 * abuffer.numberOfChannels * len
      ∧ out.take 44 =
          [0x52, 0x49, 0x46, 0x46] ++ leBytes 4 (out.length - 8) ++ [0x57, 0x41, 0x56, 0x45]
          ++ [0x66, 0x6d, 0x74, 0x20] ++ leBytes 4 16 ++ leBytes 2 1
          ++ leBytes 2 abuffer.numberOfChannels ++ leBytes 4 abuffer.sampleRate
          ++ leBytes 4 (abuffer.sampleRate * 2 * abuffer.numberOfChannels)
          ++ leBytes 2 (2 * abuffer.numberOfChannels) ++ leBytes 2 16
          ++ [0x64, 0x61, 0x74, 0x61] ++ leBytes 4 (2 * abuffer.numberOfChannels * len)
      ∧ getUint32 out 4 = out.length - 8
      ∧ getUint32 out 16 = 16 ∧ getUint16 out 20 = 1
      ∧ getUint16 out 22 = abuffer.numberOfChannels
      ∧ getUint32 out 24 = abuffer.sampleRate
      ∧ getUint32 out 28 = abuffer.sampleRate * 2 * abuffer.numberOfChannels
      ∧ getUint16 out 32 = 2 * abuffer.numberOfChannels
      ∧ getUint16 out 34 = 16
      ∧ getUint32 out 40 = 2 * abuffer.numberOfChannels * len := by
  obtain ⟨out, hout⟩ : ∃ out, bufferToWave abuffer len = some out :=
    ⟨_, bufferToWave_eq abuffer len⟩
  have hlen2 := bufferToWave_length abuffer len out hout
  have htake := bufferToWave_take_header abuffer len out hout
  have hfield : ∀ off n, off + n ≤ 44 →
      (out.drop off).take n
        = ((headerBytes abuffer.numberOfChannels abuffer.sampleRate len).drop off).take n := by
    intro off n hle
    rw [← htake, List.drop_take, List.take_take]
    have e : min n (44 - off) = n := by omega
    rw [e]
  have e : len * abuffer.numberOfChannels * 2 = 2 * abuffer.numberOfChannels * len := by ring
  have m1 : (len * abuffer.numberOfChannels * 2 + 44 - 8) % 4294967296 = out.length - 8 := by
    rw [e, hlen2, Nat.mod_eq_of_lt (by omega)]
    omega
  have m2 : abuffer.numberOfChannels % 65536 = abuffer.numberOfChannels :=
    Nat.mod_eq_of_lt (by omega)
  have m3 : abuffer.sampleRate % 4294967296 = abuffer.sampleRate := Nat.mod_eq_of_lt hr
  have m4 : abuffer.sampleRate * 2 * abuffer.numberOfChannels % 4294967296
      = abuffer.sampleRate * 2 * abuffer.numberOfChannels := Nat.mod_eq_of_lt hbr
  have m5 : abuffer.numberOfChannels * 2 % 65536 = 2 * abuffer.numberOfChannels := by
    rw [Nat.mod_eq_of_lt (by omega), Nat.mul_comm]
  have m6 : len * abuffer.numberOfChannels * 2 % 4294967296
      = 2 * abuffer.numberOfChannels * len := by
    rw [e, Nat.mod_eq_of_lt (by omega)]
  have hH : headerBytes abuffer.numberOfChannels abuffer.sampleRate len =
      [0x52, 0x49, 0x46, 0x46] ++ leBytes 4 (out.length - 8) ++ [0x57, 0x41, 0x56, 0x45]
          ++ [0x66, 0x6d, 0x74, 0x20] ++ leBytes 4 16 ++ leBytes 2 1
          ++ leBytes 2 abuffer.numberOfChannels ++ leBytes 4 abuffer.sampleRate
          ++ leBytes 4 (abuffer.sampleRate * 2 * abuffer.numberOfChannels)
          ++ leBytes 2 (2 * abuffer.numberOfChannels) ++ leBytes 2 16
          ++ [0x64, 0x61, 0x74, 0x61] ++ leBytes 4 (2 * abuffer.numberOfChannels * len) := by
    unfold headerBytes
    rw [m1, m2, m3, m4, m5, m6]
  refine ⟨out, hout, hlen2, htake.trans hH, ?_, ?_, ?_, ?_, ?_, ?_, ?_, ?_, ?_⟩
  all_goals
    first
    | unfold getUint32
    | unfold getUint16
  all_goals
    rw [hfield _ _ (by norm_num), hH]
    repeat (rw [take_drop_append_left]; swap; (· simp [leBytes_length]))
    rw [take_drop_append_exact _ _ _ _ (by simp [leBytes_length]) (by simp [leBytes_length]),
      ofLeBytes_leBytes]
    exact Nat.mod_eq_of_lt (by omega)

theorem bufferToWave_header_layout_witness :
    (2 * monoOne.numberOfChannels < 65536 ∧ monoOne.sampleRate < 4294967296
      ∧ monoOne.sampleRate * 2 * monoOne.numberOfChannels < 4294967296
      ∧ 44 + 2 * monoOne.numberOfChannels * 1 < 4294967296)
    ∧ ∃ out, bufferToWave monoOne 1 = some out
      ∧ out.length = 44 + 2 * monoOne.numberOfChannels * 1
      ∧ out.take 44 =
          [0x52, 0x49, 0x46, 0x46] ++ leBytes 4 (out.length - 8) ++ [0x57, 0x41, 0x56, 0x45]
          ++ [0x66, 0x6d, 0x74, 0x20] ++ leBytes 4 16 ++ leBytes 2 1
          ++ leBytes 2 monoOne.numberOfChannels ++ leBytes 4 monoOne.sampleRate
          ++ leBytes 4 (monoOne.sampleRate * 2 * monoOne.numberOfChannels)
          ++ leBytes 2 (2 * monoOne.numberOfChannels) ++ leBytes 2 16
          ++ [0x64, 0x61, 0x74, 0x61] ++ leBytes 4 (2 * monoOne.numberOfChannels * 1)
      ∧ getUint32 out 4 = out.length - 8
      ∧ getUint32 out 16 = 16 ∧ getUint16 out 20 = 1
      ∧ getUint16 out 22 = monoOne.numberOfChannels
      ∧ getUint32 out 24 = monoOne.sampleRate
      ∧ getUint32 out 28 = monoOne.sampleRate * 2 * monoOne.numberOfChannels
      ∧ getUint16 out 32 = 2 * monoOne.numberOfChannels
      ∧ getUint16 out 34 = 16
      ∧ getUint32 out 40 = 2 * monoOne.numberOfChannels * 1 :=
  ⟨⟨by decide, by decide, by decide, by decide⟩,
    bufferToWave_header_layout monoOne 1 (by decide) (by decide) (by decide) (by decide)⟩

theorem truncQ_le (q : ℚ) (n : ℤ) (hn : 0 ≤ n) (h : q ≤ n) : JSNum.truncQ q ≤ n := by
  unfold JSNum.truncQ
  split_ifs with h0
  · have h1 := Int.floor_le q
    have h3 : ((⌊q⌋ : ℤ) : ℚ) ≤ (n : ℚ) := le_trans h1 h
    exact_mod_cast h3
  · have : 0 ≤ ⌊-q⌋ := Int.floor_nonneg.mpr (by linarith)
    omega

theorem le_truncQ (q : ℚ) (n : ℤ) (hn : 0 ≤ n) (h : -(n : ℚ) ≤ q) : -n ≤ JSNum.truncQ q := by
  unfold JSNum.truncQ
  split_ifs with h0
  · have : 0 ≤ ⌊q⌋ := Int.floor_nonneg.mpr h0
    omega
  · have h1 := Int.floor_le (-q)
    have h3 : ((⌊-q⌋ : ℤ) : ℚ) ≤ (n : ℚ) := le_trans h1 (by linarith)
    have h4 : ⌊-q⌋ ≤ n := by exact_mod_cast h3
    omega

theorem toInt32_fin_of_bounds (q : ℚ) (h1 : -(32768 : ℚ) ≤ q) (h2 : q ≤ 32767) :
    JSNum.toInt32 (fin q) = JSNum.truncQ q
      ∧ -32768 ≤ JSNum.truncQ q ∧ JSNum.truncQ q ≤ 32767 := by
  have a := le_truncQ q 32768 (by norm_num) (by exact_mod_cast h1)
  have b := truncQ_le q 32767 (by norm_num) (by exact_mod_cast h2)
  refine ⟨?_, a, b⟩
  simp only [JSNum.toInt32]
  omega

/-- What lines 394-395 compute on a finite sample: with `t` the sample clamped
into `[-1, 1]`, the value is `trunc (t * 32768)` when `t < -1/2` and
`trunc (t * 32767)` otherwise, and it lies in the signed 16-bit range. -/
theorem quantise_fin (s : ℚ) :
    quantise (fin s) =
      (if max (-1) (min 1 s) < -1 / 2 then JSNum.truncQ (max (-1) (min 1 s) * 32768)
      else JSNum.truncQ (max (-1) (min 1 s) * 32767))
    ∧ -32768 ≤ quantise (fin s) ∧ quantise (fin s) ≤ 32767 := by
  have h1 : (-1 : ℚ) ≤ max (-1) (min 1 s) := le_max_left _ _
  have h2 : max (-1) (min 1 s) ≤ (1 : ℚ) := max_le (by norm_num) (min_le_left _ _)
  have hq : quantise (fin s) = JSNum.toInt32
      (if max (-1) (min 1 s) < -1 / 2 then fin (max (-1) (min 1 s) * 32768)
       else fin (max (-1) (min 1 s) * 32767)) := by
    unfold quantise
    simp only [JSNum.max, JSNum.min, JSNum.add, JSNum.lt, JSNum.mul, decide_eq_true_eq]
    have e : (1 / 2 + max (-1) (min 1 s) < 0) ↔ (max (-1) (min 1 s) < -1 / 2) := by
      constructor <;> intro h <;> linarith
    simp only [e]
  rw [hq]
  generalize max (-1) (min 1 s) = t at h1 h2
  split_ifs with h
  · obtain ⟨a, b, c⟩ := toInt32_fin_of_bounds (t * 32768) (by linarith) (by linarith)
    rw [a]; exact ⟨rfl, b, c⟩
  · obtain ⟨a, b, c⟩ := toInt32_fin_of_bounds (t * 32767) (by linarith) (by linarith)
    rw [a]; exact ⟨rfl, b, c⟩

/-- C1. The round trip fails on the one-frame mono buffer `[1.0]`: the encoder
returns the header followed by the data bytes `00 00`, so the 16-bit integer
stored at byte offset 44 is 0, while the quantised value of the input sample
`channels[0][0]` is 32767. The sample loop starts reading at frame 44. -/
theorem bufferToWave_roundtrip_fails :
    bufferToWave monoOne 1 = some (headerBytes 1 44100 1 ++ [0, 0])
      ∧ getInt16 (headerBytes 1 44100 1 ++ [0, 0]) (44 + 2 * (0 * 1 + 0)) = 0
      ∧ quantise (readSample (monoOne.channelData.getD 0 []) 0) = 32767 := by
  refine ⟨?_, ?_, ?_⟩
  · rw [bufferToWave_eq]
    simp [monoOne, AudioBuffer.numberOfChannels, payloadFrom]
  · have e : (headerBytes 1 44100 1 ++ [0, 0]).drop 44 = [0, 0] :=
      List.drop_left' (headerBytes_length _ _ _)
    simp only [getInt16, getUint16, Nat.mul_zero, Nat.add_zero, Nat.zero_mul, e]
    simp [ofLeBytes]
  · have e : readSample (monoOne.channelData.getD 0 []) 0 = fin 1 := by
      simp [readSample, monoOne]
    rw [e, (quantise_fin _).1]
    norm_num [JSNum.truncQ]

/-- C3. At the sample `-0.25` the code scales by 32767, not by 32768: it writes
`trunc (-0.25 * 32767) = -8191`, while scaling a negative sample by 32768 gives
`trunc (-0.25 * 32768) = -8192`. -/
theorem quantise_neg_quarter :
    quantise (fin (-1 / 4)) = -8191
      ∧ JSNum.truncQ ((-1 / 4 : ℚ) * 32768) = -8192 := by
  refine ⟨?_, ?_⟩
  · rw [(quantise_fin _).1]
    norm_num [JSNum.truncQ]
  · norm_num [JSNum.truncQ]

theorem bufferToWave_data_size (abuffer : AudioBuffer) (len : Nat) (out : List Nat)
    (h : bufferToWave abuffer len = some out) :
    getUint32 out 40 = (2 * abuffer.numberOfChannels * len) % 4294967296 := by
  have htake := bufferToWave_take_header abuffer len out h
  have e : len * abuffer.numberOfChannels * 2 = 2 * abuffer.numberOfChannels * len := by ring
  unfold getUint32
  have h1 : (out.drop 40).take 4 = ((out.take 44).drop 40).take 4 := by
    rw [List.drop_take, List.take_take]
    rfl
  rw [h1, htake]
  unfold headerBytes
  rw [take_drop_append_exact _ _ _ _ (by simp [leBytes_length]) (by simp [leBytes_length]),
    ofLeBytes_leBytes, e]
  exact Nat.mod_eq_of_lt (Nat.mod_lt _ (by norm_num))

theorem trimBuffer_numberOfChannels (b : AudioBuffer) (s n : Nat) :
    (trimBuffer b s n).numberOfChannels = b.numberOfChannels := by
  simp [trimBuffer, AudioBuffer.numberOfChannels]

theorem fiveSecondMono_sampleRate : fiveSecondMono.sampleRate = 44100 := rfl

theorem fiveSecondMono_length : fiveSecondMono.length = 220500 := rfl

theorem fiveSecondMono_numberOfChannels : fiveSecondMono.numberOfChannels = 1 := rfl

/-- C6. Move-whole-range preserves the width: for a valid range within
`[0, duration]`, a mounted timeline and any drag offset, the `'range'` transition
of `handleMouseMove` yields `start' = clamp(p - dragOffset, 0, duration - width)`
and `end' = start' + width`, where `p` is the clamped pointer time and
`width = end - start`; so `end' - start' = end - start`. -/
theorem handleMouseMove_range (s : TrimState) (clientX : ℚ) (rect : Rect)
    (hdrag : s.draggingHandle = some .range) (_hw : 0 < rect.width)
    (h0 : 0 ≤ s.trimRange.start) (h1 : s.trimRange.start < s.trimRange.end_)
    (h2 : s.trimRange.end_ ≤ s.duration) :
    (handleMouseMove s clientX (some rect)).trimRange.start
        = max 0 (min (s.duration - (s.trimRange.end_ - s.trimRange.start))
            (pointerTime s.duration clientX rect - s.dragOffset))
      ∧ (handleMouseMove s clientX (some rect)).trimRange.end_
        = (handleMouseMove s clientX (some rect)).trimRange.start
            + (s.trimRange.end_ - s.trimRange.start)
      ∧ (handleMouseMove s clientX (some rect)).trimRange.end_
          - (handleMouseMove s clientX (some rect)).trimRange.start
        = s.trimRange.end_ - s.trimRange.start := by
  have hD : s.duration ≠ 0 := by
    intro h
    rw [h] at h2
    linarith
  have e : (handleMouseMove s clientX (some rect)).trimRange
      = nextTrimRange .range (pointerTime s.duration clientX rect) s.dragOffset s.duration
          s.trimRange := by
    simp only [handleMouseMove, hdrag, if_neg hD]
  rw [e]
  refine ⟨?_, by simp only [nextTrimRange], by simp only [nextTrimRange]; ring⟩
  simp only [nextTrimRange]
  generalize pointerTime s.duration clientX rect - s.dragOffset = q
  have hlo : 0 ≤ s.duration - (s.trimRange.end_ - s.trimRange.start) := by linarith
  by_cases hq : q < 0
  · rw [if_pos hq, if_neg (by linarith)]
    rw [min_eq_right (by linarith), max_eq_left (by linarith)]
  · rw [if_neg hq]
    rw [not_lt] at hq
    by_cases hq2 : q + (s.trimRange.end_ - s.trimRange.start) > s.duration
    · rw [if_pos hq2, min_eq_left (by linarith), max_eq_right hlo]
    · rw [if_neg hq2, min_eq_right (by linarith), max_eq_right hq]

theorem handleMouseMove_range_witness :
    (rangeDragState.draggingHandle = some .range ∧ 0 < timeline200.width
      ∧ 0 ≤ rangeDragState.trimRange.start
      ∧ rangeDragState.trimRange.start < rangeDragState.trimRange.end_
      ∧ rangeDragState.trimRange.end_ ≤ rangeDragState.duration)
    ∧ (handleMouseMove rangeDragState 190 (some timeline200)).trimRange.start
        = max 0 (min (rangeDragState.duration
            - (rangeDragState.trimRange.end_ - rangeDragState.trimRange.start))
            (pointerTime rangeDragState.duration 190 timeline200 - rangeDragState.dragOffset))
      ∧ (handleMouseMove rangeDragState 190 (some timeline200)).trimRange.end_
        = (handleMouseMove rangeDragState 190 (some timeline200)).trimRange.start
            + (rangeDragState.trimRange.end_ - rangeDragState.trimRange.start)
      ∧ (handleMouseMove rangeDragState 190 (some timeline200)).trimRange.end_
          - (handleMouseMove rangeDragState 190 (some timeline200)).trimRange.start
        = rangeDragState.trimRange.end_ - rangeDragState.trimRange.start :=
  ⟨⟨rfl, by norm_num [timeline200], by norm_num [rangeDragState],
      by norm_num [rangeDragState], by norm_num [rangeDragState]⟩,
    handleMouseMove_range rangeDragState 190 timeline200 rfl (by norm_num [timeline200])
      (by norm_num [rangeDragState]) (by norm_num [rangeDragState])
      (by norm_num [rangeDragState])⟩

/-- C7. Endpoint drags change only their own endpoint: with `p` the clamped
pointer time on a mounted timeline and a nonzero duration, the `'start'`
transition of `handleMouseMove` yields `start' = min(p, end - 0.1)` and leaves
`end` unchanged, and the `'end'` transition yields `end' = max(p, start + 0.1)`
and leaves `start` unchanged. -/
theorem handleMouseMove_endpoints (s : TrimState) (clientX : ℚ) (rect : Rect)
    (hD : s.duration ≠ 0) (_hw : 0 < rect.width) :
    (s.draggingHandle = some .start →
      (handleMouseMove s clientX (some rect)).trimRange.start
          = min (pointerTime s.duration clientX rect) (s.trimRange.end_ - 1 / 10)
        ∧ (handleMouseMove s clientX (some rect)).trimRange.end_ = s.trimRange.end_)
    ∧ (s.draggingHandle = some .end_ →
      (handleMouseMove s clientX (some rect)).trimRange.end_
          = max (pointerTime s.duration clientX rect) (s.trimRange.start + 1 / 10)
        ∧ (handleMouseMove s clientX (some rect)).trimRange.start = s.trimRange.start) := by
  constructor
  · intro h
    simp only [handleMouseMove, h, if_neg hD, nextTrimRange, and_self]
  · intro h
    simp only [handleMouseMove, h, if_neg hD, nextTrimRange, and_self]

theorem handleMouseMove_endpoints_witness :
    (startDragState.duration ≠ 0 ∧ 0 < timeline200.width)
    ∧ (startDragState.draggingHandle = some .start →
      (handleMouseMove startDragState 100 (some timeline200)).trimRange.start
          = min (pointerTime startDragState.duration 100 timeline200)
              (startDragState.trimRange.end_ - 1 / 10)
        ∧ (handleMouseMove startDragState 100 (some timeline200)).trimRange.end_
          = startDragState.trimRange.end_)
    ∧ (startDragState.draggingHandle = some .end_ →
      (handleMouseMove startDragState 100 (some timeline200)).trimRange.end_
          = max (pointerTime startDragState.duration 100 timeline200)
              (startDragState.trimRange.start + 1 / 10)
        ∧ (handleMouseMove startDragState 100 (some timeline200)).trimRange.start
          = startDragState.trimRange.start) :=
  ⟨⟨by norm_num [startDragState], by norm_num [timeline200]⟩,
    handleMouseMove_endpoints startDragState 100 timeline200 (by norm_num [startDragState])
      (by norm_num [timeline200])⟩

/-! ## Theorems: the amplitude profiler -/

theorem foldl_max_nan (l : List JSNum) : l.foldl JSNum.max nan = nan := by
  induction l with
  | nil => rfl
  | cons a l ih =>
    have e : JSNum.max nan a = nan := by cases a <;> rfl
    rw [List.foldl_cons, e, ih]

theorem foldl_max_fin (l : List ℚ) :
    ∀ a : ℚ, ∃ M : ℚ, (l.map fin).foldl JSNum.max (fin a) = fin M
      ∧ (M = a ∨ M ∈ l) ∧ a ≤ M ∧ ∀ m ∈ l, m ≤ M := by
  induction l with
  | nil => exact fun a => ⟨a, rfl, Or.inl rfl, le_refl _, by simp⟩
  | cons b l ih =>
    intro a
    obtain ⟨M, h1, h2, h3, h4⟩ := ih (max a b)
    refine ⟨M, ?_, ?_, le_trans (le_max_left _ _) h3, ?_⟩
    · simpa [List.foldl_cons, JSNum.max] using h1
    · rcases h2 with h | h
      · rcases max_choice a b with h' | h'
        · exact Or.inl (h.trans h')
        · exact Or.inr (by rw [h, h']; exact List.mem_cons_self _ _)
      · exact Or.inr (List.mem_cons_of_mem _ h)
    · intro m hm
      rcases List.mem_cons.mp hm with h | h
      · rw [h]; exact le_trans (le_max_right _ _) h3
      · exact h4 m h

theorem maxList_map_fin (l : List ℚ) (hl : l ≠ []) :
    ∃ M : ℚ, JSNum.maxList (l.map fin) = fin M ∧ M ∈ l ∧ ∀ m ∈ l, m ≤ M := by
  cases l with
  | nil => exact absurd rfl hl
  | cons a l =>
    obtain ⟨M, h1, h2, h3, h4⟩ := foldl_max_fin l a
    refine ⟨M, ?_, ?_, ?_⟩
    · simpa [JSNum.maxList, List.foldl_cons, JSNum.max] using h1
    · rcases h2 with h | h
      · rw [h]; exact List.mem_cons_self _ _
      · exact List.mem_cons_of_mem _ h
    · intro m hm
      rcases List.mem_cons.mp hm with h | h
      · rw [h]; exact h3
      · exact h4 m h

theorem blockMeans_length (rawData : List JSNum) : (blockMeans rawData).length = 200 := by
  simp [blockMeans, samples]

theorem amplitudeProfile_length (rawData : List JSNum) :
    (amplitudeProfile rawData).length = 200 := by
  simp [amplitudeProfile, blockMeans_length]

theorem amplitudeProfile_const_nan (rawData : List JSNum)
    (h : JSNum.maxList (blockMeans rawData) = nan) :
    amplitudeProfile rawData = List.replicate 200 nan := by
  rw [List.eq_replicate_iff]
  refine ⟨amplitudeProfile_length rawData, ?_⟩
  intro x hx
  simp only [amplitudeProfile, h, List.mem_map] at hx
  obtain ⟨n, _, rfl⟩ := hx
  cases n <;> rfl

/-- A sample array shorter than 200 has block size 0: every block mean is `0/0`
and the whole profile is `NaN`. -/
theorem amplitudeProfile_short (rawData : List JSNum) (h : rawData.length < 200) :
    amplitudeProfile rawData = List.replicate 200 nan := by
  apply amplitudeProfile_const_nan
  have e : blockMeans rawData = List.replicate 200 nan := by
    rw [List.eq_replicate_iff]
    refine ⟨blockMeans_length rawData, ?_⟩
    intro x hx
    simp only [blockMeans, samples, Nat.div_eq_of_lt h, List.mem_map] at hx
    obtain ⟨i, _, rfl⟩ := hx
    simp [JSNum.div]
  rw [e]
  show (List.replicate (199 + 1) nan).foldl JSNum.max negInf = nan
  rw [List.replicate_succ, List.foldl_cons]
  exact foldl_max_nan _

/-- When every block mean is zero the multiplier is `Infinity` and every entry
of the profile is `0 * Infinity = NaN`. -/
theorem amplitudeProfile_of_blockMeans_zero (rawData : List JSNum)
    (h : ∀ m ∈ blockMeans rawData, m = fin 0) :
    JSNum.powNegOne (JSNum.maxList (blockMeans rawData)) = posInf
      ∧ amplitudeProfile rawData = List.replicate 200 nan := by
  have e : blockMeans rawData = (List.replicate 200 (0 : ℚ)).map fin := by
    rw [List.map_replicate, List.eq_replicate_iff]
    exact ⟨blockMeans_length rawData, h⟩
  have hne : List.replicate 200 (0 : ℚ) ≠ [] := by
    intro h0
    have h3 := congrArg List.length h0
    rw [List.length_replicate] at h3
    exact Nat.succ_ne_zero 199 h3
  obtain ⟨M, h1, h2, _⟩ := maxList_map_fin (List.replicate 200 (0 : ℚ)) hne
  have hM : M = 0 := List.eq_of_mem_replicate h2
  subst hM
  have hp : JSNum.powNegOne (JSNum.maxList (blockMeans rawData)) = posInf := by
    rw [e, h1]
    simp [JSNum.powNegOne, JSNum.div]
  refine ⟨hp, ?_⟩
  rw [List.eq_replicate_iff]
  refine ⟨amplitudeProfile_length rawData, ?_⟩
  intro x hx
  simp only [amplitudeProfile, hp, List.mem_map] at hx
  obtain ⟨n, hn, rfl⟩ := hx
  rw [h n hn]
  simp [JSNum.mul]

theorem readSample_map_fin (qs : List ℚ) (k : Nat) (h : k < qs.length) :
    readSample (qs.map fin) k = fin (qs.getD k 0) := by
  unfold readSample
  rw [List.getD_eq_getElem _ _ (by simpa using h), List.getD_eq_getElem _ _ h, List.getElem_map]

theorem foldl_sum_abs (qs : List ℚ) (start : Nat) :
    ∀ (n : Nat) (a : ℚ), start + n ≤ qs.length →
      (List.range n).foldl
          (fun sum j => JSNum.add sum (JSNum.abs (readSample (qs.map fin) (start + j)))) (fin a)
        = fin (a + blockSumQ qs start n) := by
  intro n
  induction n with
  | zero => intro a _; simp [blockSumQ]
  | succ n ih =>
    intro a h
    rw [List.range_succ, List.foldl_append, ih a (by omega)]
    simp only [List.foldl_cons, List.foldl_nil]
    rw [readSample_map_fin qs (start + n) (by omega)]
    simp only [JSNum.abs, JSNum.add, blockSumQ, List.range_succ, List.map_append, List.sum_append,
      List.map_cons, List.map_nil, List.sum_cons, List.sum_nil]
    congr 1
    ring

theorem blockMeans_map_fin (qs : List ℚ) (h : 200 ≤ qs.length) :
    blockMeans (qs.map fin) = (blockMeansQ qs).map fin := by
  have hbs : 0 < qs.length / 200 := Nat.div_pos h (by norm_num)
  have hle : qs.length / 200 * 200 ≤ qs.length := Nat.div_mul_le_self _ _
  unfold blockMeans blockMeansQ
  rw [List.map_map]
  apply List.map_congr_left
  intro i hi
  have hi2 : i < 200 := by simpa [samples] using hi
  have hrange : qs.length / 200 * i + qs.length / 200 ≤ qs.length := by
    have : qs.length / 200 * (i + 1) ≤ qs.length / 200 * 200 :=
      Nat.mul_le_mul_left _ (by omega)
    rw [Nat.mul_add, Nat.mul_one] at this
    omega
  simp only [List.length_map, samples, Function.comp]
  rw [foldl_sum_abs qs _ _ 0 hrange]
  have hne : ((qs.length / 200 : Nat) : ℚ) ≠ 0 := by
    exact_mod_cast (Nat.pos_iff_ne_zero.mp hbs)
  simp only [JSNum.div, if_neg hne, zero_add]

theorem blockSumQ_nonneg (qs : List ℚ) (start n : Nat) : 0 ≤ blockSumQ qs start n := by
  unfold blockSumQ
  apply List.sum_nonneg
  intro x hx
  obtain ⟨j, _, rfl⟩ := List.mem_map.mp hx
  exact abs_nonneg _

theorem blockMeansQ_nonneg (qs : List ℚ) : ∀ m ∈ blockMeansQ qs, 0 ≤ m := by
  intro m hm
  obtain ⟨i, _, rfl⟩ := List.mem_map.mp hm
  exact div_nonneg (blockSumQ_nonneg _ _ _) (Nat.cast_nonneg _)

theorem blockMeansQ_pos (qs : List ℚ) (k : Nat) (hk : k < 200 * (qs.length / 200))
    (hq : qs.getD k 0 ≠ 0) : ∃ m ∈ blockMeansQ qs, 0 < m := by
  have hbs : 0 < qs.length / 200 := by
    rcases Nat.eq_zero_or_pos (qs.length / 200) with h | h
    · rw [h] at hk; omega
    · exact h
  refine ⟨blockSumQ qs (qs.length / samples * (k / (qs.length / 200))) (qs.length / samples)
      / ((qs.length / samples : Nat) : ℚ), ?_, ?_⟩
  · apply List.mem_map.mpr
    refine ⟨k / (qs.length / 200), ?_, rfl⟩
    rw [List.mem_range]
    exact Nat.div_lt_of_lt_mul (by rw [Nat.mul_comm]; exact hk)
  · apply div_pos _ (by exact_mod_cast hbs)
    have hmem : |qs.getD k 0| ∈ (List.range (qs.length / samples)).map
        (fun j => |qs.getD (qs.length / samples * (k / (qs.length / 200)) + j) 0|) := by
      apply List.mem_map.mpr
      refine ⟨k % (qs.length / 200), ?_, ?_⟩
      · rw [List.mem_range]
        exact Nat.mod_lt _ hbs
      · simp only [samples]
        rw [Nat.div_add_mod]
    have hle := List.single_le_sum (fun x hx => by
      obtain ⟨j, _, rfl⟩ := List.mem_map.mp hx
      exact abs_nonneg _) _ hmem
    exact lt_of_lt_of_le (abs_pos.mpr hq) hle

theorem blockMeansQ_zero (qs : List ℚ)
    (h : ∀ k, k < 200 * (qs.length / 200) → qs.getD k 0 = 0) :
    ∀ m ∈ blockMeansQ qs, m = 0 := by
  intro m hm
  obtain ⟨i, hi, rfl⟩ := List.mem_map.mp hm
  have hi2 : i < 200 := by simpa [samples] using hi
  have hs : blockSumQ qs (qs.length / samples * i) (qs.length / samples) = 0 := by
    unfold blockSumQ
    apply List.sum_eq_zero
    intro x hx
    obtain ⟨j, hj, rfl⟩ := List.mem_map.mp hx
    rw [List.mem_range] at hj
    simp only [samples] at hj ⊢
    rw [h _ (by
      have : qs.length / 200 * (i + 1) ≤ qs.length / 200 * 200 :=
        Nat.mul_le_mul_left _ (by omega)
      rw [Nat.mul_add, Nat.mul_one] at this
      omega)]
    exact abs_zero
  rw [hs, zero_div]

theorem analyzeAudioWaveform_decoded (s : AnalysisState) (file : MediaFile) (b : AudioBuffer)
    (rawData : List JSNum) (hsize : file.size ≤ LARGE_FILE_THRESHOLD)
    (hch : b.channelData.head? = some rawData) :
    (analyzeAudioWaveform s (some file) (.decoded b)).waveformData
      = amplitudeProfile rawData := by
  have h : ¬ file.size > LARGE_FILE_THRESHOLD := not_lt.mpr hsize
  simp only [analyzeAudioWaveform, hch, decide_eq_false h, Bool.false_and, Bool.false_eq_true,
    if_false]

/-- C8 (amended). When the analysis runs on a channel-0 array of finite samples
that has a nonzero sample among the `200 * floor(length / 200)` samples the
blocks cover (so the array has at least 200 samples), the profile has exactly
200 entries, every entry is a finite value in `[0, 1]`, the value 1 occurs in it
and `Math.max` of the profile is exactly 1. -/
theorem analyzeAudioWaveform_profile (s : AnalysisState) (file : MediaFile) (b : AudioBuffer)
    (qs : List ℚ) (k : Nat) (hsize : file.size ≤ LARGE_FILE_THRESHOLD)
    (hch : b.channelData.head? = some (qs.map fin))
    (hk : k < 200 * (qs.length / 200)) (hq : qs.getD k 0 ≠ 0) :
    ((analyzeAudioWaveform s (some file) (.decoded b)).waveformData).length = 200
      ∧ (∀ x ∈ (analyzeAudioWaveform s (some file) (.decoded b)).waveformData,
          ∃ v : ℚ, x = fin v ∧ 0 ≤ v ∧ v ≤ 1)
      ∧ fin 1 ∈ (analyzeAudioWaveform s (some file) (.decoded b)).waveformData
      ∧ JSNum.maxList (analyzeAudioWaveform s (some file) (.decoded b)).waveformData
          = fin 1 := by
  rw [analyzeAudioWaveform_decoded s file b _ hsize hch]
  have hlen : 200 ≤ qs.length := by
    by_contra hc
    rw [Nat.div_eq_of_lt (by omega)] at hk
    omega
  have hne : blockMeansQ qs ≠ [] := by
    intro h0
    have h3 := congrArg List.length h0
    simp [blockMeansQ, samples] at h3
  obtain ⟨M, hM, hMmem, hMmax⟩ := maxList_map_fin (blockMeansQ qs) hne
  obtain ⟨m0, hm0, hm0pos⟩ := blockMeansQ_pos qs k hk hq
  have hMpos : 0 < M := lt_of_lt_of_le hm0pos (hMmax m0 hm0)
  have hprof : amplitudeProfile (qs.map fin) = ((blockMeansQ qs).map fun m => m / M).map fin := by
    unfold amplitudeProfile
    simp only [blockMeans_map_fin qs hlen, hM, JSNum.powNegOne, JSNum.div, if_neg hMpos.ne',
      List.map_map]
    apply List.map_congr_left
    intro m _
    simp only [Function.comp, JSNum.mul]
    exact congrArg fin (by ring)
  have hmem1 : (1 : ℚ) ∈ (blockMeansQ qs).map fun m => m / M :=
    List.mem_map.mpr ⟨M, hMmem, div_self hMpos.ne'⟩
  have hbound : ∀ v ∈ (blockMeansQ qs).map (fun m => m / M), 0 ≤ v ∧ v ≤ 1 := by
    intro v hv
    obtain ⟨m, hm, rfl⟩ := List.mem_map.mp hv
    exact ⟨div_nonneg (blockMeansQ_nonneg qs m hm) hMpos.le,
      (div_le_one hMpos).mpr (hMmax m hm)⟩
  rw [hprof]
  refine ⟨by simp [blockMeansQ, samples], ?_, List.mem_map.mpr ⟨1, hmem1, rfl⟩, ?_⟩
  · intro x hx
    obtain ⟨v, hv, rfl⟩ := List.mem_map.mp hx
    exact ⟨v, rfl, hbound v hv⟩
  · obtain ⟨M2, h1, h2, h3⟩ := maxList_map_fin ((blockMeansQ qs).map fun m => m / M)
      (List.ne_nil_of_mem hmem1)
    rw [h1]
    exact congrArg fin (le_antisymm (hbound M2 h2).2 (h3 1 hmem1))

theorem halfScale_length : halfScale.length = 200 := List.length_replicate _ _

theorem halfScale_head : halfScale.getD 0 0 = 1 / 2 := by
  show (List.replicate (199 + 1) (1 / 2 : ℚ)).getD 0 0 = 1 / 2
  rw [List.replicate_succ, List.getD_cons_zero]

theorem smallFile_size : smallFile.size ≤ LARGE_FILE_THRESHOLD := by
  norm_num [smallFile, LARGE_FILE_THRESHOLD]

theorem analyzeAudioWaveform_profile_witness :
    (smallFile.size ≤ LARGE_FILE_THRESHOLD
      ∧ halfScaleBuffer.channelData.head? = some (halfScale.map fin)
      ∧ 0 < 200 * (halfScale.length / 200) ∧ halfScale.getD 0 0 ≠ 0)
    ∧ ((analyzeAudioWaveform idleAnalysis (some smallFile)
          (.decoded halfScaleBuffer)).waveformData).length = 200
      ∧ (∀ x ∈ (analyzeAudioWaveform idleAnalysis (some smallFile)
            (.decoded halfScaleBuffer)).waveformData,
          ∃ v : ℚ, x = fin v ∧ 0 ≤ v ∧ v ≤ 1)
      ∧ fin 1 ∈ (analyzeAudioWaveform idleAnalysis (some smallFile)
          (.decoded halfScaleBuffer)).waveformData
      ∧ JSNum.maxList (analyzeAudioWaveform idleAnalysis (some smallFile)
          (.decoded halfScaleBuffer)).waveformData = fin 1 :=
  have hk : 0 < 200 * (halfScale.length / 200) := by
    rw [halfScale_length]
    norm_num
  have hq : halfScale.getD 0 0 ≠ 0 := by
    rw [halfScale_head]
    norm_num
  ⟨⟨smallFile_size, rfl, hk, hq⟩,
    analyzeAudioWaveform_profile idleAnalysis smallFile halfScaleBuffer halfScale 0
      smallFile_size rfl hk hq⟩

theorem tailOnly_length : tailOnly.length = 201 := by
  unfold tailOnly
  rw [List.length_append, List.length_replicate]
  rfl

theorem tailOnly_covered (k : Nat) (hk : k < 200) : tailOnly.getD k 0 = 0 := by
  unfold tailOnly
  rw [List.getD_append _ _ _ _ (by rw [List.length_replicate]; exact hk),
    List.getD_eq_getElem _ _ (by rw [List.length_replicate]; exact hk), List.getElem_replicate]

/-- C8 (counterexample). Two non-empty, non-silent channel-0 arrays whose profile
is 200 times `NaN`: the single sample `[1.0]` (block size 0, every mean is
`0/0`), and 200 zeros followed by `1.0` (the blocks cover only the first 200
samples, so every mean is 0 and the multiplier is `Infinity`). -/
theorem analyzeAudioWaveform_profile_nan :
    (analyzeAudioWaveform idleAnalysis (some smallFile) (.decoded monoOne)).waveformData
        = List.replicate 200 nan
      ∧ tailOnly.getD 200 0 ≠ 0
      ∧ (analyzeAudioWaveform idleAnalysis (some smallFile) (.decoded tailOnlyBuffer)).waveformData
        = List.replicate 200 nan := by
  refine ⟨?_, ?_, ?_⟩
  · rw [analyzeAudioWaveform_decoded idleAnalysis smallFile monoOne [fin 1] smallFile_size rfl]
    exact amplitudeProfile_short _ (by simp)
  · have e : tailOnly.getD 200 0 = 1 := by
      unfold tailOnly
      rw [List.getD_append_right _ _ _ _ (by rw [List.length_replicate]),
        List.length_replicate]
      rfl
    rw [e]
    norm_num
  · rw [analyzeAudioWaveform_decoded idleAnalysis smallFile tailOnlyBuffer (tailOnly.map fin)
      smallFile_size rfl]
    refine (amplitudeProfile_of_blockMeans_zero _ ?_).2
    intro m hm
    rw [blockMeans_map_fin tailOnly (by rw [tailOnly_length]; norm_num)] at hm
    obtain ⟨q, hq, rfl⟩ := List.mem_map.mp hm
    rw [blockMeansQ_zero tailOnly (fun k hk => tailOnly_covered k (by
      rw [tailOnly_length] at hk
      omega)) q hq]

theorem silence_zero (k : Nat) : silence.getD k 0 = 0 := by
  unfold silence
  rcases Nat.lt_or_ge k 200 with h | h
  · rw [List.getD_eq_getElem _ _ (by rw [List.length_replicate]; exact h), List.getElem_replicate]
  · rw [List.getD_eq_default _ _ (by rw [List.length_replicate]; exact h)]

theorem silence_blockMeans : ∀ m ∈ blockMeans (silence.map fin), m = fin 0 := by
  intro m hm
  rw [blockMeans_map_fin silence (by unfold silence; rw [List.length_replicate])] at hm
  obtain ⟨q, hq, rfl⟩ := List.mem_map.mp hm
  rw [blockMeansQ_zero silence (fun k _ => silence_zero k) q hq]

/-- C9 (counterexample). On 200 silent samples every block mean is zero, yet the
profile is not 200 zeros: normalisation runs and every entry is `NaN`. -/
theorem analyzeAudioWaveform_silent_nan :
    (∀ m ∈ blockMeans (silence.map fin), m = fin 0)
      ∧ (analyzeAudioWaveform idleAnalysis (some smallFile) (.decoded silentBuffer)).waveformData
        = List.replicate 200 nan
      ∧ (analyzeAudioWaveform idleAnalysis (some smallFile) (.decoded silentBuffer)).waveformData
        ≠ List.replicate 200 (fin 0) := by
  have h : (analyzeAudioWaveform idleAnalysis (some smallFile)
      (.decoded silentBuffer)).waveformData = List.replicate 200 nan := by
    rw [analyzeAudioWaveform_decoded idleAnalysis smallFile silentBuffer (silence.map fin)
      smallFile_size rfl]
    exact (amplitudeProfile_of_blockMeans_zero _ silence_blockMeans).2
  refine ⟨silence_blockMeans, h, ?_⟩
  rw [h]
  intro hc
  have h2 := List.eq_of_mem_replicate
    (hc ▸ (List.mem_replicate.mpr ⟨by norm_num, rfl⟩ : nan ∈ List.replicate 200 nan))
  exact JSNum.noConfusion h2

/-- C9 (amended). Silent input is not guarded: when the analysis runs on a sample
array whose block means are all zero, normalisation is not skipped, the
multiplier `Math.pow(0, -1)` is `Infinity`, and the profile has 200 entries that
are all `0 * Infinity = NaN`. -/
theorem analyzeAudioWaveform_silent (s : AnalysisState) (file : MediaFile) (b : AudioBuffer)
    (rawData : List JSNum) (hsize : file.size ≤ LARGE_FILE_THRESHOLD)
    (hch : b.channelData.head? = some rawData)
    (hz : ∀ m ∈ blockMeans rawData, m = fin 0) :
    JSNum.powNegOne (JSNum.maxList (blockMeans rawData)) = posInf
      ∧ (analyzeAudioWaveform s (some file) (.decoded b)).waveformData
        = List.replicate 200 nan := by
  rw [analyzeAudioWaveform_decoded s file b rawData hsize hch]
  exact amplitudeProfile_of_blockMeans_zero rawData hz

theorem analyzeAudioWaveform_silent_witness :
    (smallFile.size ≤ LARGE_FILE_THRESHOLD
      ∧ silentBuffer.channelData.head? = some (silence.map fin)
      ∧ ∀ m ∈ blockMeans (silence.map fin), m = fin 0)
    ∧ JSNum.powNegOne (JSNum.maxList (blockMeans (silence.map fin))) = posInf
      ∧ (analyzeAudioWaveform idleAnalysis (some smallFile) (.decoded silentBuffer)).waveformData
        = List.replicate 200 nan :=
  ⟨⟨smallFile_size, rfl, silence_blockMeans⟩,
    analyzeAudioWaveform_silent idleAnalysis smallFile silentBuffer (silence.map fin)
      smallFile_size rfl silence_blockMeans⟩

/-! ## Theorems: the storyboard pipeline -/

/-- C10. Storyboard capacity guard: with a file loaded and the capture video
mounted, for every duration above 60 s the only effect of
`handleGenerateStoryboard` is the capacity error message: no seek, no capture,
no archive is created or generated, nothing is downloaded and the zipping flag
is never set. -/
theorem handleGenerateStoryboard_capacity (inp : StoryboardInput) (env : StoryboardEnv)
    (name : String) (hfile : inp.videoFile = some name) (hvideo : inp.video = true)
    (hdur : inp.duration > 60) :
    handleGenerateStoryboard inp env = [.setError (capacityMessage inp.duration)]
      ∧ (∀ t, StoryEffect.seek t ∉ handleGenerateStoryboard inp env)
      ∧ (∀ t f, StoryEffect.capture t f ∉ handleGenerateStoryboard inp env)
      ∧ StoryEffect.newZip ∉ handleGenerateStoryboard inp env
      ∧ StoryEffect.generateZip ∉ handleGenerateStoryboard inp env
      ∧ (∀ n, StoryEffect.download n ∉ handleGenerateStoryboard inp env)
      ∧ (∀ b, StoryEffect.setIsZipping b ∉ handleGenerateStoryboard inp env) := by
  have e : handleGenerateStoryboard inp env = [.setError (capacityMessage inp.duration)] := by
    unfold handleGenerateStoryboard
    rw [hfile, hvideo]
    simp only [MAX_STORYBOARD_DURATION, if_pos hdur]
  rw [e]
  simp

theorem handleGenerateStoryboard_capacity_witness :
    (overLongInput.videoFile = some "clip.mp4" ∧ overLongInput.video = true
      ∧ overLongInput.duration > 60)
    ∧ handleGenerateStoryboard overLongInput reliableEnv
        = [.setError (capacityMessage overLongInput.duration)]
      ∧ (∀ t, StoryEffect.seek t ∉ handleGenerateStoryboard overLongInput reliableEnv)
      ∧ (∀ t f, StoryEffect.capture t f ∉ handleGenerateStoryboard overLongInput reliableEnv)
      ∧ StoryEffect.newZip ∉ handleGenerateStoryboard overLongInput reliableEnv
      ∧ StoryEffect.generateZip ∉ handleGenerateStoryboard overLongInput reliableEnv
      ∧ (∀ n, StoryEffect.download n ∉ handleGenerateStoryboard overLongInput reliableEnv)
      ∧ (∀ b, StoryEffect.setIsZipping b ∉ handleGenerateStoryboard overLongInput reliableEnv) :=
  ⟨⟨rfl, rfl, by norm_num [overLongInput]⟩,
    handleGenerateStoryboard_capacity overLongInput reliableEnv "clip.mp4" rfl rfl
      (by norm_num [overLongInput])⟩

theorem storyboardLoop_frames (env : StoryboardEnv) (d : ℚ) (fmt : ImageFormat) (ext : String)
    (tf : Int) :
    ∀ (n k : Nat), (∀ j, k ≤ j → j < k + n →
        env.seek j = .seeked ∧ env.captureOk j = true ∧ ((j : ℚ) / 10 < d)) →
      storyboardLoop env d fmt ext tf ((k : ℚ) / 10) k
        = (frameEffects fmt ext tf n k
            ++ (storyboardLoop env d fmt ext tf (((k + n : Nat) : ℚ) / 10) (k + n)).1,
          (storyboardLoop env d fmt ext tf (((k + n : Nat) : ℚ) / 10) (k + n)).2) := by
  intro n
  induction n with
  | zero => intro k _; simp [frameEffects]
  | succ n ih =>
    intro k h
    obtain ⟨h1, h2, h3⟩ := h k (le_refl _) (by omega)
    have e : (k : ℚ) / 10 + 1 / 10 = ((k + 1 : Nat) : ℚ) / 10 := by
      push_cast
      ring
    rw [storyboardLoop, dif_pos h3, h1]
    simp only [h2, if_true, e]
    rw [ih (k + 1) (fun j hj1 hj2 => h j (by omega) (by omega))]
    have e2 : k + 1 + n = k + (n + 1) := by omega
    simp only [frameEffects, e2, List.cons_append]

theorem captureCount_spec (d : ℚ) :
    (∀ j : Nat, j < captureCount d → (j : ℚ) / 10 < d)
      ∧ d ≤ ((captureCount d : Nat) : ℚ) / 10 := by
  unfold captureCount
  constructor
  · intro j hj
    have h1 : (j : ℤ) < ⌈d * 10⌉ := by omega
    have h2 : (j : ℤ) + 1 ≤ ⌈d * 10⌉ := h1
    have h3 := Int.ceil_lt_add_one (d * 10)
    have h4 : ((j : ℤ) : ℚ) + 1 ≤ (⌈d * 10⌉ : ℚ) := by exact_mod_cast h2
    have h5 : ((j : ℤ) : ℚ) = (j : ℚ) := by norm_cast
    rw [h5] at h4
    linarith
  · have h1 := Int.le_ceil (d * 10)
    have h2 : ⌈d * 10⌉ ≤ ((⌈d * 10⌉.toNat : Nat) : ℤ) := Int.self_le_toNat _
    have h3 : (⌈d * 10⌉ : ℚ) ≤ ((⌈d * 10⌉.toNat : Nat) : ℚ) := by exact_mod_cast h2
    linarith

/-- A run whose seeks and captures all succeed executes `captureCount d`
iterations and leaves the loop normally. -/
theorem storyboardLoop_success (env : StoryboardEnv) (d : ℚ) (fmt : ImageFormat) (ext : String)
    (tf : Int) (hs : ∀ j, env.seek j = .seeked) (hc : ∀ j, env.captureOk j = true) :
    storyboardLoop env d fmt ext tf 0 0
      = (frameEffects fmt ext tf (captureCount d) 0, .completed) := by
  have h := storyboardLoop_frames env d fmt ext tf (captureCount d) 0
    (fun j _ hj => ⟨hs j, hc j, (captureCount_spec d).1 j (by omega)⟩)
  have e0 : ((0 : Nat) : ℚ) / 10 = 0 := by norm_num
  rw [e0] at h
  rw [h]
  have hend : storyboardLoop env d fmt ext tf (((0 + captureCount d : Nat) : ℚ) / 10)
      (0 + captureCount d) = ([], .completed) := by
    rw [storyboardLoop, dif_neg]
    rw [Nat.zero_add]
    exact not_lt.mpr (captureCount_spec d).2
  rw [hend]
  simp

theorem captureTimes_frameEffects (fmt : ImageFormat) (ext : String) (tf : Int) :
    ∀ n k, captureTimes (frameEffects fmt ext tf n k)
      = (List.range' k n).map fun j : Nat => (j : ℚ) / 10 := by
  intro n
  induction n with
  | zero => intro k; rfl
  | succ n ih =>
    intro k
    have h := ih (k + 1)
    simp only [captureTimes] at h
    simp only [frameEffects, captureTimes, List.filterMap_cons, List.range'_succ, List.map_cons, h]

theorem archiveEntries_frameEffects (fmt : ImageFormat) (ext : String) (tf : Int) :
    ∀ n k, archiveEntries (frameEffects fmt ext tf n k)
      = (List.range' k n).map fun j : Nat => entryName j ((j : ℚ) / 10) ext := by
  intro n
  induction n with
  | zero => intro k; rfl
  | succ n ih =>
    intro k
    have h := ih (k + 1)
    simp only [archiveEntries] at h
    simp only [frameEffects, archiveEntries, List.filterMap_cons, List.range'_succ, List.map_cons,
      h]

/-- Every effect of a loop iteration is a seek, a capture, an archive entry or
a progress report of the loop. -/
theorem mem_frameEffects (fmt : ImageFormat) (ext : String) (tf : Int) (e : StoryEffect) :
    ∀ n k, e ∈ frameEffects fmt ext tf n k →
      (∃ t, e = .seek t) ∨ (∃ t, e = .capture t fmt) ∨ (∃ name, e = .addFile name)
        ∨ (∃ j, e = .setZipProgress (loopProgress (j + 1) tf)) := by
  intro n
  induction n with
  | zero => intro k h; simp [frameEffects] at h
  | succ n ih =>
    intro k h
    simp only [frameEffects, List.mem_cons] at h
    rcases h with h | h | h | h | h
    · exact Or.inl ⟨_, h⟩
    · exact Or.inr (Or.inl ⟨_, h⟩)
    · exact Or.inr (Or.inr (Or.inl ⟨_, h⟩))
    · exact Or.inr (Or.inr (Or.inr ⟨_, h⟩))
    · exact ih (k + 1) h

theorem captureCount_two : captureCount 2 = 20 := by
  unfold captureCount
  have h : ⌈(2 : ℚ) * 10⌉ = 20 := by
    rw [Int.ceil_eq_iff]
    norm_num
  rw [h]
  rfl

/-- The shape of a run whose loop completes, whatever the archive generation
does: the tail after the loop holds no seek, no capture and no archive entry. -/
theorem handleGenerateStoryboard_completed (inp : StoryboardInput) (env : StoryboardEnv)
    (name : String) (hfile : inp.videoFile = some name) (hvideo : inp.video = true)
    (hdur : inp.duration ≤ 60) (hs : ∀ j, env.seek j = .seeked)
    (hc : ∀ j, env.captureOk j = true) :
    ∃ tail, handleGenerateStoryboard inp env
      = [.setIsZipping true, .setZipProgress (fin 0), .setError "", .newZip]
        ++ frameEffects inp.storyboardFormat (if inp.storyboardFormat = .png then "png" else "jpg")
            ⌊inp.duration / (1 / 10)⌋ (captureCount inp.duration) 0
        ++ tail
      ∧ captureTimes tail = [] ∧ archiveEntries tail = [] := by
  unfold handleGenerateStoryboard
  rw [hfile, hvideo]
  simp only [MAX_STORYBOARD_DURATION, if_neg (not_lt.mpr hdur)]
  rw [storyboardLoop_success env _ _ _ _ hs hc]
  cases hz : env.zipOk
  · refine ⟨[.generateZip, .setError pipelineMessage, .setIsZipping false,
      .scheduleProgressReset], ?_, rfl, rfl⟩
    simp only [Bool.false_eq_true, if_false, List.append_assoc]
    rfl
  · refine ⟨[.generateZip, .download ((name.splitOn ".").headD "" ++ "_storyboard.zip"),
      .setZipProgress (fin 100), .setIsZipping false, .scheduleProgressReset], ?_, rfl, rfl⟩
    simp only [if_true, List.append_assoc]
    rfl

/-- C11. Storyboard frame count: for a loaded 2.0 s video, with every seek and
every capture succeeding, the loop of `handleGenerateStoryboard` (interval
0.1 s) performs exactly 20 capture invocations, at the times 0, 0.1, ..., 1.9,
and adds exactly 20 entries to the archive. -/
theorem handleGenerateStoryboard_two_seconds (inp : StoryboardInput) (env : StoryboardEnv)
    (name : String) (hfile : inp.videoFile = some name) (hvideo : inp.video = true)
    (hdur : inp.duration = 2) (hs : ∀ j, env.seek j = .seeked)
    (hc : ∀ j, env.captureOk j = true) :
    captureTimes (handleGenerateStoryboard inp env)
        = (List.range 20).map (fun k : Nat => (k : ℚ) / 10)
      ∧ (captureTimes (handleGenerateStoryboard inp env)).length = 20
      ∧ (archiveEntries (handleGenerateStoryboard inp env)).length = 20 := by
  obtain ⟨tail, h, h1, h2⟩ := handleGenerateStoryboard_completed inp env name hfile hvideo
    (by rw [hdur]; norm_num) hs hc
  have ht : captureTimes (handleGenerateStoryboard inp env)
      = (List.range 20).map (fun k : Nat => (k : ℚ) / 10) := by
    rw [h]
    unfold captureTimes at h1 ⊢
    rw [List.filterMap_append, List.filterMap_append, h1]
    have h3 := captureTimes_frameEffects inp.storyboardFormat
      (if inp.storyboardFormat = .png then "png" else "jpg") ⌊inp.duration / (1 / 10)⌋
      (captureCount inp.duration) 0
    unfold captureTimes at h3
    rw [h3, hdur, captureCount_two, List.range_eq_range']
    rfl
  refine ⟨ht, by rw [ht, List.length_map, List.length_range], ?_⟩
  rw [h]
  unfold archiveEntries at h2 ⊢
  rw [List.filterMap_append, List.filterMap_append, h2]
  have h3 := archiveEntries_frameEffects inp.storyboardFormat
    (if inp.storyboardFormat = .png then "png" else "jpg") ⌊inp.duration / (1 / 10)⌋
    (captureCount inp.duration) 0
  unfold archiveEntries at h3
  rw [h3, hdur, captureCount_two]
  simp only [List.filterMap_cons, List.filterMap_nil, List.nil_append, List.append_nil,
    List.length_map, List.length_range']

theorem handleGenerateStoryboard_two_seconds_witness :
    (twoSecondInput.videoFile = some "clip.mp4" ∧ twoSecondInput.video = true
      ∧ twoSecondInput.duration = 2 ∧ (∀ j, reliableEnv.seek j = .seeked)
      ∧ ∀ j, reliableEnv.captureOk j = true)
    ∧ captureTimes (handleGenerateStoryboard twoSecondInput reliableEnv)
        = (List.range 20).map (fun k : Nat => (k : ℚ) / 10)
      ∧ (captureTimes (handleGenerateStoryboard twoSecondInput reliableEnv)).length = 20
      ∧ (archiveEntries (handleGenerateStoryboard twoSecondInput reliableEnv)).length = 20 :=
  ⟨⟨rfl, rfl, rfl, fun _ => rfl, fun _ => rfl⟩,
    handleGenerateStoryboard_two_seconds twoSecondInput reliableEnv "clip.mp4" rfl rfl rfl
      (fun _ => rfl) (fun _ => rfl)⟩

theorem loopProgress_eq (m : Nat) (tf : Int) (hm : 0 < m) :
    loopProgress m tf = fin ((specProgress m tf : Int) : ℚ) := by
  have hm2 : (0 : ℚ) < (m : ℚ) := by exact_mod_cast hm
  unfold loopProgress specProgress
  by_cases h : tf = 0
  · subst h
    simp only [Int.cast_zero, JSNum.div, if_true, if_neg hm2.ne', if_pos hm2, JSNum.mul,
      JSNum.round, JSNum.min]
    norm_num
  · have h2 : (tf : ℚ) ≠ 0 := by exact_mod_cast h
    simp only [JSNum.div, if_neg h2, JSNum.mul, JSNum.round, JSNum.min, if_neg h]
    exact congrArg fin (by push_cast; rfl)

theorem specProgress_le (m : Nat) (tf : Int) : specProgress m tf ≤ 99 := by
  unfold specProgress
  split_ifs
  · exact le_refl _
  · exact min_le_left _ _

/-- A loop iteration reports no error, touches neither the zipping flag nor the
archive generation, and never reports progress 100. -/
theorem frameEffects_inner (fmt : ImageFormat) (ext : String) (tf : Int) (n k : Nat)
    (e : StoryEffect) (he : e ∈ frameEffects fmt ext tf n k) :
    e ≠ .generateZip ∧ (∀ f, e ≠ .download f) ∧ (∀ msg, e ≠ .setError msg)
      ∧ (∀ b, e ≠ .setIsZipping b) ∧ e ≠ .setZipProgress (fin 100) := by
  rcases mem_frameEffects _ _ _ _ _ _ he with ⟨t, h2⟩ | ⟨t, h2⟩ | ⟨t, h2⟩ | ⟨j, h2⟩
  · subst h2
    exact ⟨fun h => StoryEffect.noConfusion h, fun _ h => StoryEffect.noConfusion h,
      fun _ h => StoryEffect.noConfusion h, fun _ h => StoryEffect.noConfusion h,
      fun h => StoryEffect.noConfusion h⟩
  · subst h2
    exact ⟨fun h => StoryEffect.noConfusion h, fun _ h => StoryEffect.noConfusion h,
      fun _ h => StoryEffect.noConfusion h, fun _ h => StoryEffect.noConfusion h,
      fun h => StoryEffect.noConfusion h⟩
  · subst h2
    exact ⟨fun h => StoryEffect.noConfusion h, fun _ h => StoryEffect.noConfusion h,
      fun _ h => StoryEffect.noConfusion h, fun _ h => StoryEffect.noConfusion h,
      fun h => StoryEffect.noConfusion h⟩
  · subst h2
    refine ⟨fun h => StoryEffect.noConfusion h, fun _ h => StoryEffect.noConfusion h,
      fun _ h => StoryEffect.noConfusion h, fun _ h => StoryEffect.noConfusion h, ?_⟩
    intro h2
    injection h2 with h2
    rw [loopProgress_eq (j + 1) _ (Nat.succ_pos j)] at h2
    injection h2 with h2
    have h3 := specProgress_le (j + 1) tf
    have h4 : ((specProgress (j + 1) tf : Int) : ℚ) ≤ 99 := by exact_mod_cast h3
    rw [h2] at h4
    norm_num at h4

theorem zippingValues_frameEffects (fmt : ImageFormat) (ext : String) (tf : Int) :
    ∀ n k, zippingValues (frameEffects fmt ext tf n k) = [] := by
  intro n
  induction n with
  | zero => intro k; rfl
  | succ n ih =>
    intro k
    have h := ih (k + 1)
    simp only [zippingValues] at h
    simp only [frameEffects, zippingValues, List.filterMap_cons, h]

/-- A run whose first failing step is at frame `m` (the seek assignment throws,
or the capture rejects) leaves the loop through the `catch` block after `m`
complete iterations. -/
theorem storyboardLoop_failure (env : StoryboardEnv) (d : ℚ) (fmt : ImageFormat) (ext : String)
    (tf : Int) (m : Nat)
    (hok : ∀ j, j < m → env.seek j = .seeked ∧ env.captureOk j = true)
    (hm : (m : ℚ) / 10 < d)
    (hfail : env.seek m = .throws ∨ (env.seek m = .seeked ∧ env.captureOk m = false)) :
    ∃ last, storyboardLoop env d fmt ext tf 0 0 = (frameEffects fmt ext tf m 0 ++ last, .threw)
      ∧ (last = [.seek ((m : ℚ) / 10)]
          ∨ last = [.seek ((m : ℚ) / 10), .capture ((m : ℚ) / 10) fmt]) := by
  have h := storyboardLoop_frames env d fmt ext tf m 0 (fun j _ hj => by
    have hj2 : j < m := by omega
    refine ⟨(hok j hj2).1, (hok j hj2).2, lt_trans ?_ hm⟩
    have : (j : ℚ) < (m : ℚ) := by exact_mod_cast hj2
    linarith)
  have e0 : ((0 : Nat) : ℚ) / 10 = 0 := by norm_num
  rw [e0, Nat.zero_add] at h
  rcases hfail with hf | ⟨hf1, hf2⟩
  · have hend : storyboardLoop env d fmt ext tf ((m : ℚ) / 10) m
        = ([.seek ((m : ℚ) / 10)], .threw) := by
      rw [storyboardLoop, dif_pos hm, hf]
    rw [hend] at h
    exact ⟨_, h, Or.inl rfl⟩
  · have hend : storyboardLoop env d fmt ext tf ((m : ℚ) / 10) m
        = ([.seek ((m : ℚ) / 10), .capture ((m : ℚ) / 10) fmt], .threw) := by
      rw [storyboardLoop, dif_pos hm, hf1]
      simp only [hf2, Bool.false_eq_true, if_false]
    rw [hend] at h
    exact ⟨_, h, Or.inr rfl⟩

/-- C13 (amended). Storyboard atomicity: for every run of
`handleGenerateStoryboard` in which, after `m` complete frames, the seek
assignment throws or the capture (with its encoding) rejects, no archive is
generated or downloaded, the pipeline error is reported, progress never reaches
100 and the zipping flag is set and then cleared. -/
theorem handleGenerateStoryboard_failure (inp : StoryboardInput) (env : StoryboardEnv)
    (name : String) (m : Nat) (hfile : inp.videoFile = some name) (hvideo : inp.video = true)
    (hdur : inp.duration ≤ 60)
    (hok : ∀ j, j < m → env.seek j = .seeked ∧ env.captureOk j = true)
    (hm : (m : ℚ) / 10 < inp.duration)
    (hfail : env.seek m = .throws ∨ (env.seek m = .seeked ∧ env.captureOk m = false)) :
    StoryEffect.generateZip ∉ handleGenerateStoryboard inp env
      ∧ (∀ f, StoryEffect.download f ∉ handleGenerateStoryboard inp env)
      ∧ StoryEffect.setError pipelineMessage ∈ handleGenerateStoryboard inp env
      ∧ StoryEffect.setZipProgress (fin 100) ∉ handleGenerateStoryboard inp env
      ∧ zippingValues (handleGenerateStoryboard inp env) = [true, false] := by
  obtain ⟨last, hloop, hlast⟩ := storyboardLoop_failure env inp.duration inp.storyboardFormat
    (if inp.storyboardFormat = .png then "png" else "jpg") ⌊inp.duration / (1 / 10)⌋ m hok hm
    hfail
  have htr : handleGenerateStoryboard inp env
      = [.setIsZipping true, .setZipProgress (fin 0), .setError "", .newZip]
        ++ (frameEffects inp.storyboardFormat
            (if inp.storyboardFormat = .png then "png" else "jpg")
            ⌊inp.duration / (1 / 10)⌋ m 0 ++ last)
        ++ [.setError pipelineMessage] ++ [.setIsZipping false, .scheduleProgressReset] := by
    unfold handleGenerateStoryboard
    rw [hfile, hvideo]
    simp only [MAX_STORYBOARD_DURATION, if_neg (not_lt.mpr hdur)]
    rw [hloop]
  have hin := frameEffects_inner inp.storyboardFormat
    (if inp.storyboardFormat = .png then "png" else "jpg") ⌊inp.duration / (1 / 10)⌋ m 0
  have hz := zippingValues_frameEffects inp.storyboardFormat
    (if inp.storyboardFormat = .png then "png" else "jpg") ⌊inp.duration / (1 / 10)⌋ m 0
  rw [htr]
  refine ⟨?_, ?_, ?_, ?_, ?_⟩
  · intro h
    simp only [List.mem_append, List.mem_cons, List.mem_singleton, List.not_mem_nil, or_false,
      reduceCtorEq, false_or, or_false] at h
    rcases h with h | h
    · exact (hin _ h).1 rfl
    · rcases hlast with rfl | rfl <;> simp at h
  · intro f h
    simp only [List.mem_append, List.mem_cons, List.mem_singleton, List.not_mem_nil, or_false,
      reduceCtorEq, false_or, or_false] at h
    rcases h with h | h
    · exact (hin _ h).2.1 f rfl
    · rcases hlast with rfl | rfl <;> simp at h
  · simp
  · intro h
    simp only [List.mem_append, List.mem_cons, List.mem_singleton, List.not_mem_nil, or_false,
      reduceCtorEq, false_or, or_false] at h
    rcases h with h | h | h
    · injection h with h
      injection h with h
      norm_num at h
    · exact (hin _ h).2.2.2.2 rfl
    · rcases hlast with rfl | rfl <;> simp at h
  · unfold zippingValues at hz ⊢
    simp only [List.filterMap_append]
    rw [hz]
    rcases hlast with rfl | rfl <;> rfl

theorem handleGenerateStoryboard_failure_witness :
    (twoSecondInput.videoFile = some "clip.mp4" ∧ twoSecondInput.video = true
      ∧ twoSecondInput.duration ≤ 60
      ∧ (∀ j, j < 3 →
          thirdCaptureFailsEnv.seek j = .seeked ∧ thirdCaptureFailsEnv.captureOk j = true)
      ∧ ((3 : Nat) : ℚ) / 10 < twoSecondInput.duration
      ∧ (thirdCaptureFailsEnv.seek 3 = .throws
          ∨ (thirdCaptureFailsEnv.seek 3 = .seeked ∧ thirdCaptureFailsEnv.captureOk 3 = false)))
    ∧ StoryEffect.generateZip ∉ handleGenerateStoryboard twoSecondInput thirdCaptureFailsEnv
      ∧ (∀ f, StoryEffect.download f ∉ handleGenerateStoryboard twoSecondInput thirdCaptureFailsEnv)
      ∧ StoryEffect.setError pipelineMessage
          ∈ handleGenerateStoryboard twoSecondInput thirdCaptureFailsEnv
      ∧ StoryEffect.setZipProgress (fin 100)
          ∉ handleGenerateStoryboard twoSecondInput thirdCaptureFailsEnv
      ∧ zippingValues (handleGenerateStoryboard twoSecondInput thirdCaptureFailsEnv)
          = [true, false] :=
  have hok : ∀ j, j < 3 →
      thirdCaptureFailsEnv.seek j = .seeked ∧ thirdCaptureFailsEnv.captureOk j = true := by
    intro j hj
    refine ⟨rfl, ?_⟩
    simp only [thirdCaptureFailsEnv, decide_eq_true_eq]
    omega
  have hd : twoSecondInput.duration ≤ 60 := by norm_num [twoSecondInput]
  have hm : ((3 : Nat) : ℚ) / 10 < twoSecondInput.duration := by norm_num [twoSecondInput]
  have hf : thirdCaptureFailsEnv.seek 3 = .throws
      ∨ (thirdCaptureFailsEnv.seek 3 = .seeked ∧ thirdCaptureFailsEnv.captureOk 3 = false) :=
    Or.inr ⟨rfl, by simp [thirdCaptureFailsEnv]⟩
  ⟨⟨rfl, rfl, hd, hok, hm, hf⟩,
    handleGenerateStoryboard_failure twoSecondInput thirdCaptureFailsEnv "clip.mp4" 3 rfl rfl
      hd hok hm hf⟩

/-- C13 (counterexample). When the first seek of a 2 s run never signals
`seeked`, the run stays suspended after that seek: its effects end there, so the
pipeline error is never reported and the zipping flag, set at the start, is
never cleared. -/
theorem handleGenerateStoryboard_stuck_seek :
    handleGenerateStoryboard twoSecondInput stuckSeekEnv
        = [.setIsZipping true, .setZipProgress (fin 0), .setError "", .newZip, .seek 0]
      ∧ StoryEffect.setError pipelineMessage ∉ handleGenerateStoryboard twoSecondInput stuckSeekEnv
      ∧ zippingValues (handleGenerateStoryboard twoSecondInput stuckSeekEnv) = [true] := by
  have h : handleGenerateStoryboard twoSecondInput stuckSeekEnv
      = [.setIsZipping true, .setZipProgress (fin 0), .setError "", .newZip, .seek 0] := by
    have hd : ¬ (twoSecondInput.duration > 60) := by norm_num [twoSecondInput]
    have hloop : storyboardLoop stuckSeekEnv twoSecondInput.duration
        twoSecondInput.storyboardFormat
        (if twoSecondInput.storyboardFormat = .png then "png" else "jpg")
        ⌊twoSecondInput.duration / (1 / 10)⌋ 0 0 = ([.seek 0], .suspended) := by
      rw [storyboardLoop, dif_pos (by norm_num [twoSecondInput])]
      rfl
    unfold handleGenerateStoryboard
    simp only [MAX_STORYBOARD_DURATION, if_neg hd]
    rw [hloop]
    rfl
  rw [h]
  refine ⟨rfl, ?_, rfl⟩
  simp [pipelineMessage]

/-! ## Theorems: file loading, forced analysis -/

/-- C15. Oversized input is not profiled automatically: for a file larger than
`350 * 1024 * 1024` bytes and the analysing flag false, `analyzeAudioWaveform`,
called directly or by `handleFileChange` on load, ends in the state with an
empty profile, the large-file flag set and the analysing flag cleared, whatever
decoding the file would give: the decode is never consulted. -/
theorem analyzeAudioWaveform_large (s : AnalysisState) (file : MediaFile)
    (decode : DecodeResult) (hsize : file.size > 350 * 1024 * 1024)
    (hflag : s.isAnalyzingAudio = false) :
    analyzeAudioWaveform s (some file) decode
        = { waveformData := [], isLargeFile := true, isAnalyzingAudio := false }
      ∧ handleFileChange s (some file) true decode
        = { waveformData := [], isLargeFile := true, isAnalyzingAudio := false } := by
  have hT : file.size > LARGE_FILE_THRESHOLD := hsize
  constructor
  · simp only [analyzeAudioWaveform, decide_eq_true hT, hflag, Bool.not_false, Bool.and_self,
      if_true]
  · simp only [handleFileChange, Bool.not_true, Bool.false_eq_true, if_false, if_pos hT,
      analyzeAudioWaveform, decide_eq_true hT, hflag, Bool.not_false, Bool.and_self, if_true]

theorem analyzeAudioWaveform_large_witness :
    (largeFile.size > 350 * 1024 * 1024 ∧ idleAnalysis.isAnalyzingAudio = false)
    ∧ analyzeAudioWaveform idleAnalysis (some largeFile) (.decoded halfScaleBuffer)
        = { waveformData := [], isLargeFile := true, isAnalyzingAudio := false }
      ∧ handleFileChange idleAnalysis (some largeFile) true (.decoded halfScaleBuffer)
        = { waveformData := [], isLargeFile := true, isAnalyzingAudio := false } :=
  ⟨⟨by norm_num [largeFile], rfl⟩,
    analyzeAudioWaveform_large idleAnalysis largeFile (.decoded halfScaleBuffer)
      (by norm_num [largeFile]) rfl⟩

/-- With the analysing flag false, a forced analysis of an oversized file takes
the same early return as the automatic one. -/
theorem forceAnalyzeAudio_large (s : AnalysisState) (file : MediaFile) (decode : DecodeResult)
    (hsize : file.size > LARGE_FILE_THRESHOLD) (hflag : s.isAnalyzingAudio = false) :
    forceAnalyzeAudio s (some file) decode
      = { waveformData := [], isLargeFile := true, isAnalyzingAudio := false } := by
  simp only [forceAnalyzeAudio, analyzeAudioWaveform, decide_eq_true hsize, hflag,
    Bool.not_false, Bool.and_self, if_true]

/-- C16. On a 400 MiB file that was skipped on load, with no analysis running
and a decodable audio track, `forceAnalyzeAudio` ends in the skipped state
again: the profile stays empty and the large-file flag is set back. -/
theorem forceAnalyzeAudio_skips_again :
    largeFile.size > LARGE_FILE_THRESHOLD
      ∧ forceAnalyzeAudio skippedAnalysis (some largeFile) (.decoded halfScaleBuffer)
        = skippedAnalysis
      ∧ (forceAnalyzeAudio skippedAnalysis (some largeFile)
          (.decoded halfScaleBuffer)).waveformData.length = 0 := by
  have h : largeFile.size > LARGE_FILE_THRESHOLD := by
    norm_num [largeFile, LARGE_FILE_THRESHOLD]
  have e := forceAnalyzeAudio_large skippedAnalysis largeFile (.decoded halfScaleBuffer) h rfl
  refine ⟨h, ?_, ?_⟩
  · rw [e]
    rfl
  · rw [e]
    rfl

/-! ## Theorems: the seek-snapshot primitive -/

/-- C17 (counterexample). Two overlapping calls on a ready video: call 1 seeks
to 1 s, call 2 seeks to 2 s before the first has resolved, then the `seeked`
event of the first seek is dispatched and an animation frame runs. Both
promises are settled, the second one too by the signal of seek 1. -/
theorem captureFrame_cross_resolution :
    (captureRun readyCapture
        [.call 1 (some 1) .png, .call 2 (some 2) .png, .seeked 1]).frameCallbacks
        = [{ id := 1, format := .png, signalOf := 1 }, { id := 2, format := .png, signalOf := 1 }]
      ∧ (captureRun readyCapture
          [.call 1 (some 1) .png, .call 2 (some 2) .png, .seeked 1, .animationFrame]).settled
        = [(1, some 1, .resolved
              { time := 2, width := 1280, height := 720, format := .png, quality := none }),
            (2, some 1, .resolved
              { time := 2, width := 1280, height := 720, format := .png, quality := none })] := by
  constructor
  · rfl
  · simp [captureRun, captureStep, runFrameCallbacks, processCapture, readyCapture]

/-- C17 (amended). `captureFrame` does not guard against overlapping calls.
From a state without attached listeners, when a second call is issued while the
first is unresolved, the next `seeked` event, whichever seek it completes,
triggers the rasterisation of both calls and detaches both listeners, so a later
`seeked` event triggers nothing more; when the second call is issued after the
signal of the first, each call is triggered by the signal of its own seek. -/
theorem captureFrame_overlap (s : CaptureState) (t1 t2 : ℚ) (f1 f2 : ImageFormat)
    (k k2 : Nat) (hl : s.listeners = []) (hq : s.frameCallbacks = []) :
    (captureRun s [.call 1 (some t1) f1, .call 2 (some t2) f2, .seeked k]).frameCallbacks
        = [{ id := 1, format := f1, signalOf := k }, { id := 2, format := f2, signalOf := k }]
      ∧ (captureRun s [.call 1 (some t1) f1, .call 2 (some t2) f2, .seeked k]).listeners = []
      ∧ (captureRun s
          [.call 1 (some t1) f1, .call 2 (some t2) f2, .seeked k, .seeked k2]).frameCallbacks
        = [{ id := 1, format := f1, signalOf := k }, { id := 2, format := f2, signalOf := k }]
      ∧ (captureRun s
          [.call 1 (some t1) f1, .seeked 1, .call 2 (some t2) f2, .seeked 2]).frameCallbacks
        = [{ id := 1, format := f1, signalOf := 1 }, { id := 2, format := f2, signalOf := 2 }] := by
  simp [captureRun, captureStep, hl, hq]

theorem captureFrame_overlap_witness :
    (readyCapture.listeners = [] ∧ readyCapture.frameCallbacks = [])
    ∧ (captureRun readyCapture
        [.call 1 (some 1) .png, .call 2 (some 2) .jpg, .seeked 1]).frameCallbacks
        = [{ id := 1, format := .png, signalOf := 1 }, { id := 2, format := .jpg, signalOf := 1 }]
      ∧ (captureRun readyCapture
          [.call 1 (some 1) .png, .call 2 (some 2) .jpg, .seeked 1]).listeners = []
      ∧ (captureRun readyCapture
          [.call 1 (some 1) .png, .call 2 (some 2) .jpg, .seeked 1, .seeked 2]).frameCallbacks
        = [{ id := 1, format := .png, signalOf := 1 }, { id := 2, format := .jpg, signalOf := 1 }]
      ∧ (captureRun readyCapture
          [.call 1 (some 1) .png, .seeked 1, .call 2 (some 2) .jpg, .seeked 2]).frameCallbacks
        = [{ id := 1, format := .png, signalOf := 1 }, { id := 2, format := .jpg, signalOf := 2 }] :=
  ⟨⟨rfl, rfl⟩, captureFrame_overlap readyCapture 1 2 .png .jpg 1 2 rfl rfl⟩

/-- C18. Source-not-ready check. For a video whose width is zero, a call
without time rejects at once with the "Video not ready" error and a call with a
time rejects with it once its `seeked` signal and an animation frame have come;
in both cases no image is produced and the canvas is neither resized nor drawn
on. For a video of nonzero width, a call without time resolves at once with the
image of the current frame and leaves the video, so the playhead, unchanged. -/
theorem captureFrame_not_ready (s s2 : CaptureState) (id : Nat) (time : ℚ)
    (format : ImageFormat) (k : Nat) (hl : s.listeners = []) (hq : s.frameCallbacks = [])
    (h0 : s.video.videoWidth = 0) (h2 : s2.video.videoWidth ≠ 0) :
    ((captureStep s (.call id none format)).settled = s.settled ++ [(id, none, .videoNotReady)]
        ∧ (captureStep s (.call id none format)).canvas = s.canvas
        ∧ (captureRun s [.call id (some time) format, .seeked k, .animationFrame]).settled
          = s.settled ++ [(id, some k, .videoNotReady)]
        ∧ (captureRun s [.call id (some time) format, .seeked k, .animationFrame]).canvas
          = s.canvas)
    ∧ ((captureStep s2 (.call id none format)).settled
          = s2.settled ++ [(id, none, .resolved
              { time := s2.video.currentTime, width := s2.video.videoWidth,
                height := s2.video.videoHeight, format := format,
                quality := if format = .png then none else some (9 / 10) })]
        ∧ (captureStep s2 (.call id none format)).video = s2.video
        ∧ (captureStep s2 (.call id none format)).canvas
          = { width := s2.video.videoWidth, height := s2.video.videoHeight,
              drawn := some s2.video.currentTime }) := by
  constructor
  · simp [captureRun, captureStep, runFrameCallbacks, processCapture, hl, hq, h0]
  · simp [captureStep, processCapture, h2]

theorem captureFrame_not_ready_witness :
    (notReadyCapture.listeners = [] ∧ notReadyCapture.frameCallbacks = []
      ∧ notReadyCapture.video.videoWidth = 0 ∧ readyCapture.video.videoWidth ≠ 0)
    ∧ ((captureStep notReadyCapture (.call 1 none .png)).settled
          = notReadyCapture.settled ++ [(1, none, .videoNotReady)]
        ∧ (captureStep notReadyCapture (.call 1 none .png)).canvas = notReadyCapture.canvas
        ∧ (captureRun notReadyCapture [.call 1 (some 3) .png, .seeked 1, .animationFrame]).settled
          = notReadyCapture.settled ++ [(1, some 1, .videoNotReady)]
        ∧ (captureRun notReadyCapture [.call 1 (some 3) .png, .seeked 1, .animationFrame]).canvas
          = notReadyCapture.canvas)
    ∧ ((captureStep readyCapture (.call 1 none .png)).settled
          = readyCapture.settled ++ [(1, none, .resolved
              { time := readyCapture.video.currentTime,
                width := readyCapture.video.videoWidth,
                height := readyCapture.video.videoHeight, format := .png,
                quality := if ImageFormat.png = .png then none else some (9 / 10) })]
        ∧ (captureStep readyCapture (.call 1 none .png)).video = readyCapture.video
        ∧ (captureStep readyCapture (.call 1 none .png)).canvas
          = { width := readyCapture.video.videoWidth,
              height := readyCapture.video.videoHeight,
              drawn := some readyCapture.video.currentTime }) :=
  ⟨⟨rfl, rfl, rfl, by decide⟩,
    captureFrame_not_ready notReadyCapture readyCapture 1 3 .png 1 rfl rfl rfl (by decide)⟩

/-! ## Theorems: decimal strings and padding -/

theorem digitChar_isDigit (k : Nat) (h : k < 10) : (Nat.digitChar k).isDigit = true := by
  interval_cases k <;> rfl

theorem digitChar_value (k : Nat) (h : k < 10) : (Nat.digitChar k).toNat - 48 = k := by
  interval_cases k <;> rfl

theorem toDigitsCore_isDigit (f : Nat) :
    ∀ (n : Nat) (ds : List Char), (∀ c ∈ ds, c.isDigit = true) →
      ∀ c ∈ Nat.toDigitsCore 10 f n ds, c.isDigit = true := by
  induction f with
  | zero => intro n ds h; simpa [Nat.toDigitsCore] using h
  | succ f ih =>
    intro n ds h
    have hd : ∀ c ∈ Nat.digitChar (n % 10) :: ds, c.isDigit = true := by
      intro c hc
      rcases List.mem_cons.mp hc with rfl | hc
      · exact digitChar_isDigit _ (Nat.mod_lt _ (by norm_num))
      · exact h c hc
    simp only [Nat.toDigitsCore]
    split_ifs
    · exact hd
    · exact ih _ _ hd

theorem toString_nat_data (n : Nat) : (toString n).data = Nat.toDigits 10 n := rfl

theorem toString_nat_isDigit (n : Nat) : ∀ c ∈ (toString n).data, c.isDigit = true := by
  rw [toString_nat_data]
  exact toDigitsCore_isDigit _ _ _ (by simp)

theorem toString_int_numberChar (z : Int) : ∀ c ∈ (toString z).data, isNumberChar c = true := by
  intro c hc
  cases z with
  | ofNat m =>
    have h := toString_nat_isDigit m c hc
    simp [isNumberChar, h]
  | negSucc m =>
    have e : (toString (Int.negSucc m)).data = '-' :: (toString (m + 1)).data := rfl
    rw [e] at hc
    rcases List.mem_cons.mp hc with rfl | hc
    · rfl
    · have h := toString_nat_isDigit (m + 1) c hc
      simp [isNumberChar, h]

theorem padStart_data (s : String) (n : Nat) (c : Char) :
    (padStart s n c).data = List.replicate (n - s.length) c ++ s.data := rfl

theorem padStart_numberChar (s : String) (n : Nat)
    (h : ∀ c ∈ s.data, isNumberChar c = true) :
    ∀ c ∈ (padStart s n '0').data, isNumberChar c = true := by
  intro c hc
  rw [padStart_data] at hc
  rcases List.mem_append.mp hc with hc | hc
  · rw [List.eq_of_mem_replicate hc]
    rfl
  · exact h c hc

theorem replaceFirst_append (l r : List Char) (c x : Char) (h : c ∉ l) :
    replaceFirst (l ++ c :: r) c x = l ++ x :: r := by
  induction l with
  | nil => simp [replaceFirst]
  | cons a l ih =>
    have ha : a ≠ c := fun e => h (e ▸ List.mem_cons_self _ _)
    have hl : c ∉ l := fun e => h (List.mem_cons_of_mem _ e)
    rw [List.cons_append, replaceFirst, if_neg ha, ih hl]
    rfl

theorem not_mem_of_numberChar (l : List Char) (c : Char) (hc : isNumberChar c = false)
    (h : ∀ a ∈ l, isNumberChar a = true) : c ∉ l := by
  intro hm
  rw [h c hm] at hc
  exact Bool.noConfusion hc

theorem decimalValue_toDigitsCore (f : Nat) :
    ∀ (n : Nat) (ds : List Char), n < f →
      (Nat.toDigitsCore 10 f n ds).foldl (fun acc c => 10 * acc + (c.toNat - 48)) 0
        = ds.foldl (fun acc c => 10 * acc + (c.toNat - 48)) n := by
  induction f with
  | zero => intro n ds h; omega
  | succ f ih =>
    intro n ds h
    have hd := digitChar_value (n % 10) (Nat.mod_lt _ (by norm_num))
    simp only [Nat.toDigitsCore]
    split_ifs with h0
    · rw [List.foldl_cons, hd]
      congr 1
      omega
    · rw [ih (n / 10) _ (by omega), List.foldl_cons, hd]
      congr 1
      omega

theorem decimalValue_toString (n : Nat) : decimalValue (toString n).data = n := by
  rw [toString_nat_data]
  exact decimalValue_toDigitsCore (n + 1) n [] (Nat.lt_succ_self n)

theorem decimalValue_zeros (k : Nat) (l : List Char) :
    decimalValue (List.replicate k '0' ++ l) = decimalValue l := by
  unfold decimalValue
  induction k with
  | zero => rfl
  | succ k ih =>
    rw [List.replicate_succ, List.cons_append, List.foldl_cons]
    exact ih

theorem decimalValue_padStart (n w : Nat) :
    decimalValue (padStart (toString n) w '0').data = n := by
  rw [padStart_data, decimalValue_zeros, decimalValue_toString]

theorem padStart_isDigit (n w : Nat) :
    ∀ c ∈ (padStart (toString n) w '0').data, c.isDigit = true := by
  intro c hc
  rw [padStart_data] at hc
  rcases List.mem_append.mp hc with hc | hc
  · rw [List.eq_of_mem_replicate hc]
    rfl
  · exact toString_nat_isDigit n c hc

theorem ext_data (format : ImageFormat) :
    (if format = .png then "png" else "jpg").data = ['p', 'n', 'g']
      ∨ (if format = .png then "png" else "jpg").data = ['j', 'p', 'g'] := by
  cases format
  · exact Or.inl rfl
  · exact Or.inr rfl

theorem numberChar_ne (l : List Char) (h : ∀ a ∈ l, isNumberChar a = true) :
    ':' ∉ l ∧ '.' ∉ l :=
  ⟨not_mem_of_numberChar l ':' rfl h, not_mem_of_numberChar l '.' rfl h⟩

theorem digits_numberChar (l : List Char) (h : ∀ a ∈ l, a.isDigit = true) :
    ∀ a ∈ l, isNumberChar a = true := by
  intro a ha
  simp [isNumberChar, h a ha]

/-! ## Theorems: which frames the encoder reads -/

theorem quantise_range (x : JSNum) : -32768 ≤ quantise x ∧ quantise x ≤ 32767 := by
  cases x with
  | fin q => exact (quantise_fin q).2
  | posInf =>
    have e : quantise posInf = quantise (fin 1) := by
      simp [quantise, JSNum.min, JSNum.max]
    rw [e]
    exact (quantise_fin 1).2
  | negInf =>
    have e : quantise negInf = quantise (fin (-1)) := by
      simp [quantise, JSNum.min, JSNum.max]
    rw [e]
    exact (quantise_fin (-1)).2
  | nan =>
    have e : quantise nan = 0 := by
      simp [quantise, JSNum.min, JSNum.max, JSNum.add, JSNum.lt, JSNum.mul, JSNum.toInt32]
    rw [e]
    norm_num

/-- Reading back the two bytes `setInt16` stores gives the value stored, for a
value in the signed 16-bit range. -/
theorem getInt16_leBytes (v : Int) (h1 : -32768 ≤ v) (h2 : v ≤ 32767) (rest : List Nat) :
    getInt16 (leBytes 2 (v % 65536).toNat ++ rest) 0 = v := by
  have e : ((leBytes 2 (v % 65536).toNat ++ rest).drop 0).take 2
      = leBytes 2 (v % 65536).toNat := by
    rw [List.drop_zero, List.take_left' (leBytes_length _ _)]
  unfold getInt16 getUint16
  simp only [e, ofLeBytes_leBytes]
  have h3 : 0 ≤ v % 65536 := Int.emod_nonneg _ (by norm_num)
  have h4 : v % 65536 < 65536 := Int.emod_lt_of_pos _ (by norm_num)
  have h5 : ((v % 65536).toNat : Int) = v % 65536 := Int.toNat_of_nonneg h3
  have h6 : (v % 65536).toNat % 256 ^ 2 = (v % 65536).toNat := by
    apply Nat.mod_eq_of_lt
    omega
  rw [h6]
  split_ifs with h
  · rw [h5]
    omega
  · rw [h5]
    omega

theorem frameBytesFrom_drop (channels : List (List JSNum)) (pos : Nat) :
    ∀ (m i0 j : Nat), j < m →
      (frameBytesFrom channels pos m i0).drop (2 * j)
        = sampleBytes (channels.getD (i0 + j) []) pos
          ++ (frameBytesFrom channels pos m i0).drop (2 * j + 2) := by
  intro m
  induction m with
  | zero => intro i0 j h; omega
  | succ m ih =>
    intro i0 j h
    cases j with
    | zero =>
      simp only [frameBytesFrom, Nat.mul_zero, List.drop_zero, Nat.add_zero, Nat.zero_add]
      rw [List.drop_left' (sampleBytes_length _ _)]
    | succ j =>
      have e1 : 2 * (j + 1) = 2 + 2 * j := by ring
      have e3 : i0 + (j + 1) = i0.succ + j := by omega
      simp only [frameBytesFrom]
      rw [e1, Nat.add_assoc 2 (2 * j) 2, ← List.drop_drop, ← List.drop_drop (2 * j + 2),
        List.drop_left' (sampleBytes_length _ _), ih i0.succ j (by omega), e3]

theorem payloadFrom_drop (channels : List (List JSNum)) (c : Nat) :
    ∀ (n pos k i : Nat), k < n → i < c →
      ∃ rest, (payloadFrom channels c n pos).drop (2 * (k * c + i))
        = sampleBytes (channels.getD i []) (pos + k) ++ rest := by
  intro n
  induction n with
  | zero => intro pos k i h; omega
  | succ n ih =>
    intro pos k i hk hi
    cases k with
    | zero =>
      simp only [payloadFrom, Nat.zero_mul, Nat.zero_add, Nat.add_zero]
      rw [List.drop_append_of_le_length (by rw [frameBytesFrom_length]; omega),
        frameBytesFrom_drop channels pos c 0 i hi, Nat.zero_add, List.append_assoc]
      exact ⟨_, rfl⟩
    | succ k =>
      have e1 : 2 * ((k + 1) * c + i) = 2 * c + 2 * (k * c + i) := by ring
      have e2 : pos + (k + 1) = pos.succ + k := by omega
      obtain ⟨rest, hrest⟩ := ih pos.succ k i (by omega) hi
      simp only [payloadFrom]
      rw [e1, ← List.drop_drop, List.drop_left' (frameBytesFrom_length _ _ _ _), hrest, e2]
      exact ⟨_, rfl⟩

theorem frameBytesFrom_congr (ch1 ch2 : List (List JSNum)) (pos : Nat)
    (h : ∀ i, readSample (ch1.getD i []) pos = readSample (ch2.getD i []) pos) :
    ∀ m i0, frameBytesFrom ch1 pos m i0 = frameBytesFrom ch2 pos m i0 := by
  intro m
  induction m with
  | zero => intro i0; rfl
  | succ m ih =>
    intro i0
    simp only [frameBytesFrom, sampleBytes, h, ih]

theorem payloadFrom_congr (ch1 ch2 : List (List JSNum)) (c : Nat) :
    ∀ n pos, (∀ i p, pos ≤ p → readSample (ch1.getD i []) p = readSample (ch2.getD i []) p) →
      payloadFrom ch1 c n pos = payloadFrom ch2 c n pos := by
  intro n
  induction n with
  | zero => intro pos _; rfl
  | succ n ih =>
    intro pos h
    simp only [payloadFrom]
    rw [frameBytesFrom_congr ch1 ch2 pos (fun i => h i pos (le_refl _)) c 0,
      ih pos.succ (fun i p hp => h i p (by omega))]

/-- C21. Which input frames `bufferToWave` reads. For every buffer and frame
count `len` the encoder returns a blob in which output frame `k`, for
`k + 44 < len`, holds for each channel the quantised input sample of frame
`k + 44`; the bytes after the `len - 44` written frames, that is the last
`min(len, 44)` frames of the data block, are zero; for `len ≤ 44` the whole
payload is zero; and input frames `0..43` are never read: two buffers with the
same sample rate and channel count whose samples agree from frame 44 on give
the same blob. -/
theorem bufferToWave_frames (abuffer : AudioBuffer) (len : Nat) :
    ∃ out, bufferToWave abuffer len = some out
      ∧ (∀ k ch, k + 44 < len → ch < abuffer.numberOfChannels →
          getInt16 out (44 + 2 * (k * abuffer.numberOfChannels + ch))
            = quantise (readSample (abuffer.channelData.getD ch []) (k + 44)))
      ∧ out.drop (44 + 2 * abuffer.numberOfChannels * (len - 44))
          = List.replicate (2 * abuffer.numberOfChannels * min len 44) 0
      ∧ (len ≤ 44 → out.drop 44 = List.replicate (2 * abuffer.numberOfChannels * len) 0)
      ∧ ∀ other : AudioBuffer, other.sampleRate = abuffer.sampleRate →
          other.numberOfChannels = abuffer.numberOfChannels →
          (∀ ch p, 44 ≤ p → readSample (other.channelData.getD ch []) p
            = readSample (abuffer.channelData.getD ch []) p) →
          bufferToWave other len = some out := by
  refine ⟨_, bufferToWave_eq abuffer len, ?_, ?_, ?_, ?_⟩
  · intro k ch hk hch
    show getInt16 (List.drop (44 + 2 * (k * abuffer.numberOfChannels + ch)) _) 0 = _
    obtain ⟨rest, hrest⟩ := payloadFrom_drop abuffer.channelData abuffer.numberOfChannels
      (len - 44) 44 k ch (by omega) hch
    have hle : 2 * (k * abuffer.numberOfChannels + ch)
        ≤ (payloadFrom abuffer.channelData abuffer.numberOfChannels (len - 44) 44).length := by
      rw [payloadFrom_length]
      have h1 : (k + 1) * abuffer.numberOfChannels ≤ (len - 44) * abuffer.numberOfChannels :=
        Nat.mul_le_mul_right _ (by omega)
      have h2 : 2 * abuffer.numberOfChannels * (len - 44)
          = 2 * ((len - 44) * abuffer.numberOfChannels) := by ring
      rw [h2]
      have h3 : (k + 1) * abuffer.numberOfChannels
          = k * abuffer.numberOfChannels + abuffer.numberOfChannels := by ring
      omega
    rw [List.append_assoc, ← List.drop_drop,
      List.drop_left' (headerBytes_length _ _ _), List.drop_append_of_le_length hle, hrest,
      List.append_assoc, Nat.add_comm 44 k]
    unfold sampleBytes
    exact getInt16_leBytes _ (quantise_range _).1 (quantise_range _).2 _
  · have hl : (headerBytes abuffer.numberOfChannels abuffer.sampleRate len
        ++ payloadFrom abuffer.channelData abuffer.numberOfChannels (len - 44) 44).length
        = 44 + 2 * abuffer.numberOfChannels * (len - 44) := by
      rw [List.length_append, headerBytes_length, payloadFrom_length]
    exact List.drop_left' hl
  · intro hlen
    have e1 : len - 44 = 0 := by omega
    have e2 : min len 44 = len := by omega
    rw [e1, e2]
    simp only [payloadFrom, List.append_nil]
    exact List.drop_left' (headerBytes_length _ _ _)
  · intro other hsr hc hsame
    rw [bufferToWave_eq, hsr, hc,
      payloadFrom_congr other.channelData abuffer.channelData abuffer.numberOfChannels
        (len - 44) 44 (fun i p hp => hsame i p hp)]

theorem bufferToWave_frames_witness :
    ∃ out, bufferToWave rampBuffer 46 = some out
      ∧ getInt16 out 44 = quantise (fin (44 / 100))
      ∧ getInt16 out 46 = quantise (fin (45 / 100))
      ∧ out.drop 48 = List.replicate 88 0 := by
  obtain ⟨out, h, h1, h2, _, _⟩ := bufferToWave_frames rampBuffer 46
  have hc : rampBuffer.numberOfChannels = 1 := rfl
  have r44 : readSample (rampBuffer.channelData.getD 0 []) 44 = fin (44 / 100) := by
    simp [readSample, rampBuffer]
  have r45 : readSample (rampBuffer.channelData.getD 0 []) 45 = fin (45 / 100) := by
    simp [readSample, rampBuffer]
  refine ⟨out, h, ?_, ?_, ?_⟩
  · have := h1 0 0 (by norm_num) (by rw [hc]; norm_num)
    rw [hc, r44] at this
    exact this
  · have := h1 1 0 (by norm_num) (by rw [hc]; norm_num)
    rw [hc, r45] at this
    exact this
  · rw [hc] at h2
    exact h2

/-! ## Theorems: trimmed buffer contents -/

theorem trimBuffer_sample (b : AudioBuffer) (actualStart frameCount c j : Nat)
    (hc : c < b.numberOfChannels) (hj : j < frameCount) :
    readSample ((trimBuffer b actualStart frameCount).channelData.getD c []) j
      = readSample (b.channelData.getD c []) (j + actualStart) := by
  have h1 : (trimBuffer b actualStart frameCount).channelData.getD c []
      = (List.range frameCount).map fun j =>
          readSample (b.channelData.getD c []) (j + actualStart) := by
    unfold trimBuffer
    simp only
    rw [List.getD_eq_getElem _ _ (by simpa using hc), List.getElem_map, List.getElem_range]
  rw [h1]
  unfold readSample
  rw [List.getD_eq_getElem _ _ (by simpa using hj), List.getElem_map, List.getElem_range]

/-- C23. Trimmed buffer contents: with a file loaded, for a decoded buffer and a
trim range whose `actualStart = max(0, floor(start*r))` is below
`actualEnd = min(L, floor(end*r))`, `handleExtractAudio(true)` hands to the
encoder, with frame count `actualEnd - actualStart`, a buffer of the same
channel count and sample rate and of that length, whose sample `j` of each
channel is the original sample `actualStart + j` of that channel, every index
read being below `L`; the container downloaded is the encoder's output on it. -/
theorem handleExtractAudio_trimmed_buffer (b : AudioBuffer) (t : TrimRange)
    (hlt : max 0 ⌊t.start * (b.sampleRate : ℚ)⌋
      < min (b.length : Int) ⌊t.end_ * (b.sampleRate : ℚ)⌋) :
    ∃ wav, bufferToWave
          (trimBuffer b (max 0 ⌊t.start * (b.sampleRate : ℚ)⌋).toNat
            (min (b.length : Int) ⌊t.end_ * (b.sampleRate : ℚ)⌋
              - max 0 ⌊t.start * (b.sampleRate : ℚ)⌋).toNat)
          (min (b.length : Int) ⌊t.end_ * (b.sampleRate : ℚ)⌋
              - max 0 ⌊t.start * (b.sampleRate : ℚ)⌋).toNat = some wav
      ∧ handleExtractAudio true t (.decoded b) true = .downloaded wav
      ∧ (trimBuffer b (max 0 ⌊t.start * (b.sampleRate : ℚ)⌋).toNat
            (min (b.length : Int) ⌊t.end_ * (b.sampleRate : ℚ)⌋
              - max 0 ⌊t.start * (b.sampleRate : ℚ)⌋).toNat).numberOfChannels
          = b.numberOfChannels
      ∧ (trimBuffer b (max 0 ⌊t.start * (b.sampleRate : ℚ)⌋).toNat
            (min (b.length : Int) ⌊t.end_ * (b.sampleRate : ℚ)⌋
              - max 0 ⌊t.start * (b.sampleRate : ℚ)⌋).toNat).sampleRate = b.sampleRate
      ∧ ((trimBuffer b (max 0 ⌊t.start * (b.sampleRate : ℚ)⌋).toNat
            (min (b.length : Int) ⌊t.end_ * (b.sampleRate : ℚ)⌋
              - max 0 ⌊t.start * (b.sampleRate : ℚ)⌋).toNat).length : Int)
          = min (b.length : Int) ⌊t.end_ * (b.sampleRate : ℚ)⌋
              - max 0 ⌊t.start * (b.sampleRate : ℚ)⌋
      ∧ ∀ c j, c < b.numberOfChannels →
          j < (min (b.length : Int) ⌊t.end_ * (b.sampleRate : ℚ)⌋
              - max 0 ⌊t.start * (b.sampleRate : ℚ)⌋).toNat →
          readSample ((trimBuffer b (max 0 ⌊t.start * (b.sampleRate : ℚ)⌋).toNat
              (min (b.length : Int) ⌊t.end_ * (b.sampleRate : ℚ)⌋
                - max 0 ⌊t.start * (b.sampleRate : ℚ)⌋).toNat).channelData.getD c []) j
            = readSample (b.channelData.getD c [])
                (j + (max 0 ⌊t.start * (b.sampleRate : ℚ)⌋).toNat)
          ∧ j + (max 0 ⌊t.start * (b.sampleRate : ℚ)⌋).toNat < b.length := by
  generalize hS : max 0 ⌊t.start * (b.sampleRate : ℚ)⌋ = aS at hlt ⊢
  generalize hE : min (b.length : Int) ⌊t.end_ * (b.sampleRate : ℚ)⌋ = aE at hlt ⊢
  have hS0 : 0 ≤ aS := by rw [← hS]; exact le_max_left _ _
  have hEL : aE ≤ (b.length : Int) := by rw [← hE]; exact min_le_left _ _
  have hse : t.start < t.end_ := by
    by_contra hc
    rw [not_lt] at hc
    have h1 : ⌊t.end_ * (b.sampleRate : ℚ)⌋ ≤ ⌊t.start * (b.sampleRate : ℚ)⌋ :=
      Int.floor_mono (mul_le_mul_of_nonneg_right hc (Nat.cast_nonneg _))
    have h2 : aE ≤ ⌊t.end_ * (b.sampleRate : ℚ)⌋ := by rw [← hE]; exact min_le_right _ _
    have h3 : ⌊t.start * (b.sampleRate : ℚ)⌋ ≤ aS := by rw [← hS]; exact le_max_right _ _
    omega
  obtain ⟨wav, hw⟩ : ∃ wav, bufferToWave (trimBuffer b aS.toNat (aE - aS).toNat)
      (aE - aS).toNat = some wav := ⟨_, bufferToWave_eq _ _⟩
  refine ⟨wav, hw, ?_, trimBuffer_numberOfChannels _ _ _, rfl, ?_, ?_⟩
  · unfold handleExtractAudio
    simp only [Bool.not_true, Bool.false_eq_true, if_false, Bool.true_and, decide_eq_true_eq]
    rw [if_neg (not_le.mpr hse), if_pos trivial, hS, hE, if_neg (by omega), hw]
  · show (((aE - aS).toNat : Nat) : Int) = aE - aS
    exact Int.toNat_of_nonneg (by omega)
  · intro c j hc hj
    refine ⟨trimBuffer_sample b _ _ c j hc hj, ?_⟩
    omega

theorem handleExtractAudio_trimmed_buffer_witness :
    max 0 ⌊tenthSecondTrim.start * (fiveSecondMono.sampleRate : ℚ)⌋
        < min (fiveSecondMono.length : Int)
            ⌊tenthSecondTrim.end_ * (fiveSecondMono.sampleRate : ℚ)⌋
    ∧ ∃ wav, handleExtractAudio true tenthSecondTrim (.decoded fiveSecondMono) true
          = .downloaded wav
        ∧ (trimBuffer fiveSecondMono 44100 4410).numberOfChannels = 1
        ∧ ∀ j, j < 4410 →
            readSample ((trimBuffer fiveSecondMono 44100 4410).channelData.getD 0 []) j
              = readSample (fiveSecondMono.channelData.getD 0 []) (j + 44100) := by
  have e1 : ⌊tenthSecondTrim.start * (fiveSecondMono.sampleRate : ℚ)⌋ = 44100 := by
    rw [fiveSecondMono_sampleRate]
    norm_num [tenthSecondTrim]
  have e2 : ⌊tenthSecondTrim.end_ * (fiveSecondMono.sampleRate : ℚ)⌋ = 48510 := by
    rw [fiveSecondMono_sampleRate]
    norm_num [tenthSecondTrim]
  have hlt : max 0 ⌊tenthSecondTrim.start * (fiveSecondMono.sampleRate : ℚ)⌋
      < min (fiveSecondMono.length : Int)
          ⌊tenthSecondTrim.end_ * (fiveSecondMono.sampleRate : ℚ)⌋ := by
    rw [e1, e2, fiveSecondMono_length]
    norm_num
  obtain ⟨wav, _, hw, hc, _, _, hs⟩ :=
    handleExtractAudio_trimmed_buffer fiveSecondMono tenthSecondTrim hlt
  rw [e1, e2, fiveSecondMono_length] at hc hs
  have a1 : (max 0 (44100 : Int)).toNat = 44100 := rfl
  have a2 : (min ((220500 : Nat) : Int) 48510 - max 0 44100).toNat = 4410 := rfl
  rw [a1, a2] at hc hs
  refine ⟨hlt, wav, hw, hc, ?_⟩
  intro j hj
  exact (hs 0 j (by rw [fiveSecondMono_numberOfChannels]; norm_num) hj).1

/-! ## Theorems: binary64 rounding -/

namespace F64

theorem rneDiv_spec (n d : Nat) (hd : 0 < d) :
    |((rneDiv n d : Nat) : ℚ) - (n : ℚ) / d| ≤ 1 / 2 := by
  have hdq : (0 : ℚ) < d := by exact_mod_cast hd
  have hn : (n : ℚ) = (d : ℚ) * ((n / d : Nat) : ℚ) + ((n % d : Nat) : ℚ) := by
    exact_mod_cast (Nat.div_add_mod n d).symm
  have hr : ((n % d : Nat) : ℚ) < d := by exact_mod_cast Nat.mod_lt n hd
  have hr0 : (0 : ℚ) ≤ ((n % d : Nat) : ℚ) := by positivity
  have hq : (n : ℚ) / d = ((n / d : Nat) : ℚ) + ((n % d : Nat) : ℚ) / d := by
    rw [hn]
    field_simp
    ring
  have hfrac0 : 0 ≤ ((n % d : Nat) : ℚ) / d := by positivity
  have hfrac1 : ((n % d : Nat) : ℚ) / d < 1 := (div_lt_one hdq).mpr hr
  unfold rneDiv
  simp only
  split_ifs with h1 h2 h3
  · have h1q : (2 : ℚ) * ((n % d : Nat) : ℚ) < d := by exact_mod_cast h1
    have : ((n % d : Nat) : ℚ) / d < 1 / 2 := by
      rw [div_lt_iff₀ hdq]
      linarith
    rw [hq, abs_le]
    constructor <;> linarith
  · have h2q : (d : ℚ) < 2 * ((n % d : Nat) : ℚ) := by exact_mod_cast h2
    have : 1 / 2 < ((n % d : Nat) : ℚ) / d := by
      rw [lt_div_iff₀ hdq]
      linarith
    rw [hq, abs_le]
    push_cast
    constructor <;> linarith
  · have h1q : (d : ℚ) ≤ 2 * ((n % d : Nat) : ℚ) := by exact_mod_cast not_lt.mp h1
    have h2q : (2 : ℚ) * ((n % d : Nat) : ℚ) ≤ d := by exact_mod_cast not_lt.mp h2
    have : ((n % d : Nat) : ℚ) / d = 1 / 2 := by
      rw [div_eq_iff hdq.ne']
      linarith
    rw [hq, abs_le]
    constructor <;> linarith
  · have h1q : (d : ℚ) ≤ 2 * ((n % d : Nat) : ℚ) := by exact_mod_cast not_lt.mp h1
    have h2q : (2 : ℚ) * ((n % d : Nat) : ℚ) ≤ d := by exact_mod_cast not_lt.mp h2
    have : ((n % d : Nat) : ℚ) / d = 1 / 2 := by
      rw [div_eq_iff hdq.ne']
      linarith
    rw [hq, abs_le]
    push_cast
    constructor <;> linarith

theorem log2Aux_spec (x : Nat) : ∀ (j acc : Nat), 2 ^ acc ≤ x → x < 2 ^ (acc + 2 ^ j) →
    2 ^ log2Aux x j acc ≤ x ∧ x < 2 ^ (log2Aux x j acc + 1) := by
  intro j
  induction j with
  | zero =>
      intro acc h1 h2
      exact ⟨h1, h2⟩
  | succ j ih =>
      intro acc h1 h2
      rw [log2Aux]
      split_ifs with h
      · apply ih _ h
        have : acc + 2 ^ j + 2 ^ j = acc + 2 ^ (j + 1) := by rw [pow_succ]; ring
        rw [this]
        exact h2
      · exact ih _ h1 (not_le.mp h)

theorem ilog2_spec (x : Nat) (h1 : 1 ≤ x) (h2 : x < 2 ^ 4096) :
    2 ^ ilog2 x ≤ x ∧ x < 2 ^ (ilog2 x + 1) :=
  log2Aux_spec x 12 0 (by rw [pow_zero]; exact h1)
    (by
      have e : 0 + 2 ^ 12 = 4096 := by norm_num
      rw [e]
      exact h2)

end F64
namespace F64

theorem roundUnits_spec (n d J : Nat) (hd : 0 < d) (hJ : 53 ≤ J) (hJ2 : J ≤ 4096)
    (h : n < 2 ^ J * d) :
    |((roundUnits n d : Nat) : ℚ) - (n : ℚ) / d| ≤ (2 : ℚ) ^ J / 2 ^ 54 := by
  have hdq : (0 : ℚ) < d := by exact_mod_cast hd
  unfold roundUnits
  split_ifs with h53
  · refine le_trans (rneDiv_spec n d hd) ?_
    rw [le_div_iff₀ (by positivity)]
    have : (2 : ℚ) ^ 53 ≤ 2 ^ J := pow_le_pow_right₀ (by norm_num) hJ
    have e : (2 : ℚ) ^ 54 = 2 * 2 ^ 53 := by rw [pow_succ]; ring
    rw [e]
    linarith
  · simp only
    have hx1 : 2 ^ 53 ≤ n / d := (Nat.le_div_iff_mul_le hd).mpr (not_lt.mp h53)
    have hx2 : n / d < 2 ^ J := (Nat.div_lt_iff_lt_mul hd).mpr h
    have hx3 : n / d < 2 ^ 4096 :=
      lt_of_lt_of_le hx2 (Nat.pow_le_pow_right (by norm_num) hJ2)
    have hx0 : 1 ≤ n / d := le_trans Nat.one_le_two_pow hx1
    obtain ⟨hl1, hl2⟩ := ilog2_spec (n / d) hx0 hx3
    have hL1 : 53 ≤ ilog2 (n / d) := by
      have : 2 ^ 53 < 2 ^ (ilog2 (n / d) + 1) := lt_of_le_of_lt hx1 hl2
      have := (Nat.pow_lt_pow_iff_right (by norm_num : 1 < 2)).mp this
      omega
    have hL2 : ilog2 (n / d) < J := by
      have : 2 ^ ilog2 (n / d) < 2 ^ J := lt_of_le_of_lt hl1 hx2
      exact (Nat.pow_lt_pow_iff_right (by norm_num : 1 < 2)).mp this
    generalize ilog2 (n / d) = L at hL1 hL2
    obtain ⟨e, rfl⟩ : ∃ e, L = e + 52 := ⟨L - 52, by omega⟩
    rw [Nat.add_sub_cancel]
    have hpos : 0 < d * 2 ^ e := Nat.mul_pos hd (pow_pos (by norm_num) e)
    have hr := rneDiv_spec n (d * 2 ^ e) hpos
    have he : (0 : ℚ) < 2 ^ e := by positivity
    have key : ((rneDiv n (d * 2 ^ e) * 2 ^ e : Nat) : ℚ) - (n : ℚ) / d
        = 2 ^ e * (((rneDiv n (d * 2 ^ e) : Nat) : ℚ) - (n : ℚ) / ((d * 2 ^ e : Nat) : ℚ)) := by
      push_cast
      field_simp
      ring
    rw [key, abs_mul, abs_of_pos he]
    have h54 : (2 : ℚ) ^ J / 2 ^ 54 ≥ 2 ^ e * (1 / 2) := by
      have hJe : e + 53 ≤ J := by omega
      have : (2 : ℚ) ^ (e + 53) ≤ 2 ^ J := pow_le_pow_right₀ (by norm_num) hJe
      rw [ge_iff_le, le_div_iff₀ (by positivity)]
      have e2 : (2 : ℚ) ^ e * (1 / 2) * 2 ^ 54 = 2 ^ (e + 53) := by
        rw [pow_add]
        norm_num
        ring
      rw [e2]
      exact this
    calc 2 ^ e * |((rneDiv n (d * 2 ^ e) : Nat) : ℚ) - (n : ℚ) / ((d * 2 ^ e : Nat) : ℚ)|
        ≤ 2 ^ e * (1 / 2) := by
          apply mul_le_mul_of_nonneg_left hr he.le
      _ ≤ (2 : ℚ) ^ J / 2 ^ 54 := h54

/-- Rounding a rational of magnitude below `2^J` units (`53 ≤ J ≤ 2097`) gives
a finite double within `2^(J-54)` units of it, of the same sign. -/
theorem roundNearest_spec (n : Int) (d J : Nat) (hd : 0 < d) (hJ : 53 ≤ J) (hJ2 : J ≤ 2097)
    (h : |(n : ℚ)| < 2 ^ J * d) :
    ∃ k : Int, roundNearest n d = fin k ∧ |(k : ℚ) - (n : ℚ) / d| ≤ (2 : ℚ) ^ J / 2 ^ 54
      ∧ (0 ≤ n → 0 ≤ k) ∧ (n ≤ 0 → k ≤ 0) := by
  have hdq : (0 : ℚ) < d := by exact_mod_cast hd
  have habs : ((n.natAbs : Nat) : ℚ) = |(n : ℚ)| := by
    rw [Nat.cast_natAbs, Int.cast_abs]
  have hn : n.natAbs < 2 ^ J * d := by
    have : ((n.natAbs : Nat) : ℚ) < ((2 ^ J * d : Nat) : ℚ) := by
      rw [habs]
      push_cast
      exact h
    exact_mod_cast this
  have hs := roundUnits_spec n.natAbs d J hd hJ (by omega) hn
  rw [habs] at hs
  have hq : |(n : ℚ)| / d < 2 ^ J := by
    rw [div_lt_iff₀ hdq]
    exact h
  have hm : ((roundUnits n.natAbs d : Nat) : ℚ) < 2 ^ 2098 := by
    have h1 := (abs_le.mp hs).2
    have h2 : (2 : ℚ) ^ J ≤ 2 ^ 2097 := pow_le_pow_right₀ (by norm_num) hJ2
    have h3 : (2 : ℚ) ^ J / 2 ^ 54 ≤ 2 ^ J := by
      apply div_le_self (by positivity)
      exact one_le_pow₀ (by norm_num)
    have h4 : (2 : ℚ) ^ 2098 = 2 * 2 ^ 2097 := by rw [pow_succ]; ring
    rw [h4]
    linarith
  have hm2 : ¬ (2 ^ 2098 ≤ roundUnits n.natAbs d) := by
    intro hc
    have : ((2 ^ 2098 : Nat) : ℚ) ≤ ((roundUnits n.natAbs d : Nat) : ℚ) := by exact_mod_cast hc
    push_cast at this
    linarith
  unfold roundNearest
  simp only [if_neg hm2]
  by_cases h0 : 0 ≤ n
  · refine ⟨_, rfl, ?_, ?_, ?_⟩
    · simp only [if_pos h0]
      have : |(n : ℚ)| = n := abs_of_nonneg (by exact_mod_cast h0)
      rw [this] at hs
      exact_mod_cast hs
    · intro _
      simp only [if_pos h0]
      positivity
    · intro hle
      have : n = 0 := le_antisymm hle h0
      subst this
      simp [roundUnits, rneDiv]
  · have hneg : n < 0 := not_le.mp h0
    refine ⟨_, rfl, ?_, ?_, ?_⟩
    · simp only [if_neg h0]
      have : |(n : ℚ)| = -n := abs_of_neg (by exact_mod_cast hneg)
      rw [this] at hs
      push_cast
      rw [show -((roundUnits n.natAbs d : Nat) : ℚ) - (n : ℚ) / d
          = -(((roundUnits n.natAbs d : Nat) : ℚ) - -(n : ℚ) / d) by ring, abs_neg]
      exact hs
    · intro hc
      exact absurd hc h0
    · intro _
      simp only [if_neg h0]
      have : (0 : Int) ≤ (roundUnits n.natAbs d : Nat) := by positivity
      omega

end F64
/-! ## Theorems: the storyboard loop in binary64 arithmetic -/

namespace Binary64

set_option exponentiation.threshold 5000 in
set_option maxRecDepth 1000000 in
/-- Every `currentTime` of the first 602 iterations is finite and within
`2^-36 / 10` of the exact multiple of one tenth. -/
theorem tick_table : ∀ k, k < 602 → tickNear k (tick k) = true := by decide

set_option exponentiation.threshold 5000 in
set_option maxRecDepth 1000000 in
theorem tick_600 : F64.le MAX_STORYBOARD_DURATION (tick 600) = true := by decide

set_option exponentiation.threshold 5000 in
set_option maxRecDepth 1000000 in
theorem max_duration_eq : MAX_STORYBOARD_DURATION = F64.fin (60 * (F64.scale : Int)) := by decide

set_option exponentiation.threshold 5000 in
set_option maxRecDepth 1000000 in
theorem interval_eq :
    interval = F64.fin (((3602879701896397 * 2 ^ 1019 : Nat) : Int)) := by decide

theorem tick_fin (k : Nat) (hk : k < 602) :
    ∃ x : Int, tick k = F64.fin x
      ∧ (10 * x - (k : Int) * (F64.scale : Int)).natAbs ≤ F64.scale / 2 ^ 36 := by
  have h := tick_table k hk
  cases ht : tick k with
  | fin x =>
      rw [ht] at h
      exact ⟨x, rfl, of_decide_eq_true h⟩
  | posInf => rw [ht] at h; exact absurd h (by simp [tickNear])
  | negInf => rw [ht] at h; exact absurd h (by simp [tickNear])
  | nan => rw [ht] at h; exact absurd h (by simp [tickNear])

/-- For a duration that is not above the limit, iteration 600 is not entered. -/
theorem lt_tick_600 (d : F64) (h : F64.gt d MAX_STORYBOARD_DURATION = false) :
    F64.lt (tick 600) d = false := by
  obtain ⟨y, hy, -⟩ := tick_fin 600 (by norm_num)
  have h6 := tick_600
  rw [hy, max_duration_eq] at h6
  rw [max_duration_eq] at h
  rw [hy]
  cases d with
  | fin x =>
      simp only [F64.gt, F64.lt, decide_eq_false_iff_not, not_lt] at h
      simp only [F64.le, decide_eq_true_eq] at h6
      simp only [F64.lt, decide_eq_false_iff_not, not_lt]
      omega
  | posInf => simp [F64.gt, F64.lt] at h
  | negInf => rfl
  | nan => rfl

theorem storyboardLoop_frames_f64 (env : StoryboardEnv) (d : F64) (fmt : ImageFormat) (ext : String)
    (tf : F64) :
    ∀ (n fuel k : Nat), n ≤ fuel →
      (∀ i, k ≤ i → i < k + n →
        F64.lt (tick i) d = true ∧ env.seek i = .seeked ∧ hasSource (env.events i) = true
          ∧ env.captureOk i = true) →
      storyboardLoop env d fmt ext tf fuel (tick k) k
        = (frameEffects env fmt ext tf n k
            ++ (storyboardLoop env d fmt ext tf (fuel - n) (tick (k + n)) (k + n)).1,
          (storyboardLoop env d fmt ext tf (fuel - n) (tick (k + n)) (k + n)).2) := by
  intro n
  induction n with
  | zero =>
      intro fuel k _ _
      simp [frameEffects]
  | succ n ih =>
      intro fuel k hf hok
      obtain ⟨f, rfl⟩ : ∃ f, fuel = f + 1 := ⟨fuel - 1, by omega⟩
      obtain ⟨h1, h2, h3, h4⟩ := hok k (le_refl k) (by omega)
      have hrest := ih f (k + 1) (by omega) (fun i hi1 hi2 => hok i (by omega) (by omega))
      have e1 : k + 1 + n = k + (n + 1) := by omega
      have e2 : f + 1 - (n + 1) = f - n := by omega
      rw [e1] at hrest
      rw [e2]
      rw [storyboardLoop, if_pos h1, h2]
      simp only [h3, h4, decide_True, Bool.and_self, if_true]
      have e3 : F64.add (tick k) interval = tick (k + 1) := rfl
      rw [e3, hrest]
      simp [frameEffects]

/-- The first iteration index at which the loop condition fails. -/
theorem exists_first_tick (d : F64) (h : F64.gt d MAX_STORYBOARD_DURATION = false) :
    ∃ n, n ≤ 600 ∧ (∀ k, k < n → F64.lt (tick k) d = true) ∧ F64.lt (tick n) d = false := by
  have hex : ∃ n, F64.lt (tick n) d = false := ⟨600, lt_tick_600 d h⟩
  refine ⟨Nat.find hex, Nat.find_min' hex (lt_tick_600 d h), ?_, Nat.find_spec hex⟩
  intro k hk
  have := Nat.find_min hex hk
  simpa using this

theorem storyboardLoop_stop (env : StoryboardEnv) (d : F64) (fmt : ImageFormat) (ext : String)
    (tf : F64) (fuel k : Nat) (hf : 0 < fuel) (h : F64.lt (tick k) d = false) :
    storyboardLoop env d fmt ext tf fuel (tick k) k = ([], .completed) := by
  obtain ⟨f, rfl⟩ : ∃ f, fuel = f + 1 := ⟨fuel - 1, by omega⟩
  rw [storyboardLoop, h]
  simp

/-- A run in which every seek signals on an element that has a source and every
capture resolves: the loop performs the iterations `0 .. n-1`, `n ≤ 600` being
the first index whose `currentTime` is not below the duration. -/
theorem storyboardLoop_success_f64 (env : StoryboardEnv) (d : F64) (fmt : ImageFormat) (ext : String)
    (tf : F64) (fuel : Nat) (hf : 601 ≤ fuel)
    (hd : F64.gt d MAX_STORYBOARD_DURATION = false)
    (hok : ∀ i, env.seek i = .seeked ∧ hasSource (env.events i) = true
      ∧ env.captureOk i = true) :
    ∃ n, n ≤ 600 ∧ (∀ k, k < n → F64.lt (tick k) d = true) ∧ F64.lt (tick n) d = false
      ∧ storyboardLoop env d fmt ext tf fuel (F64.fin 0) 0
        = (frameEffects env fmt ext tf n 0, .completed) := by
  obtain ⟨n, hn, h1, h2⟩ := exists_first_tick d hd
  refine ⟨n, hn, h1, h2, ?_⟩
  have hfr := storyboardLoop_frames_f64 env d fmt ext tf n fuel 0 (by omega)
    (fun i _ hi => ⟨h1 i (by omega), (hok i).1, (hok i).2.1, (hok i).2.2⟩)
  have e : tick 0 = F64.fin 0 := rfl
  rw [e, Nat.zero_add, storyboardLoop_stop env d fmt ext tf (fuel - n) n (by omega) h2] at hfr
  rw [hfr]
  simp

end Binary64
namespace Binary64

theorem scale_pos : (0 : ℚ) < (F64.scale : ℚ) := by
  unfold F64.scale
  positivity

theorem two_pow_scale (a b : Nat) (h : a = 1074 + b) : (2 : ℚ) ^ a = (F64.scale : ℚ) * 2 ^ b := by
  subst h
  unfold F64.scale
  push_cast
  rw [pow_add]

set_option exponentiation.threshold 5000 in
set_option maxRecDepth 1000000 in
/-- The double `0.1` is at least one tenth and exceeds it by less than one part
in `2^53`. -/
theorem interval_near :
    F64.scale ≤ 10 * (3602879701896397 * 2 ^ 1019) ∧
      10 * (3602879701896397 * 2 ^ 1019) - F64.scale ≤ F64.scale / 2 ^ 53
      ∧ F64.scale / 2 ^ 53 * 2 ^ 53 = F64.scale := by decide

theorem interval_near_rat : ∃ c : Nat, interval = F64.fin ((c : Nat) : Int) ∧ 0 < c
    ∧ (F64.scale : ℚ) ≤ 10 * (c : ℚ) ∧ 10 * (c : ℚ) - F64.scale ≤ (F64.scale : ℚ) / 2 ^ 53 := by
  obtain ⟨hc1, hc2, hc3⟩ := interval_near
  have hi := interval_eq
  revert hc1 hc2 hi
  generalize 3602879701896397 * 2 ^ 1019 = c
  intro hc1 hc2 hi
  have hS := scale_pos
  have hcq1 : (F64.scale : ℚ) ≤ 10 * (c : ℚ) := by exact_mod_cast hc1
  refine ⟨c, hi, ?_, hcq1, ?_⟩
  · have : (0 : ℚ) < c := by linarith
    exact_mod_cast this
  · have h1 : ((10 * c - F64.scale : Nat) : ℚ) ≤ ((F64.scale / 2 ^ 53 : Nat) : ℚ) := by
      exact_mod_cast hc2
    have h2 : ((F64.scale / 2 ^ 53 : Nat) : ℚ) = (F64.scale : ℚ) / 2 ^ 53 := by
      rw [eq_div_iff (by positivity)]
      exact_mod_cast hc3
    rw [Nat.cast_sub hc1, h2] at h1
    push_cast at h1
    exact h1

theorem totalFrames_arith (S c x q n : ℚ) (hS : 0 < S) (hc1 : S ≤ 10 * c)
    (hc2 : 10 * c - S ≤ S / 2 ^ 53) (hx : 0 < x) (hn : n ≤ 601)
    (hlow : (n - 1) * S - S / 2 ^ 36 < 10 * x) (hup : 10 * x ≤ n * S + S / 2 ^ 36) :
    x * S < S * 2 ^ 10 * c
      ∧ (|q - x * S / c| ≤ S / 2 ^ 44 → (n - 2) * S ≤ q ∧ q < (n + 1) * S) := by
  have hc : 0 < c := by linarith
  have e36 : S / 2 ^ 36 = S * (1 / 2 ^ 36) := by ring
  have e44 : S / 2 ^ 44 = S * (1 / 2 ^ 44) := by ring
  have e53 : S / 2 ^ 53 = S * (1 / 2 ^ 53) := by ring
  rw [e36] at hlow hup
  rw [e53] at hc2
  rw [e44]
  have hx10 : 10 * x ≤ 602 * S := by nlinarith
  have hquo_up : x * S / c ≤ 10 * x := by
    rw [div_le_iff₀ hc]
    nlinarith
  have hquo_low : 10 * x - S * (1 / 2 ^ 40) ≤ x * S / c := by
    rw [le_div_iff₀ hc]
    have h1 : 10 * x * c ≤ x * S + x * (S * (1 / 2 ^ 53)) := by nlinarith
    have h2 : x * (S * (1 / 2 ^ 53)) ≤ S * (1 / 2 ^ 40) * c := by
      have : x * (1 / 2 ^ 53) ≤ (1 / 2 ^ 40) * c := by
        have : x ≤ 602 * c := by nlinarith
        norm_num
        norm_num at this
        linarith
      nlinarith
    nlinarith
  refine ⟨?_, ?_⟩
  · have : x * S ≤ 602 / 10 * S * S := by nlinarith
    have h2 : S * S ≤ 10 * c * S := by nlinarith
    norm_num
    nlinarith
  · intro herr
    obtain ⟨hl, hu⟩ := abs_le.mp herr
    constructor
    · have : (0 : ℚ) < S * (1 - 1 / 2 ^ 36 - 1 / 2 ^ 40 - 1 / 2 ^ 44) := by
        apply mul_pos hS
        norm_num
      nlinarith
    · have : (0 : ℚ) < S * (1 - 1 / 2 ^ 36 - 1 / 2 ^ 44) := by
        apply mul_pos hS
        norm_num
      nlinarith

/-- The value of `totalFrames = Math.floor(duration / interval)` for a duration
`x` within `2^-36` of the interval from `n - 1` to `n` tenths, `n ≤ 601`. -/
theorem totalFrames_near (x : Int) (n : Nat) (hx0 : 0 < x) (hn : n ≤ 601)
    (hlow : ((n : ℚ) - 1) * F64.scale - (F64.scale : ℚ) / 2 ^ 36 < 10 * (x : ℚ))
    (hup : 10 * (x : ℚ) ≤ (n : ℚ) * F64.scale + (F64.scale : ℚ) / 2 ^ 36) :
    ∃ T : Int, F64.floor (F64.div (F64.fin x) interval) = F64.fin (T * (F64.scale : Int))
      ∧ (n : Int) - 2 ≤ T ∧ T ≤ n ∧ 0 ≤ T := by
  have hS := scale_pos
  obtain ⟨c, hci, hcnat, hcq1, hcq2⟩ := interval_near_rat
  have hxq : (0 : ℚ) < x := by exact_mod_cast hx0
  have hnq : (n : ℚ) ≤ 601 := by exact_mod_cast hn
  have hbound : |((x * (F64.scale : Int) : Int) : ℚ)| < 2 ^ 1084 * (c : ℚ) := by
    have h1 := (totalFrames_arith F64.scale c x 0 n hS hcq1 hcq2 hxq hnq hlow hup).1
    have h2 : (((x * (F64.scale : Int) : Int) : ℚ)) = (x : ℚ) * (F64.scale : ℚ) := by
      push_cast
      rfl
    rw [h2, abs_of_pos (mul_pos hxq hS), two_pow_scale 1084 10 (by norm_num)]
    exact h1
  obtain ⟨q, hq, herr, hq0, -⟩ :=
    F64.roundNearest_spec (x * (F64.scale : Int)) c 1084 hcnat (by norm_num) (by norm_num) hbound
  have hdiv : F64.div (F64.fin x) interval = F64.fin q := by
    rw [hci]
    have hc0 : ((c : Nat) : Int) ≠ 0 := by exact_mod_cast hcnat.ne'
    have hcp : (0 : Int) < ((c : Nat) : Int) := by exact_mod_cast hcnat
    simp only [F64.div, if_neg hc0, if_pos hcp, Int.natAbs_ofNat]
    exact hq
  have herr2 : (2 : ℚ) ^ 1084 / 2 ^ 54 = (F64.scale : ℚ) / 2 ^ 44 := by
    rw [two_pow_scale 1084 10 (by norm_num), div_eq_div_iff (by positivity) (by positivity)]
    rw [show (54 : Nat) = 10 + 44 by norm_num, pow_add]
    ring
  have h2 : (((x * (F64.scale : Int) : Int) : ℚ)) = (x : ℚ) * (F64.scale : ℚ) := by
    push_cast
    rfl
  rw [herr2, h2] at herr
  obtain ⟨hql, hqu⟩ :=
    (totalFrames_arith F64.scale c x q n hS hcq1 hcq2 hxq hnq hlow hup).2 herr
  have hSi : (0 : Int) < (F64.scale : Int) := by exact_mod_cast hS
  refine ⟨q / (F64.scale : Int), ?_, ?_, ?_, ?_⟩
  · rw [hdiv]
    rfl
  · have : ((n : Int) - 2) * (F64.scale : Int) ≤ q := by exact_mod_cast hql
    exact Int.le_ediv_of_mul_le hSi this
  · have : q < ((n : Int) + 1) * (F64.scale : Int) := by exact_mod_cast hqu
    have := Int.ediv_lt_of_lt_mul hSi this
    omega
  · exact Int.ediv_nonneg (hq0 (Int.mul_nonneg hx0.le hSi.le)) hSi.le

end Binary64
namespace Binary64

theorem captureTimes_frameEffects_f64 (env : StoryboardEnv) (fmt : ImageFormat) (ext : String)
    (tf : F64) : ∀ n k : Nat,
    captureTimes (frameEffects env fmt ext tf n k) = (List.range' k n).map tick := by
  intro n
  induction n with
  | zero => intro k; rfl
  | succ n ih =>
      intro k
      have h : captureTimes ((env.events k).map StoryEffect.handler) = [] := by
        unfold captureTimes
        induction env.events k with
        | nil => rfl
        | cons e es ihe => simp
      have ih' := ih (k + 1)
      unfold captureTimes at ih' h ⊢
      rw [frameEffects, List.cons_append, List.filterMap_cons, List.filterMap_append, h]
      simp only [List.nil_append, List.filterMap_cons, ih', List.range'_succ, List.map_cons]

/-- The trace of a run in which every seek signals on an element that has a
source and every capture resolves, for a duration that is not above the limit. -/
theorem handleGenerateStoryboard_run (fuel : Nat) (inp : StoryboardInput) (env : StoryboardEnv)
    (name : String) (hfile : inp.videoFile = some name) (hvideo : inp.video = true)
    (hfuel : 601 ≤ fuel) (hmax : F64.gt inp.duration MAX_STORYBOARD_DURATION = false)
    (hok : ∀ i, env.seek i = .seeked ∧ hasSource (env.events i) = true
      ∧ env.captureOk i = true) :
    ∃ n, n ≤ 600 ∧ (∀ k, k < n → F64.lt (tick k) inp.duration = true)
      ∧ F64.lt (tick n) inp.duration = false
      ∧ handleGenerateStoryboard fuel inp env
        = some ([.setIsZipping true, .setZipProgress (F64.fin 0), .setError "", .newZip]
          ++ frameEffects env inp.storyboardFormat
              (if inp.storyboardFormat = .png then "png" else "jpg")
              (F64.floor (F64.div inp.duration interval)) n 0
          ++ (if env.zipOk then
                [.generateZip, .download ((name.splitOn ".").headD "" ++ "_storyboard.zip"),
                  .setZipProgress (F64.ofNat 100)]
              else [.generateZip, .setError pipelineMessage])
          ++ [.setIsZipping false, .scheduleProgressReset]) := by
  obtain ⟨n, hn, h1, h2, hloop⟩ := storyboardLoop_success_f64 env inp.duration inp.storyboardFormat
    (if inp.storyboardFormat = .png then "png" else "jpg")
    (F64.floor (F64.div inp.duration interval)) fuel hfuel hmax hok
  refine ⟨n, hn, h1, h2, ?_⟩
  unfold handleGenerateStoryboard
  rw [hfile, hvideo]
  simp only [hmax, Bool.false_eq_true, if_false]
  rw [hloop]
  simp only
  by_cases hz : env.zipOk = true
  · simp only [hz, if_true]
  · simp only [hz, Bool.false_eq_true, if_false]

set_option exponentiation.threshold 5000 in
set_option maxRecDepth 1000000 in
theorem scale_div_36 : F64.scale / 2 ^ 36 * 2 ^ 36 = F64.scale := by decide

theorem tick_near_rat (k : Nat) (hk : k < 602) :
    ∃ x : Int, tick k = F64.fin x
      ∧ (k : ℚ) * F64.scale - (F64.scale : ℚ) / 2 ^ 36 ≤ 10 * (x : ℚ)
      ∧ 10 * (x : ℚ) ≤ (k : ℚ) * F64.scale + (F64.scale : ℚ) / 2 ^ 36 := by
  obtain ⟨x, hx, hb⟩ := tick_fin k hk
  refine ⟨x, hx, ?_⟩
  have h2 : ((F64.scale / 2 ^ 36 : Nat) : ℚ) = (F64.scale : ℚ) / 2 ^ 36 := by
    rw [eq_div_iff (by positivity)]
    exact_mod_cast scale_div_36
  have h3 : (((10 * x - (k : Int) * (F64.scale : Int)).natAbs : Nat) : ℚ)
      ≤ ((F64.scale / 2 ^ 36 : Nat) : ℚ) := by exact_mod_cast hb
  rw [Nat.cast_natAbs, Int.cast_abs, h2] at h3
  push_cast at h3
  have h4 : ((F64.scale : Int) : ℚ) = ((F64.scale : Nat) : ℚ) := rfl
  obtain ⟨h5, h6⟩ := abs_le.mp h3
  constructor <;> linarith

/-- A duration for which iteration 0 is entered is finite and positive. -/
theorem duration_fin (d : F64) (h0 : F64.lt (F64.fin 0) d = true)
    (hmax : F64.gt d MAX_STORYBOARD_DURATION = false) : ∃ x : Int, d = F64.fin x ∧ 0 < x := by
  cases d with
  | fin x => exact ⟨x, rfl, by simpa [F64.lt] using h0⟩
  | posInf => rw [max_duration_eq] at hmax; simp [F64.gt, F64.lt] at hmax
  | negInf => simp [F64.lt] at h0
  | nan => simp [F64.lt] at h0

/-- The value of `totalFrames` in a run of `n ≥ 1` iterations: a whole number
`T` with `T ≤ n ≤ T + 2`. -/
theorem totalFrames_of_run (d : F64) (n : Nat) (hn1 : 1 ≤ n) (hn : n ≤ 600)
    (h1 : ∀ k, k < n → F64.lt (tick k) d = true) (h2 : F64.lt (tick n) d = false)
    (hmax : F64.gt d MAX_STORYBOARD_DURATION = false) :
    ∃ T : Nat, F64.floor (F64.div d interval) = F64.fin ((T : Int) * (F64.scale : Int))
      ∧ T ≤ n ∧ n ≤ T + 2 := by
  obtain ⟨x, hx, hx0⟩ := duration_fin d (h1 0 (by omega)) hmax
  obtain ⟨a, ha, ha1, -⟩ := tick_near_rat (n - 1) (by omega)
  obtain ⟨b, hb, -, hb2⟩ := tick_near_rat n (by omega)
  have hax : a < x := by
    have := h1 (n - 1) (by omega)
    rw [ha, hx] at this
    simpa [F64.lt] using this
  have hxb : x ≤ b := by
    rw [hb, hx] at h2
    simpa [F64.lt] using h2
  have haxq : (a : ℚ) < x := by exact_mod_cast hax
  have hxbq : (x : ℚ) ≤ b := by exact_mod_cast hxb
  have hcast : ((n - 1 : Nat) : ℚ) = (n : ℚ) - 1 := by
    rw [Nat.cast_sub hn1]
    norm_num
  rw [hcast] at ha1
  obtain ⟨T, hT, hT1, hT2, hT0⟩ :=
    totalFrames_near x n hx0 (by omega) (by linarith) (by linarith)
  refine ⟨T.toNat, ?_, by omega, by omega⟩
  rw [hx, hT, Int.toNat_of_nonneg hT0]

/-- C22 (amended). Captures versus expected frames in the arithmetic of the
code: with a file loaded and a duration `0 < d ≤ 60`, a run whose seeks all
signal, whose captures all resolve and whose archive is generated performs `n`
captures, at the rounded sums `tick 0 .. tick (n-1)` of the interval, where `n`
is the first index whose sum is not below `d`; `1 ≤ n ≤ 600`, and
`totalFrames = Math.floor(d / interval)` satisfies
`totalFrames ≤ n ≤ totalFrames + 2`. -/
theorem handleGenerateStoryboard_capture_count (fuel : Nat) (inp : StoryboardInput)
    (env : StoryboardEnv) (name : String) (hfile : inp.videoFile = some name)
    (hvideo : inp.video = true) (hfuel : 601 ≤ fuel)
    (hpos : F64.lt (F64.fin 0) inp.duration = true)
    (hmax : F64.gt inp.duration MAX_STORYBOARD_DURATION = false)
    (hok : ∀ i, env.seek i = .seeked ∧ hasSource (env.events i) = true
      ∧ env.captureOk i = true)
    (hz : env.zipOk = true) :
    ∃ (tr : List StoryEffect) (n : Nat) (T : Int),
      handleGenerateStoryboard fuel inp env = some tr
        ∧ StoryEffect.download ((name.splitOn ".").headD "" ++ "_storyboard.zip") ∈ tr
        ∧ captureTimes tr = (List.range n).map tick
        ∧ 1 ≤ n ∧ n ≤ 600
        ∧ (∀ k, k < n → F64.lt (tick k) inp.duration = true)
        ∧ F64.lt (tick n) inp.duration = false
        ∧ F64.floor (F64.div inp.duration interval) = F64.fin (T * (F64.scale : Int))
        ∧ T ≤ n ∧ (n : Int) ≤ T + 2 := by
  obtain ⟨n, hn, h1, h2, hrun⟩ :=
    handleGenerateStoryboard_run fuel inp env name hfile hvideo hfuel hmax hok
  have hn1 : 1 ≤ n := by
    rcases Nat.eq_zero_or_pos n with h0 | h0
    · subst h0
      have e : tick 0 = F64.fin 0 := rfl
      rw [e, hpos] at h2
      exact absurd h2 (by simp)
    · exact h0
  obtain ⟨T, hT, hT1, hT2⟩ := totalFrames_of_run inp.duration n hn1 hn h1 h2 hmax
  refine ⟨_, n, T, hrun, ?_, ?_, hn1, hn, h1, h2, hT, by omega, by omega⟩
  · simp [hz]
  · unfold captureTimes
    rw [List.filterMap_append, List.filterMap_append, List.filterMap_append]
    have h3 := captureTimes_frameEffects_f64 env inp.storyboardFormat
      (if inp.storyboardFormat = .png then "png" else "jpg")
      (F64.floor (F64.div inp.duration interval)) n 0
    unfold captureTimes at h3
    rw [h3, hz, List.range_eq_range']
    simp only [if_true, List.filterMap_cons, List.filterMap_nil, List.nil_append,
      List.append_nil]

theorem handleGenerateStoryboard_capture_count_witness :
    (oneSecondInput.videoFile = some "clip.mp4" ∧ oneSecondInput.video = true ∧ 601 ≤ 601
      ∧ F64.lt (F64.fin 0) oneSecondInput.duration = true
      ∧ F64.gt oneSecondInput.duration MAX_STORYBOARD_DURATION = false
      ∧ (∀ i, reliableEnv.seek i = .seeked ∧ hasSource (reliableEnv.events i) = true
          ∧ reliableEnv.captureOk i = true)
      ∧ reliableEnv.zipOk = true)
    ∧ ∃ (tr : List StoryEffect) (n : Nat) (T : Int),
      handleGenerateStoryboard 601 oneSecondInput reliableEnv = some tr
        ∧ StoryEffect.download (("clip.mp4".splitOn ".").headD "" ++ "_storyboard.zip") ∈ tr
        ∧ captureTimes tr = (List.range n).map tick
        ∧ 1 ≤ n ∧ n ≤ 600
        ∧ (∀ k, k < n → F64.lt (tick k) oneSecondInput.duration = true)
        ∧ F64.lt (tick n) oneSecondInput.duration = false
        ∧ F64.floor (F64.div oneSecondInput.duration interval)
            = F64.fin (T * (F64.scale : Int))
        ∧ T ≤ n ∧ (n : Int) ≤ T + 2 :=
  have hp : F64.lt (F64.fin 0) oneSecondInput.duration = true := by
    set_option exponentiation.threshold 5000 in
    set_option maxRecDepth 1000000 in decide
  have hm : F64.gt oneSecondInput.duration MAX_STORYBOARD_DURATION = false := by
    set_option exponentiation.threshold 5000 in
    set_option maxRecDepth 1000000 in decide
  ⟨⟨rfl, rfl, le_refl _, hp, hm, fun _ => ⟨rfl, rfl, rfl⟩, rfl⟩,
    handleGenerateStoryboard_capture_count 601 oneSecondInput reliableEnv "clip.mp4" rfl rfl
      (le_refl _) hp hm (fun _ => ⟨rfl, rfl, rfl⟩) rfl⟩

set_option exponentiation.threshold 5000 in
set_option maxRecDepth 1000000 in
/-- C22 (counterexample). For the duration 1.0 s, a whole multiple of the
interval for which `ceil(d / 0.1) = 10` and `totalFrames = 10`, the successful
run performs 11 captures: the tenth rounded sum is `0.9999999999999999`, still
below the duration. -/
theorem handleGenerateStoryboard_one_second :
    (handleGenerateStoryboard 601 oneSecondInput reliableEnv).map
        (fun tr => (captureTimes tr).length) = some 11
      ∧ oneSecondInput.duration = F64.fin (1 * (F64.scale : Int))
      ∧ F64.floor (F64.div oneSecondInput.duration interval) = F64.ofNat 10
      ∧ F64.lt (tick 10) oneSecondInput.duration = true
      ∧ ⌈(1 : ℚ) / (1 / 10)⌉ = 10 := by
  refine ⟨by decide, by decide, by decide, by decide, ?_⟩
  rw [Int.ceil_eq_iff]
  norm_num

end Binary64
namespace Binary64

set_option exponentiation.threshold 5000 in
set_option maxRecDepth 1000000 in
/-- The integers up to 602 are held exactly. -/
theorem ofNat_table : ∀ m, m < 603 → F64.ofNat m = F64.fin ((m : Int) * (F64.scale : Int)) := by
  decide

theorem progress_arith (S q p : ℚ) (T m : ℚ) (hS : 0 < S) (hT1 : 1 ≤ T) (hm0 : 0 ≤ m)
    (hm : m ≤ 601) :
    m * S * S < 2 ^ 10 * S * (T * S)
      ∧ (|q - m * S * S / (T * S)| ≤ S * 2 ^ 10 / 2 ^ 54 →
          0 ≤ q → q * (100 * S) < S * 2 ^ 16 * S
            ∧ (|p - q * (100 * S) / S| ≤ S * 2 ^ 16 / 2 ^ 54 →
                |p - 100 * m * S / T| ≤ S / 2 ^ 36)) := by
  have hT : 0 < T := by linarith
  have hSS : 0 < S * S := mul_pos hS hS
  have e1 : m * S * S / (T * S) = m * S / T := by
    field_simp
    ring
  have hmT : m * S / T ≤ 601 * S := by
    rw [div_le_iff₀ hT]
    nlinarith
  have hmT0 : 0 ≤ m * S / T := by positivity
  refine ⟨by nlinarith, ?_⟩
  intro hq hq0
  rw [e1] at hq
  obtain ⟨hq1, hq2⟩ := abs_le.mp hq
  have hS1 : S * 2 ^ 10 / 2 ^ 54 = S * (1 / 2 ^ 44) := by norm_num; ring
  have hS2 : S * 2 ^ 16 / 2 ^ 54 = S * (1 / 2 ^ 38) := by norm_num; ring
  have hS3 : S / 2 ^ 36 = S * (1 / 2 ^ 36) := by ring
  rw [hS1] at hq1 hq2
  have hqb : q ≤ 602 * S := by
    have : S * (1 / 2 ^ 44) ≤ S := by
      have : (1 : ℚ) / 2 ^ 44 ≤ 1 := by norm_num
      nlinarith
    linarith
  refine ⟨by nlinarith, ?_⟩
  intro hp
  have e2 : q * (100 * S) / S = 100 * q := by
    field_simp
    ring
  have e3 : 100 * m * S / T = 100 * (m * S / T) := by ring
  rw [e2, hS2] at hp
  obtain ⟨hp1, hp2⟩ := abs_le.mp hp
  rw [e3, hS3, abs_le]
  have h36 : S * (1 / 2 ^ 36) = 100 * (S * (1 / 2 ^ 44)) + S * (1 / 2 ^ 38)
      + S * (1 / 2 ^ 36 - 100 / 2 ^ 44 - 1 / 2 ^ 38) := by ring
  have hpos : (0 : ℚ) ≤ S * (1 / 2 ^ 36 - 100 / 2 ^ 44 - 1 / 2 ^ 38) := by
    apply mul_nonneg hS.le
    norm_num
  constructor <;> linarith

/-- The product `(frameCount / totalFrames) * 100` of line 352 for
`1 ≤ totalFrames ≤ 600` and `frameCount ≤ 601`: a finite double within `2^-36`
of the exact percentage. -/
theorem progress_point (T m : Nat) (hT1 : 1 ≤ T) (hm : m ≤ 601) :
    ∃ p : Int,
      F64.mul (F64.div (F64.ofNat m) (F64.fin ((T : Int) * (F64.scale : Int)))) (F64.ofNat 100)
          = F64.fin p
        ∧ |(p : ℚ) - 100 * (m : ℚ) * F64.scale / (T : ℚ)| ≤ (F64.scale : ℚ) / 2 ^ 36 := by
  have hS := scale_pos
  have hSn : 0 < F64.scale := by exact_mod_cast hS
  have hSi : (0 : Int) < (F64.scale : Int) := by exact_mod_cast hS
  have hTq : (1 : ℚ) ≤ T := by exact_mod_cast hT1
  have hmq : (m : ℚ) ≤ 601 := by exact_mod_cast hm
  have hm0 : (0 : ℚ) ≤ m := Nat.cast_nonneg m
  rw [ofNat_table m (by omega), ofNat_table 100 (by norm_num)]
  have hTS : (0 : Int) < (T : Int) * (F64.scale : Int) :=
    Int.mul_pos (by exact_mod_cast hT1) hSi
  have hnat : ((T : Int) * (F64.scale : Int)).natAbs = T * F64.scale := by
    rw [Int.natAbs_mul, Int.natAbs_ofNat, Int.natAbs_ofNat]
  have hdiv : F64.div (F64.fin ((m : Int) * (F64.scale : Int)))
        (F64.fin ((T : Int) * (F64.scale : Int)))
      = F64.roundNearest ((m : Int) * (F64.scale : Int) * (F64.scale : Int)) (T * F64.scale) := by
    simp only [F64.div, if_neg hTS.ne', if_pos hTS, hnat]
  obtain ⟨ha1, ha2⟩ := progress_arith F64.scale 0 0 T m hS hTq hm0 hmq
  have hb1 : |((((m : Int) * (F64.scale : Int) * (F64.scale : Int) : Int)) : ℚ)|
      < 2 ^ 1084 * ((T * F64.scale : Nat) : ℚ) := by
    have e : ((((m : Int) * (F64.scale : Int) * (F64.scale : Int) : Int)) : ℚ)
        = (m : ℚ) * F64.scale * F64.scale := by
      push_cast
      rfl
    rw [e, abs_of_nonneg (mul_nonneg (mul_nonneg hm0 hS.le) hS.le),
      two_pow_scale 1084 10 (by norm_num)]
    push_cast
    linarith
  obtain ⟨q, hq, hqerr, hq0, -⟩ := F64.roundNearest_spec
    ((m : Int) * (F64.scale : Int) * (F64.scale : Int)) (T * F64.scale) 1084
    (Nat.mul_pos hT1 hSn) (by norm_num) (by norm_num) hb1
  have hq0 : 0 ≤ q := hq0 (Int.mul_nonneg (Int.mul_nonneg (Int.ofNat_nonneg m) hSi.le) hSi.le)
  have hq0q : (0 : ℚ) ≤ q := by exact_mod_cast hq0
  have hqerr2 : |(q : ℚ) - (m : ℚ) * F64.scale * F64.scale / ((T : ℚ) * F64.scale)|
      ≤ (F64.scale : ℚ) * 2 ^ 10 / 2 ^ 54 := by
    rw [← two_pow_scale 1084 10 (by norm_num)]
    have e : ((((m : Int) * (F64.scale : Int) * (F64.scale : Int) : Int)) : ℚ)
        / ((T * F64.scale : Nat) : ℚ) = (m : ℚ) * F64.scale * F64.scale / ((T : ℚ) * F64.scale) := by
      push_cast
      rfl
    rw [← e]
    exact hqerr
  obtain ⟨hc1, hc2⟩ := (progress_arith F64.scale q 0 T m hS hTq hm0 hmq).2 hqerr2 hq0q
  rw [hdiv, hq]
  have hmul : F64.mul (F64.fin q) (F64.fin ((100 : Nat) * (F64.scale : Int)))
      = F64.roundNearest (q * ((100 : Nat) * (F64.scale : Int))) F64.scale := rfl
  have hb2 : |(((q * ((100 : Nat) * (F64.scale : Int)) : Int)) : ℚ)|
      < 2 ^ 1090 * ((F64.scale : Nat) : ℚ) := by
    have e : (((q * ((100 : Nat) * (F64.scale : Int)) : Int)) : ℚ)
        = (q : ℚ) * (100 * F64.scale) := by
      push_cast
      rfl
    rw [e, abs_of_nonneg (mul_nonneg hq0q (by linarith)), two_pow_scale 1090 16 (by norm_num)]
    exact hc1
  obtain ⟨p, hp, hperr, -, -⟩ := F64.roundNearest_spec
    (q * ((100 : Nat) * (F64.scale : Int))) F64.scale 1090 hSn (by norm_num) (by norm_num) hb2
  refine ⟨p, ?_, ?_⟩
  · rw [hmul, hp]
  · have hperr2 : |(p : ℚ) - (q : ℚ) * (100 * F64.scale) / F64.scale|
        ≤ (F64.scale : ℚ) * 2 ^ 16 / 2 ^ 54 := by
      rw [← two_pow_scale 1090 16 (by norm_num)]
      have e : (((q * ((100 : Nat) * (F64.scale : Int)) : Int)) : ℚ) / ((F64.scale : Nat) : ℚ)
          = (q : ℚ) * (100 * F64.scale) / F64.scale := by
        push_cast
        rfl
      rw [← e]
      exact hperr
    exact (progress_arith F64.scale q p T m hS hTq hm0 hmq).2 hqerr2 hq0q |>.2 hperr2

end Binary64
namespace Binary64

theorem loopProgress_fin (T m : Nat) (hT1 : 1 ≤ T) (hm : m ≤ 601) :
    ∃ p : Int,
      |(p : ℚ) - 100 * (m : ℚ) * F64.scale / (T : ℚ)| ≤ (F64.scale : ℚ) / 2 ^ 36
        ∧ loopProgress m (F64.fin ((T : Int) * (F64.scale : Int)))
          = F64.fin (min (((99 : Nat) : Int) * (F64.scale : Int))
              ((p + ((F64.scale / 2 : Nat) : Int)) / (F64.scale : Int) * (F64.scale : Int))) := by
  obtain ⟨p, hp, hb⟩ := progress_point T m hT1 hm
  refine ⟨p, hb, ?_⟩
  unfold loopProgress
  rw [hp, ofNat_table 99 (by norm_num)]
  rfl

theorem loopProgress_zero (m : Nat) (hm1 : 1 ≤ m) (hm : m ≤ 601) :
    loopProgress m (F64.fin 0) = F64.fin (((99 : Nat) : Int) * (F64.scale : Int)) := by
  have hS := scale_pos
  have hSi : (0 : Int) < (F64.scale : Int) := by exact_mod_cast hS
  have hmS : (0 : Int) < (m : Int) * (F64.scale : Int) :=
    Int.mul_pos (by exact_mod_cast hm1) hSi
  have h100 : (0 : Int) < ((100 : Nat) : Int) * (F64.scale : Int) :=
    Int.mul_pos (by norm_num) hSi
  unfold loopProgress
  rw [ofNat_table m (by omega), ofNat_table 100 (by norm_num), ofNat_table 99 (by norm_num)]
  simp only [F64.div, if_true, if_neg hmS.ne', if_pos hmS, F64.mul, if_neg h100.ne', if_pos h100,
    F64.mathRound, F64.min]

/-- Every in-loop progress value is at most 99. -/
theorem loopProgress_le (T m : Nat) (hm1 : 1 ≤ m) (hm : m ≤ 601) :
    F64.le (loopProgress m (F64.fin ((T : Int) * (F64.scale : Int)))) (F64.ofNat 99) = true := by
  rw [ofNat_table 99 (by norm_num)]
  rcases Nat.eq_zero_or_pos T with h0 | h0
  · subst h0
    have e : ((0 : Nat) : Int) * (F64.scale : Int) = 0 := by simp
    rw [e, loopProgress_zero m hm1 hm]
    simp [F64.le]
  · obtain ⟨p, -, hp⟩ := loopProgress_fin T m h0 hm
    rw [hp]
    simp only [F64.le, decide_eq_true_eq]
    exact min_le_left _ _

theorem progress_gap (S T m p1 p2 : ℚ) (hS : 0 < S) (hT0 : 0 < T) (hT : T ≤ 600)
    (h1 : |p1 - 100 * m * S / T| ≤ S / 2 ^ 36)
    (h2 : |p2 - 100 * (m + 1) * S / T| ≤ S / 2 ^ 36) : p1 ≤ p2 := by
  have hstep : 100 * (m + 1) * S / T = 100 * m * S / T + 100 * S / T := by
    field_simp
    ring
  have hgap : S / 6 ≤ 100 * S / T := by
    rw [div_le_div_iff₀ (by norm_num) hT0]
    nlinarith
  have h36 : S / 2 ^ 36 = S * (1 / 2 ^ 36) := by ring
  have hsmall : 2 * (S * (1 / 2 ^ 36)) ≤ S / 6 := by
    have : (2 : ℚ) * (1 / 2 ^ 36) ≤ 1 / 6 := by norm_num
    nlinarith
  rw [hstep, h36] at h2
  rw [h36] at h1
  have := (abs_le.mp h1).2
  have := (abs_le.mp h2).1
  linarith

/-- The in-loop progress values do not decrease from one frame to the next. -/
theorem loopProgress_mono (T m : Nat) (hT : T ≤ 600) (hm1 : 1 ≤ m) (hm : m ≤ 600) :
    F64.le (loopProgress m (F64.fin ((T : Int) * (F64.scale : Int))))
      (loopProgress (m + 1) (F64.fin ((T : Int) * (F64.scale : Int)))) = true := by
  have hS := scale_pos
  have hSi : (0 : Int) < (F64.scale : Int) := by exact_mod_cast hS
  rcases Nat.eq_zero_or_pos T with h0 | h0
  · subst h0
    have e : ((0 : Nat) : Int) * (F64.scale : Int) = 0 := by simp
    rw [e, loopProgress_zero m hm1 (by omega), loopProgress_zero (m + 1) (by omega) (by omega)]
    simp [F64.le]
  · obtain ⟨p1, hb1, hp1⟩ := loopProgress_fin T m h0 (by omega)
    obtain ⟨p2, hb2, hp2⟩ := loopProgress_fin T (m + 1) h0 (by omega)
    rw [hp1, hp2]
    simp only [F64.le, decide_eq_true_eq]
    have hTq : (0 : ℚ) < T := by exact_mod_cast h0
    have hT6 : (T : ℚ) ≤ 600 := by exact_mod_cast hT
    have hcast : ((m + 1 : Nat) : ℚ) = (m : ℚ) + 1 := by push_cast; rfl
    rw [hcast] at hb2
    have hle : (p1 : ℚ) ≤ p2 := progress_gap F64.scale T m p1 p2 hS hTq hT6 hb1 hb2
    have hlei : p1 ≤ p2 := by exact_mod_cast hle
    apply min_le_min_left
    apply Int.mul_le_mul_of_nonneg_right _ hSi.le
    exact Int.ediv_le_ediv hSi (by omega)

theorem mem_frameEffects_f64 (env : StoryboardEnv) (fmt : ImageFormat) (ext : String) (tf : F64)
    (e : StoryEffect) : ∀ n k : Nat, e ∈ frameEffects env fmt ext tf n k →
    (∃ t, e = .seek t) ∨ (∃ u, e = .handler u) ∨ (∃ t, e = .capture t fmt)
      ∨ (∃ s, e = .addFile s) ∨ ∃ j, k ≤ j ∧ j < k + n ∧ e = .setZipProgress (loopProgress (j + 1) tf) := by
  intro n
  induction n with
  | zero => intro k h; simp [frameEffects] at h
  | succ n ih =>
      intro k h
      rw [frameEffects, List.cons_append] at h
      simp only [List.mem_cons, List.mem_append, List.mem_map] at h
      rcases h with h | h | h | h | h | h
      · exact Or.inl ⟨_, h⟩
      · obtain ⟨u, -, rfl⟩ := h
        exact Or.inr (Or.inl ⟨u, rfl⟩)
      · exact Or.inr (Or.inr (Or.inl ⟨_, h⟩))
      · exact Or.inr (Or.inr (Or.inr (Or.inl ⟨_, h⟩)))
      · exact Or.inr (Or.inr (Or.inr (Or.inr ⟨k, le_refl k, by omega, h⟩)))
      · rcases ih (k + 1) h with h | h | h | h | ⟨j, h1, h2, h3⟩
        · exact Or.inl h
        · exact Or.inr (Or.inl h)
        · exact Or.inr (Or.inr (Or.inl h))
        · exact Or.inr (Or.inr (Or.inr (Or.inl h)))
        · exact Or.inr (Or.inr (Or.inr (Or.inr ⟨j, by omega, by omega, h3⟩)))

theorem progressValues_frameEffects_f64 (env : StoryboardEnv) (fmt : ImageFormat) (ext : String)
    (tf : F64) : ∀ n k : Nat,
    progressValues (frameEffects env fmt ext tf n k)
      = (List.range' k n).map (fun j => loopProgress (j + 1) tf) := by
  intro n
  induction n with
  | zero => intro k; rfl
  | succ n ih =>
      intro k
      have h : progressValues ((env.events k).map StoryEffect.handler) = [] := by
        unfold progressValues
        induction env.events k with
        | nil => rfl
        | cons e es ihe => simp
      have ih' := ih (k + 1)
      unfold progressValues at ih' h ⊢
      rw [frameEffects, List.cons_append, List.filterMap_cons, List.filterMap_append, h]
      simp only [List.nil_append, List.filterMap_cons, ih', List.range'_succ, List.map_cons]

theorem archiveEntries_frameEffects_f64 (env : StoryboardEnv) (fmt : ImageFormat) (ext : String)
    (tf : F64) : ∀ n k : Nat,
    archiveEntries (frameEffects env fmt ext tf n k)
      = (List.range' k n).map (fun j => entryName j (tick j) ext) := by
  intro n
  induction n with
  | zero => intro k; rfl
  | succ n ih =>
      intro k
      have h : archiveEntries ((env.events k).map StoryEffect.handler) = [] := by
        unfold archiveEntries
        induction env.events k with
        | nil => rfl
        | cons e es ihe => simp
      have ih' := ih (k + 1)
      unfold archiveEntries at ih' h ⊢
      rw [frameEffects, List.cons_append, List.filterMap_cons, List.filterMap_append, h]
      simp only [List.nil_append, List.filterMap_cons, ih', List.range'_succ, List.map_cons]

end Binary64
namespace Binary64

set_option exponentiation.threshold 5000 in
set_option maxRecDepth 1000000 in
theorem hundred_not_le : F64.le (F64.ofNat 100) (F64.ofNat 99) = false
    ∧ F64.ofNat 100 ≠ F64.fin 0 := by decide

/-- The in-loop progress values of a run of `n` iterations: each is at most 99
and they do not decrease. -/
theorem progress_inLoop (d : F64) (n : Nat) (hn : n ≤ 600)
    (h1 : ∀ k, k < n → F64.lt (tick k) d = true) (h2 : F64.lt (tick n) d = false)
    (hmax : F64.gt d MAX_STORYBOARD_DURATION = false) :
    (∀ k, k < n →
        F64.le (loopProgress (k + 1) (F64.floor (F64.div d interval))) (F64.ofNat 99) = true)
      ∧ ∀ k, k + 1 < n →
        F64.le (loopProgress (k + 1) (F64.floor (F64.div d interval)))
          (loopProgress (k + 2) (F64.floor (F64.div d interval))) = true := by
  rcases Nat.eq_zero_or_pos n with h0 | h0
  · subst h0
    exact ⟨fun k hk => absurd hk (by omega), fun k hk => absurd hk (by omega)⟩
  · obtain ⟨T, hT, hT1, -⟩ := totalFrames_of_run d n h0 hn h1 h2 hmax
    rw [hT]
    exact ⟨fun k hk => loopProgress_le T (k + 1) (by omega) (by omega),
      fun k hk => loopProgress_mono T (k + 1) (by omega) (by omega) (by omega)⟩

/-- C12. Storyboard progress, in the arithmetic of the code: in every run
of `handleGenerateStoryboard` with a file loaded, a duration not above the limit,
every seek signalling, every capture resolving and the archive generated, the
reported progress values are `0`, then after each of the `n` appended frames
`Math.min(99, Math.round((frameCount / totalFrames) * 100))` with
`totalFrames = Math.floor(duration / interval)`, every one of them at most 99 and
none smaller than the one before, then `100`, reported after `generateAsync` and
the download and only there; after it the run only clears the zipping flag and
arms the timer that sets the progress back to 0 two seconds later. -/
theorem handleGenerateStoryboard_progress (fuel : Nat) (inp : StoryboardInput)
    (env : StoryboardEnv) (name : String) (hfile : inp.videoFile = some name)
    (hvideo : inp.video = true) (hfuel : 601 ≤ fuel)
    (hmax : F64.gt inp.duration MAX_STORYBOARD_DURATION = false)
    (hok : ∀ i, env.seek i = .seeked ∧ hasSource (env.events i) = true
      ∧ env.captureOk i = true)
    (hz : env.zipOk = true) :
    ∃ (tr pre : List StoryEffect) (inLoop : List F64) (n : Nat),
      handleGenerateStoryboard fuel inp env = some tr
        ∧ tr = pre ++ [.generateZip,
            .download ((name.splitOn ".").headD "" ++ "_storyboard.zip"),
            .setZipProgress (F64.ofNat 100), .setIsZipping false, .scheduleProgressReset]
        ∧ progressValues tr = F64.fin 0 :: inLoop ++ [F64.ofNat 100]
        ∧ (archiveEntries pre).length = n
        ∧ inLoop = (List.range n).map (fun k =>
            F64.min (F64.ofNat 99) (F64.mathRound (F64.mul
              (F64.div (F64.ofNat (k + 1)) (F64.floor (F64.div inp.duration interval)))
              (F64.ofNat 100))))
        ∧ (∀ p ∈ inLoop, F64.le p (F64.ofNat 99) = true)
        ∧ List.Chain' (fun a b => F64.le a b = true) inLoop
        ∧ StoryEffect.setZipProgress (F64.ofNat 100) ∉ pre
        ∧ StoryEffect.generateZip ∉ pre := by
  obtain ⟨n, hn, h1, h2, hrun⟩ :=
    handleGenerateStoryboard_run fuel inp env name hfile hvideo hfuel hmax hok
  obtain ⟨hle, hmono⟩ := progress_inLoop inp.duration n hn h1 h2 hmax
  rw [hz] at hrun
  simp only [if_true] at hrun
  have hfe := progressValues_frameEffects_f64 env inp.storyboardFormat
    (if inp.storyboardFormat = .png then "png" else "jpg")
    (F64.floor (F64.div inp.duration interval)) n 0
  have hae := archiveEntries_frameEffects_f64 env inp.storyboardFormat
    (if inp.storyboardFormat = .png then "png" else "jpg")
    (F64.floor (F64.div inp.duration interval)) n 0
  refine ⟨_, [.setIsZipping true, .setZipProgress (F64.fin 0), .setError "", .newZip]
      ++ frameEffects env inp.storyboardFormat
        (if inp.storyboardFormat = .png then "png" else "jpg")
        (F64.floor (F64.div inp.duration interval)) n 0,
    (List.range n).map (fun k => loopProgress (k + 1) (F64.floor (F64.div inp.duration interval))),
    n, hrun, ?_, ?_, ?_, rfl, ?_, ?_, ?_, ?_⟩
  · simp only [List.append_assoc, List.cons_append, List.nil_append]
  · unfold progressValues at hfe ⊢
    rw [List.filterMap_append, List.filterMap_append, List.filterMap_append, hfe,
      List.range_eq_range']
    simp only [List.filterMap_cons, List.filterMap_nil, List.cons_append, List.nil_append,
      List.append_nil, List.append_assoc]
  · unfold archiveEntries at hae ⊢
    rw [List.filterMap_append, hae]
    simp
  · intro p hp
    obtain ⟨k, hk, rfl⟩ := List.mem_map.mp hp
    exact hle k (List.mem_range.mp hk)
  · rw [List.chain'_map]
    rcases Nat.eq_zero_or_pos n with h0 | h0
    · subst h0
      simp
    · obtain ⟨m, rfl⟩ : ∃ m, n = m + 1 := ⟨n - 1, by omega⟩
      rw [List.chain'_range_succ]
      intro k hk
      exact hmono k (by omega)
  · intro h
    rcases List.mem_append.mp h with h | h
    · simp only [List.mem_cons, List.mem_singleton, List.not_mem_nil, or_false, reduceCtorEq,
        false_or, StoryEffect.setZipProgress.injEq] at h
      exact hundred_not_le.2 h
    · rcases mem_frameEffects_f64 _ _ _ _ _ _ _ h with ⟨t, ht⟩ | ⟨u, hu⟩ | ⟨t, ht⟩ | ⟨s, hs⟩
        | ⟨j, hj1, hj2, hj3⟩
      · cases ht
      · cases hu
      · cases ht
      · cases hs
      · injection hj3 with hj3
        have := hle j (by omega)
        rw [← hj3, hundred_not_le.1] at this
        exact absurd this (by simp)
  · intro h
    rcases List.mem_append.mp h with h | h
    · simp at h
    · rcases mem_frameEffects_f64 _ _ _ _ _ _ _ h with ⟨t, ht⟩ | ⟨u, hu⟩ | ⟨t, ht⟩ | ⟨s, hs⟩
        | ⟨j, hj1, hj2, hj3⟩
      · cases ht
      · cases hu
      · cases ht
      · cases hs
      · cases hj3

end Binary64
namespace Binary64

set_option exponentiation.threshold 5000 in
set_option maxRecDepth 1000000 in
theorem handleGenerateStoryboard_progress_witness :
    ∃ (tr pre : List StoryEffect) (inLoop : List F64) (n : Nat),
      handleGenerateStoryboard 601 oneSecondInput reliableEnv = some tr
        ∧ tr = pre ++ [.generateZip,
            .download (("clip.mp4".splitOn ".").headD "" ++ "_storyboard.zip"),
            .setZipProgress (F64.ofNat 100), .setIsZipping false, .scheduleProgressReset]
        ∧ progressValues tr = F64.fin 0 :: inLoop ++ [F64.ofNat 100]
        ∧ (archiveEntries pre).length = n
        ∧ inLoop = (List.range n).map (fun k =>
            F64.min (F64.ofNat 99) (F64.mathRound (F64.mul
              (F64.div (F64.ofNat (k + 1)) (F64.floor (F64.div oneSecondInput.duration interval)))
              (F64.ofNat 100))))
        ∧ (∀ p ∈ inLoop, F64.le p (F64.ofNat 99) = true)
        ∧ List.Chain' (fun a b => F64.le a b = true) inLoop
        ∧ StoryEffect.setZipProgress (F64.ofNat 100) ∉ pre
        ∧ StoryEffect.generateZip ∉ pre :=
  handleGenerateStoryboard_progress 601 oneSecondInput reliableEnv "clip.mp4" rfl rfl
    (le_refl _) (by decide) (fun _ => ⟨rfl, rfl, rfl⟩) rfl

set_option exponentiation.threshold 5000 in
set_option maxRecDepth 1000000 in
/-- The run on a 1 s video: eleven frames are appended, `totalFrames` is 10, and
the thirteen reported progress values are 0, 10, ..., 90, 99, 99, 100. -/
theorem handleGenerateStoryboard_one_second_progress :
    (handleGenerateStoryboard 601 oneSecondInput reliableEnv).map
        (fun tr => ((archiveEntries tr).length, progressValues tr))
      = some (11, [F64.fin 0, F64.ofNat 10, F64.ofNat 20, F64.ofNat 30, F64.ofNat 40,
          F64.ofNat 50, F64.ofNat 60, F64.ofNat 70, F64.ofNat 80, F64.ofNat 90, F64.ofNat 99,
          F64.ofNat 99, F64.ofNat 100]) := by
  decide

set_option exponentiation.threshold 5000 in
set_option maxRecDepth 1000000 in
/-- The rounding of the quotient and of the product matters: on a 4 s video,
`totalFrames = 40`, the progress after 23 frames is
`Math.round((23 / 40) * 100) = Math.round(57.49999999999999) = 57`, where the
exact value 57.5 would round to 58. -/
theorem loopProgress_rounded :
    F64.floor (F64.div (F64.ofNat 4) interval) = F64.ofNat 40
      ∧ loopProgress 23 (F64.ofNat 40) = F64.ofNat 57 := by
  decide

end Binary64
/-! ## Theorems: archive entry names in binary64 arithmetic -/

namespace Binary64

theorem numberToString_floor (M : Int) :
    numberToString (F64.fin (M * (F64.scale : Int))) = toString M := by
  have hS : ((F64.scale : Nat) : Int) ≠ 0 := by
    have := scale_pos
    exact_mod_cast this.ne'
  simp only [numberToString, Int.mul_ediv_cancel _ hS]

/-- The time suffix of an entry name whose minutes, seconds and tenths print as
integers: `formatTime` with its colon replaced by a dash and its point by an
underscore. -/
theorem timeStr_parts (M SS d : Int) :
    replaceFirst (replaceFirst
        (toString M ++ ":" ++ padStart (toString SS) 2 '0' ++ "." ++ toString d).data ':' '-')
        '.' '_'
      = (toString M).data ++ '-' :: (padStart (toString SS) 2 '0').data
        ++ '_' :: (toString d).data := by
  have hM := toString_int_numberChar M
  have hS := padStart_numberChar (toString SS) 2 (toString_int_numberChar _)
  have e0 : (toString M ++ ":" ++ padStart (toString SS) 2 '0' ++ "." ++ toString d).data
      = (toString M).data ++ ':' :: ((padStart (toString SS) 2 '0').data
        ++ '.' :: (toString d).data) := by
    simp only [String.data_append, List.append_assoc]
    rfl
  rw [e0, replaceFirst_append _ _ ':' '-' (not_mem_of_numberChar _ ':' rfl hM)]
  have e : (toString M).data ++ '-' :: ((padStart (toString SS) 2 '0').data
          ++ '.' :: (toString d).data)
      = ((toString M).data ++ '-' :: (padStart (toString SS) 2 '0').data)
          ++ '.' :: (toString d).data := by
    simp only [List.append_assoc, List.cons_append]
  rw [e, replaceFirst_append _ _ '.' '_']
  intro hm
  rcases List.mem_append.mp hm with h | h
  · exact not_mem_of_numberChar _ '.' rfl hM h
  · rcases List.mem_cons.mp h with h | h
    · exact absurd h (by decide)
    · exact not_mem_of_numberChar _ '.' rfl hS h

theorem entryName_data (n : Nat) (t : F64) (ext : String) :
    (entryName n t ext).data
      = ['f', 'r', 'a', 'm', 'e', '_'] ++ ((padStart (toString n) 4 '0').data
        ++ '_' :: (replaceFirst (replaceFirst (formatTime t).data ':' '-') '.' '_'
        ++ '.' :: ext.data)) := by
  simp only [entryName, String.data_append, List.append_assoc]
  rfl

/-- The frame index can be read back from an entry name, whatever the time. -/
theorem entryName_index (n : Nat) (t : F64) (ext : String) :
    decimalValue (((entryName n t ext).data.drop 6).takeWhile Char.isDigit) = n := by
  rw [entryName_data]
  have e : (['f', 'r', 'a', 'm', 'e', '_'] ++ ((padStart (toString n) 4 '0').data
        ++ '_' :: (replaceFirst (replaceFirst (formatTime t).data ':' '-') '.' '_'
        ++ '.' :: ext.data))).drop 6
      = (padStart (toString n) 4 '0').data
        ++ '_' :: (replaceFirst (replaceFirst (formatTime t).data ':' '-') '.' '_'
        ++ '.' :: ext.data) := rfl
  rw [e, List.takeWhile_append_of_pos (padStart_isDigit n 4),
    List.takeWhile_cons_of_neg (by decide), List.append_nil, decimalValue_padStart]

/-- The three numbers `formatTime` prints for a finite time `0 ≤ t < 2^64`:
whole numbers `M`, `SS` and `d`, with `M` below `10^21`, the bound under which
JavaScript prints an integer by its decimal digits, and `SS` between 0 and 59. -/
theorem formatTime_parts (k : Int) (hk0 : 0 ≤ k) (hk : k < 2 ^ 64 * (F64.scale : Int)) :
    ∃ M SS d : Int,
      F64.floor (F64.div (F64.fin k) (F64.ofNat 60)) = F64.fin (M * (F64.scale : Int))
        ∧ F64.floor (F64.mod (F64.fin k) (F64.ofNat 60)) = F64.fin (SS * (F64.scale : Int))
        ∧ F64.floor (F64.mul (F64.mod (F64.fin k) (F64.ofNat 1)) (F64.ofNat 10))
            = F64.fin (d * (F64.scale : Int))
        ∧ 0 ≤ M ∧ M < 10 ^ 21 ∧ 0 ≤ SS ∧ SS ≤ 59 ∧ 0 ≤ d := by
  have hS := scale_pos
  have hSn : 0 < F64.scale := by exact_mod_cast hS
  have hSi : (0 : Int) < (F64.scale : Int) := by exact_mod_cast hS
  have hkq0 : (0 : ℚ) ≤ k := by exact_mod_cast hk0
  have hkq : (k : ℚ) < 2 ^ 64 * F64.scale := by exact_mod_cast hk
  rw [ofNat_table 60 (by norm_num), ofNat_table 1 (by norm_num), ofNat_table 10 (by norm_num)]
  have h60 : (0 : Int) < ((60 : Nat) : Int) * (F64.scale : Int) := Int.mul_pos (by norm_num) hSi
  have h1 : (0 : Int) < ((1 : Nat) : Int) * (F64.scale : Int) := Int.mul_pos (by norm_num) hSi
  -- minutes
  have hnat : (((60 : Nat) : Int) * (F64.scale : Int)).natAbs = 60 * F64.scale := by
    rw [Int.natAbs_mul, Int.natAbs_ofNat, Int.natAbs_ofNat]
  have hdiv : F64.div (F64.fin k) (F64.fin (((60 : Nat) : Int) * (F64.scale : Int)))
      = F64.roundNearest (k * (F64.scale : Int)) (60 * F64.scale) := by
    simp only [F64.div, if_neg h60.ne', if_pos h60, hnat]
  have hb1 : |(((k * (F64.scale : Int) : Int)) : ℚ)| < 2 ^ 1138 * ((60 * F64.scale : Nat) : ℚ) := by
    have e : (((k * (F64.scale : Int) : Int)) : ℚ) = (k : ℚ) * F64.scale := by
      push_cast
      rfl
    rw [e, abs_of_nonneg (mul_nonneg hkq0 hS.le), two_pow_scale 1138 64 (by norm_num)]
    push_cast
    have : (k : ℚ) * F64.scale < 2 ^ 64 * F64.scale * F64.scale :=
      mul_lt_mul_of_pos_right hkq hS
    have h2 : (2 : ℚ) ^ 64 * F64.scale * F64.scale
        ≤ F64.scale * 2 ^ 64 * (60 * F64.scale) := by
      have : (0 : ℚ) ≤ F64.scale * 2 ^ 64 * F64.scale := by positivity
      linarith
    linarith
  obtain ⟨q, hq, hqerr, hq0, -⟩ := F64.roundNearest_spec (k * (F64.scale : Int))
    (60 * F64.scale) 1138 (Nat.mul_pos (by norm_num) hSn) (by norm_num) (by norm_num) hb1
  have hq0 : 0 ≤ q := hq0 (Int.mul_nonneg hk0 hSi.le)
  have hqM : q / (F64.scale : Int) < 10 ^ 21 := by
    apply Int.ediv_lt_of_lt_mul hSi
    have e : (((k * (F64.scale : Int) : Int)) : ℚ) / ((60 * F64.scale : Nat) : ℚ)
        = (k : ℚ) / 60 := by
      push_cast
      exact mul_div_mul_right _ _ hS.ne'
    rw [e, two_pow_scale 1138 64 (by norm_num)] at hqerr
    have hu := (abs_le.mp hqerr).2
    have h3 : (F64.scale : ℚ) * 2 ^ 64 / 2 ^ 54 = F64.scale * 2 ^ 10 := by
      rw [div_eq_iff (by positivity)]
      ring
    rw [h3] at hu
    have : (q : ℚ) < 10 ^ 21 * F64.scale := by
      have h4 : (k : ℚ) / 60 < 2 ^ 64 * F64.scale / 60 := by
        apply div_lt_div_of_pos_right hkq (by norm_num)
      have h5 : (2 : ℚ) ^ 64 * F64.scale / 60 + F64.scale * 2 ^ 10 ≤ 10 ^ 21 * F64.scale := by
        have : (2 : ℚ) ^ 64 / 60 + 2 ^ 10 ≤ 10 ^ 21 := by norm_num
        have := mul_le_mul_of_nonneg_right this hS.le
        linarith
      linarith
    exact_mod_cast this
  -- seconds
  have hmod60 : F64.mod (F64.fin k) (F64.fin (((60 : Nat) : Int) * (F64.scale : Int)))
      = F64.fin (k % (((60 : Nat) : Int) * (F64.scale : Int))) := by
    simp only [F64.mod, if_neg h60.ne', Int.tmod_eq_emod hk0 h60.le]
  have hr0 := Int.emod_nonneg k h60.ne'
  have hr1 := Int.emod_lt_of_pos k h60
  -- tenths
  have hmod1 : F64.mod (F64.fin k) (F64.fin (((1 : Nat) : Int) * (F64.scale : Int)))
      = F64.fin (k % (((1 : Nat) : Int) * (F64.scale : Int))) := by
    simp only [F64.mod, if_neg h1.ne', Int.tmod_eq_emod hk0 h1.le]
  have hf0 := Int.emod_nonneg k h1.ne'
  have hf1 := Int.emod_lt_of_pos k h1
  generalize k % (((1 : Nat) : Int) * (F64.scale : Int)) = f at hmod1 hf0 hf1
  have hmul : F64.mul (F64.fin f) (F64.fin (((10 : Nat) : Int) * (F64.scale : Int)))
      = F64.roundNearest (f * (((10 : Nat) : Int) * (F64.scale : Int))) F64.scale := rfl
  have hfq0 : (0 : ℚ) ≤ f := by exact_mod_cast hf0
  have hfq1 : (f : ℚ) < F64.scale := by
    have : f < (F64.scale : Int) := by simpa using hf1
    exact_mod_cast this
  have hb2 : |(((f * (((10 : Nat) : Int) * (F64.scale : Int)) : Int)) : ℚ)|
      < 2 ^ 1078 * ((F64.scale : Nat) : ℚ) := by
    have e : (((f * (((10 : Nat) : Int) * (F64.scale : Int)) : Int)) : ℚ)
        = (f : ℚ) * (10 * F64.scale) := by
      push_cast
      rfl
    rw [e, abs_of_nonneg (mul_nonneg hfq0 (by linarith)), two_pow_scale 1078 4 (by norm_num)]
    have : (f : ℚ) * (10 * F64.scale) ≤ F64.scale * (10 * F64.scale) :=
      mul_le_mul_of_nonneg_right hfq1.le (by linarith)
    have h2 : (F64.scale : ℚ) * (10 * F64.scale) < F64.scale * 2 ^ 4 * F64.scale := by
      have : (0 : ℚ) < F64.scale * F64.scale := mul_pos hS hS
      linarith
    linarith
  obtain ⟨p, hp, -, hp0, -⟩ := F64.roundNearest_spec
    (f * (((10 : Nat) : Int) * (F64.scale : Int))) F64.scale 1078 hSn (by norm_num)
    (by norm_num) hb2
  have hp0 : 0 ≤ p := hp0 (Int.mul_nonneg hf0 (Int.mul_nonneg (by norm_num) hSi.le))
  refine ⟨q / (F64.scale : Int), k % (((60 : Nat) : Int) * (F64.scale : Int)) / (F64.scale : Int),
    p / (F64.scale : Int), ?_, ?_, ?_, Int.ediv_nonneg hq0 hSi.le, hqM,
    Int.ediv_nonneg hr0 hSi.le, ?_, Int.ediv_nonneg hp0 hSi.le⟩
  · rw [hdiv, hq]
    rfl
  · rw [hmod60]
    rfl
  · rw [hmod1, hmul, hp]
    rfl
  · have := Int.ediv_lt_of_lt_mul hSi hr1
    omega

end Binary64
namespace Binary64

/-- C19. Archive entry naming, in the arithmetic of the code: for a frame index
`n ≤ 9999`, a finite capture time `0 ≤ t < 2^64` and either format, the entry
name is `frame_`, `n` zero-padded to 4 digits (exactly 4 characters), `_`, `M`,
`-`, `SS` zero-padded to 2 digits, `_`, `d`, `.` and the extension, where
`M = Math.floor(t / 60)`, `SS = Math.floor(t % 60)` and
`d = Math.floor((t % 1) * 10)` are whole numbers with `0 ≤ M < 10^21`,
`0 ≤ SS ≤ 59` and `0 ≤ d`; the name contains no colon and exactly one point, the
extension separator; and names with different frame indices are different. -/
theorem entryName_spec (n : Nat) (k : Int) (format : ImageFormat) (hn : n ≤ 9999)
    (hk0 : 0 ≤ k) (hk : k < 2 ^ 64 * (F64.scale : Int)) :
    ∃ M SS d : Int,
      F64.floor (F64.div (F64.fin k) (F64.ofNat 60)) = F64.fin (M * (F64.scale : Int))
        ∧ F64.floor (F64.mod (F64.fin k) (F64.ofNat 60)) = F64.fin (SS * (F64.scale : Int))
        ∧ F64.floor (F64.mul (F64.mod (F64.fin k) (F64.ofNat 1)) (F64.ofNat 10))
            = F64.fin (d * (F64.scale : Int))
        ∧ entryName n (F64.fin k) (if format = .png then "png" else "jpg")
            = "frame_" ++ padStart (toString n) 4 '0' ++ "_" ++ toString M ++ "-"
              ++ padStart (toString SS) 2 '0' ++ "_" ++ toString d
              ++ "." ++ (if format = .png then "png" else "jpg")
        ∧ (padStart (toString n) 4 '0').length = 4
        ∧ (0 ≤ M ∧ M < 10 ^ 21) ∧ (0 ≤ SS ∧ SS ≤ 59) ∧ 0 ≤ d
        ∧ ':' ∉ (entryName n (F64.fin k) (if format = .png then "png" else "jpg")).data
        ∧ (entryName n (F64.fin k) (if format = .png then "png" else "jpg")).data.count '.' = 1
        ∧ ∀ (n2 : Nat) (t2 : F64) (format2 : ImageFormat), n ≠ n2 →
            entryName n (F64.fin k) (if format = .png then "png" else "jpg")
              ≠ entryName n2 t2 (if format2 = .png then "png" else "jpg") := by
  obtain ⟨M, SS, d, hM, hSS, hd, hM0, hM1, hS0, hS1, hd0⟩ := formatTime_parts k hk0 hk
  have hP := digits_numberChar _ (padStart_isDigit n 4)
  have hMc := toString_int_numberChar M
  have hSc := padStart_numberChar (toString SS) 2 (toString_int_numberChar _)
  have hDc := toString_int_numberChar d
  have hfmt : formatTime (F64.fin k)
      = toString M ++ ":" ++ padStart (toString SS) 2 '0' ++ "." ++ toString d := by
    simp only [formatTime, hM, hSS, hd, numberToString_floor]
  have hdata : (entryName n (F64.fin k) (if format = .png then "png" else "jpg")).data
      = ['f', 'r', 'a', 'm', 'e', '_'] ++ ((padStart (toString n) 4 '0').data
        ++ '_' :: ((toString M).data
        ++ '-' :: ((padStart (toString SS) 2 '0').data
        ++ '_' :: ((toString d).data
        ++ '.' :: (if format = .png then "png" else "jpg").data)))) := by
    rw [entryName_data, hfmt, timeStr_parts]
    simp only [List.append_assoc, List.cons_append]
  refine ⟨M, SS, d, hM, hSS, hd, ?_, ?_, ⟨hM0, hM1⟩, ⟨hS0, hS1⟩, hd0, ?_, ?_, ?_⟩
  · apply String.ext
    rw [hdata]
    simp only [String.data_append, List.append_assoc, List.cons_append]
    rfl
  · have hlen : (toString n).length ≤ 4 := Nat.repr_length n 4 (by norm_num) (by omega)
    have e : (padStart (toString n) 4 '0').length
        = (padStart (toString n) 4 '0').data.length := rfl
    have e2 : (toString n).data.length = (toString n).length := rfl
    rw [e, padStart_data, List.length_append, List.length_replicate, e2]
    omega
  · rw [hdata]
    intro hm
    simp only [List.mem_append, List.mem_cons, List.mem_singleton, List.not_mem_nil,
      or_false] at hm
    rcases ext_data format with he | he <;> rw [he] at hm <;>
      simp [(numberChar_ne _ hP).1, (numberChar_ne _ hMc).1, (numberChar_ne _ hSc).1,
        (numberChar_ne _ hDc).1] at hm
  · rw [hdata]
    simp only [List.count_append, List.count_cons, List.count_nil,
      List.count_eq_zero.mpr (numberChar_ne _ hP).2,
      List.count_eq_zero.mpr (numberChar_ne _ hMc).2,
      List.count_eq_zero.mpr (numberChar_ne _ hSc).2,
      List.count_eq_zero.mpr (numberChar_ne _ hDc).2]
    rcases ext_data format with he | he <;> rw [he] <;> simp
  · intro n2 t2 format2 hne heq
    have h1 := entryName_index n (F64.fin k) (if format = .png then "png" else "jpg")
    have h2 := entryName_index n2 t2 (if format2 = .png then "png" else "jpg")
    rw [heq, h2] at h1
    exact hne h1.symm

set_option exponentiation.threshold 5000 in
set_option maxRecDepth 1000000 in
theorem sixFifths_bounds : 0 ≤ sixFifths ∧ sixFifths < 2 ^ 64 * (F64.scale : Int) := by
  decide

set_option exponentiation.threshold 5000 in
set_option maxRecDepth 1000000 in
/-- The name of frame 12 when its capture time is the double `1.2`: the tenths
digit is 1, because `1.2 % 1` is `0.19999999999999996`. -/
theorem entryName_sixFifths : F64.lit 6 5 = F64.fin sixFifths
    ∧ entryName 12 (F64.fin sixFifths) "png" = "frame_0012_0-01_1.png" := by decide

theorem entryName_spec_witness :
    ((12 : Nat) ≤ 9999 ∧ 0 ≤ sixFifths ∧ sixFifths < 2 ^ 64 * (F64.scale : Int))
    ∧ ∃ M SS d : Int,
      F64.floor (F64.div (F64.fin sixFifths) (F64.ofNat 60)) = F64.fin (M * (F64.scale : Int))
        ∧ F64.floor (F64.mod (F64.fin sixFifths) (F64.ofNat 60))
            = F64.fin (SS * (F64.scale : Int))
        ∧ F64.floor (F64.mul (F64.mod (F64.fin sixFifths) (F64.ofNat 1)) (F64.ofNat 10))
            = F64.fin (d * (F64.scale : Int))
        ∧ entryName 12 (F64.fin sixFifths) (if ImageFormat.png = .png then "png" else "jpg")
            = "frame_" ++ padStart (toString 12) 4 '0' ++ "_" ++ toString M ++ "-"
              ++ padStart (toString SS) 2 '0' ++ "_" ++ toString d
              ++ "." ++ (if ImageFormat.png = .png then "png" else "jpg")
        ∧ (padStart (toString 12) 4 '0').length = 4
        ∧ (0 ≤ M ∧ M < 10 ^ 21) ∧ (0 ≤ SS ∧ SS ≤ 59) ∧ 0 ≤ d
        ∧ ':' ∉ (entryName 12 (F64.fin sixFifths)
            (if ImageFormat.png = .png then "png" else "jpg")).data
        ∧ (entryName 12 (F64.fin sixFifths)
            (if ImageFormat.png = .png then "png" else "jpg")).data.count '.' = 1
        ∧ ∀ (n2 : Nat) (t2 : F64) (format2 : ImageFormat), 12 ≠ n2 →
            entryName 12 (F64.fin sixFifths) (if ImageFormat.png = .png then "png" else "jpg")
              ≠ entryName n2 t2 (if format2 = .png then "png" else "jpg") :=
  ⟨⟨by norm_num, sixFifths_bounds.1, sixFifths_bounds.2⟩,
    entryName_spec 12 sixFifths .png (by norm_num) sixFifths_bounds.1 sixFifths_bounds.2⟩

end Binary64
namespace Binary64

set_option exponentiation.threshold 5000 in
set_option maxRecDepth 1000000 in
/-- In the run on a 2 s video the capture time of frame 12 is the double `1.2`
and its entry is named `frame_0012_0-01_1.png`. -/
theorem handleGenerateStoryboard_entry_twelve :
    tick 12 = F64.lit 6 5
      ∧ (handleGenerateStoryboard 601 twoSecondInput reliableEnv).map
          (fun tr => (archiveEntries tr).get? 12) = some (some "frame_0012_0-01_1.png") := by
  decide

end Binary64
/-! ## Theorems: handlers invoked during a storyboard run -/

namespace Binary64

theorem zippingValues_frameEffects_f64 (env : StoryboardEnv) (fmt : ImageFormat) (ext : String)
    (tf : F64) : ∀ n k : Nat, zippingValues (frameEffects env fmt ext tf n k) = [] := by
  intro n
  induction n with
  | zero => intro k; rfl
  | succ n ih =>
      intro k
      have h : zippingValues ((env.events k).map StoryEffect.handler) = [] := by
        unfold zippingValues
        induction env.events k with
        | nil => rfl
        | cons e es ihe => simp
      have ih' := ih (k + 1)
      unfold zippingValues at ih' h ⊢
      rw [frameEffects, List.cons_append, List.filterMap_cons, List.filterMap_append, h]
      simp only [List.nil_append, List.filterMap_cons, ih']

theorem handler_mem_frameEffects (env : StoryboardEnv) (fmt : ImageFormat) (ext : String)
    (tf : F64) (j : Nat) (u : UserEvent) (hu : u ∈ env.events j) :
    ∀ n k : Nat, k ≤ j → j < k + n → StoryEffect.handler u ∈ frameEffects env fmt ext tf n k := by
  intro n
  induction n with
  | zero => intro k h1 h2; omega
  | succ n ih =>
      intro k h1 h2
      rw [frameEffects, List.cons_append]
      rcases Nat.eq_or_lt_of_le h1 with h | h
      · subst h
        apply List.mem_cons_of_mem
        apply List.mem_append_left
        exact List.mem_map_of_mem _ hu
      · apply List.mem_cons_of_mem
        apply List.mem_append_right
        apply List.mem_cons_of_mem
        apply List.mem_cons_of_mem
        apply List.mem_cons_of_mem
        exact ih (k + 1) (by omega) (by omega)

/-- C20 (amended). `handleGenerateStoryboard` has no cancel flag: between frames
the loop tests `currentTime < duration` only. When `resetApp` is invoked while
the run waits for the seek of a frame `j` of the run, the seek of frame `j` has
been issued and the run stays suspended on it, the video element having lost its
source: the frames `0 .. j-1` were captured, no archive is generated or
downloaded, and the run neither reports the pipeline error nor clears the
zipping flag. When a video is loaded again during the same wait, the run goes on
as soon as the element signals `seeked`: it captures all its frames and delivers
the archive. -/
theorem handleGenerateStoryboard_no_cancel (fuel : Nat) (inp : StoryboardInput) (name : String)
    (j : Nat) (hfile : inp.videoFile = some name) (hvideo : inp.video = true)
    (hfuel : 601 ≤ fuel) (hmax : F64.gt inp.duration MAX_STORYBOARD_DURATION = false)
    (hj : ∀ k, k ≤ j → F64.lt (tick k) inp.duration = true) :
    (∃ tr, handleGenerateStoryboard fuel inp (handlersAt j [.resetApp]) = some tr
        ∧ captureTimes tr = (List.range j).map tick
        ∧ StoryEffect.seek (tick j) ∈ tr
        ∧ tr.getLast? = some (.handler .resetApp)
        ∧ StoryEffect.generateZip ∉ tr ∧ (∀ f, StoryEffect.download f ∉ tr)
        ∧ StoryEffect.setError pipelineMessage ∉ tr
        ∧ zippingValues tr = [true])
      ∧ ∃ tr n, handleGenerateStoryboard fuel inp (handlersAt j [.resetApp, .loadVideo]) = some tr
        ∧ j < n ∧ captureTimes tr = (List.range n).map tick
        ∧ StoryEffect.handler .resetApp ∈ tr
        ∧ StoryEffect.download ((name.splitOn ".").headD "" ++ "_storyboard.zip") ∈ tr
        ∧ zippingValues tr = [true, false] := by
  have hj6 : j < 600 := by
    by_contra hc
    have := hj 600 (by omega)
    rw [lt_tick_600 inp.duration hmax] at this
    exact absurd this (by simp)
  constructor
  · -- the run with a reset during the wait for the seek of frame `j`
    have hfr := storyboardLoop_frames_f64 (handlersAt j [.resetApp]) inp.duration
      inp.storyboardFormat (if inp.storyboardFormat = .png then "png" else "jpg")
      (F64.floor (F64.div inp.duration interval)) j fuel 0 (by omega)
      (fun i _ hi => ⟨hj i (by omega), rfl, by
        have : i ≠ j := by omega
        simp [handlersAt, this, hasSource], rfl⟩)
    obtain ⟨f, hf⟩ : ∃ f, fuel - j = f + 1 := ⟨fuel - j - 1, by omega⟩
    have hlast : storyboardLoop (handlersAt j [.resetApp]) inp.duration inp.storyboardFormat
        (if inp.storyboardFormat = .png then "png" else "jpg")
        (F64.floor (F64.div inp.duration interval)) (fuel - j) (tick (0 + j)) (0 + j)
        = ([.seek (tick j), .handler .resetApp], .suspended) := by
      rw [hf, Nat.zero_add, storyboardLoop, if_pos (hj j (le_refl j))]
      simp [handlersAt, reliableEnv, hasSource]
    rw [hlast] at hfr
    have e0 : tick 0 = F64.fin 0 := rfl
    rw [e0] at hfr
    have htr : handleGenerateStoryboard fuel inp (handlersAt j [.resetApp])
        = some ([.setIsZipping true, .setZipProgress (F64.fin 0), .setError "", .newZip]
          ++ (frameEffects (handlersAt j [.resetApp]) inp.storyboardFormat
              (if inp.storyboardFormat = .png then "png" else "jpg")
              (F64.floor (F64.div inp.duration interval)) j 0
            ++ [.seek (tick j), .handler .resetApp])) := by
      unfold handleGenerateStoryboard
      rw [hfile, hvideo]
      simp only [hmax, Bool.false_eq_true, if_false]
      rw [hfr]
    have hmem := mem_frameEffects_f64 (handlersAt j [.resetApp]) inp.storyboardFormat
      (if inp.storyboardFormat = .png then "png" else "jpg")
      (F64.floor (F64.div inp.duration interval))
    refine ⟨_, htr, ?_, ?_, ?_, ?_, ?_, ?_, ?_⟩
    · have h3 := captureTimes_frameEffects_f64 (handlersAt j [.resetApp]) inp.storyboardFormat
        (if inp.storyboardFormat = .png then "png" else "jpg")
        (F64.floor (F64.div inp.duration interval)) j 0
      unfold captureTimes at h3 ⊢
      rw [List.filterMap_append, List.filterMap_append, h3, List.range_eq_range']
      simp only [List.filterMap_cons, List.filterMap_nil, List.nil_append, List.append_nil]
    · simp
    · rw [← List.append_assoc, List.getLast?_append]
      rfl
    · intro h
      simp only [List.mem_append, List.mem_cons, List.mem_singleton, List.not_mem_nil, or_false,
        reduceCtorEq, false_or] at h
      rcases hmem _ _ _ h with ⟨t, ht⟩ | ⟨u, hu⟩ | ⟨t, ht⟩ | ⟨s, hs⟩ | ⟨i, -, -, hi⟩
      · cases ht
      · cases hu
      · cases ht
      · cases hs
      · cases hi
    · intro f h
      simp only [List.mem_append, List.mem_cons, List.mem_singleton, List.not_mem_nil, or_false,
        reduceCtorEq, false_or] at h
      rcases hmem _ _ _ h with ⟨t, ht⟩ | ⟨u, hu⟩ | ⟨t, ht⟩ | ⟨s, hs⟩ | ⟨i, -, -, hi⟩
      · cases ht
      · cases hu
      · cases ht
      · cases hs
      · cases hi
    · intro h
      simp only [List.mem_append, List.mem_cons, List.mem_singleton, List.not_mem_nil, or_false,
        reduceCtorEq, false_or, StoryEffect.setError.injEq] at h
      rcases h with h | h
      · exact absurd h (by simp [pipelineMessage])
      · rcases hmem _ _ _ h with ⟨t, ht⟩ | ⟨u, hu⟩ | ⟨t, ht⟩ | ⟨s, hs⟩ | ⟨i, -, -, hi⟩
        · cases ht
        · cases hu
        · cases ht
        · cases hs
        · cases hi
    · have hz := zippingValues_frameEffects_f64 (handlersAt j [.resetApp]) inp.storyboardFormat
        (if inp.storyboardFormat = .png then "png" else "jpg")
        (F64.floor (F64.div inp.duration interval)) j 0
      unfold zippingValues at hz ⊢
      rw [List.filterMap_append, List.filterMap_append, hz]
      rfl
  · -- the run with a reset followed by the loading of a video
    have hok : ∀ i, (handlersAt j [.resetApp, .loadVideo]).seek i = .seeked
        ∧ hasSource ((handlersAt j [.resetApp, .loadVideo]).events i) = true
        ∧ (handlersAt j [.resetApp, .loadVideo]).captureOk i = true := by
      intro i
      refine ⟨rfl, ?_, rfl⟩
      by_cases h : i = j
      · simp [handlersAt, h, hasSource]
      · simp [handlersAt, h, hasSource]
    obtain ⟨n, hn, h1, h2, hrun⟩ := handleGenerateStoryboard_run fuel inp
      (handlersAt j [.resetApp, .loadVideo]) name hfile hvideo hfuel hmax hok
    have hjn : j < n := by
      by_contra hc
      have := hj n (by omega)
      rw [h2] at this
      exact absurd this (by simp)
    have hzip : (handlersAt j [.resetApp, .loadVideo]).zipOk = true := rfl
    rw [hzip] at hrun
    simp only [if_true] at hrun
    refine ⟨_, n, hrun, hjn, ?_, ?_, ?_, ?_⟩
    · have h3 := captureTimes_frameEffects_f64 (handlersAt j [.resetApp, .loadVideo])
        inp.storyboardFormat (if inp.storyboardFormat = .png then "png" else "jpg")
        (F64.floor (F64.div inp.duration interval)) n 0
      unfold captureTimes at h3 ⊢
      rw [List.filterMap_append, List.filterMap_append, List.filterMap_append, h3,
        List.range_eq_range']
      simp only [List.filterMap_cons, List.filterMap_nil, List.nil_append, List.append_nil]
    · apply List.mem_append_left
      apply List.mem_append_left
      apply List.mem_append_right
      exact handler_mem_frameEffects _ _ _ _ j .resetApp (by simp [handlersAt]) n 0
        (by omega) (by omega)
    · simp
    · have hz := zippingValues_frameEffects_f64 (handlersAt j [.resetApp, .loadVideo])
        inp.storyboardFormat (if inp.storyboardFormat = .png then "png" else "jpg")
        (F64.floor (F64.div inp.duration interval)) n 0
      unfold zippingValues at hz ⊢
      rw [List.filterMap_append, List.filterMap_append, List.filterMap_append, hz]
      rfl

end Binary64
namespace Binary64

set_option exponentiation.threshold 5000 in
set_option maxRecDepth 1000000 in
theorem twoSecond_frames : (∀ k, k ≤ 3 → F64.lt (tick k) twoSecondInput.duration = true)
    ∧ F64.gt twoSecondInput.duration MAX_STORYBOARD_DURATION = false := by decide

theorem handleGenerateStoryboard_no_cancel_witness :
    (twoSecondInput.videoFile = some "clip.mp4" ∧ twoSecondInput.video = true ∧ 601 ≤ 601
      ∧ F64.gt twoSecondInput.duration MAX_STORYBOARD_DURATION = false
      ∧ ∀ k, k ≤ 3 → F64.lt (tick k) twoSecondInput.duration = true)
    ∧ (∃ tr, handleGenerateStoryboard 601 twoSecondInput (handlersAt 3 [.resetApp]) = some tr
        ∧ captureTimes tr = (List.range 3).map tick
        ∧ StoryEffect.seek (tick 3) ∈ tr
        ∧ tr.getLast? = some (.handler .resetApp)
        ∧ StoryEffect.generateZip ∉ tr ∧ (∀ f, StoryEffect.download f ∉ tr)
        ∧ StoryEffect.setError pipelineMessage ∉ tr
        ∧ zippingValues tr = [true])
      ∧ ∃ tr n, handleGenerateStoryboard 601 twoSecondInput
            (handlersAt 3 [.resetApp, .loadVideo]) = some tr
        ∧ 3 < n ∧ captureTimes tr = (List.range n).map tick
        ∧ StoryEffect.handler .resetApp ∈ tr
        ∧ StoryEffect.download (("clip.mp4".splitOn ".").headD "" ++ "_storyboard.zip") ∈ tr
        ∧ zippingValues tr = [true, false] :=
  ⟨⟨rfl, rfl, le_refl _, twoSecond_frames.2, twoSecond_frames.1⟩,
    handleGenerateStoryboard_no_cancel 601 twoSecondInput "clip.mp4" 3 rfl rfl (le_refl _)
      twoSecond_frames.2 twoSecond_frames.1⟩

set_option exponentiation.threshold 5000 in
set_option maxRecDepth 1000000 in
/-- C20 (counterexample). A 2 s run during which, while it waits for the seek of
frame 3, the user resets the application and loads a video again. The capture
video is the one always-mounted element of line 994, so the listener of the run
is still attached when the element next signals `seeked`: the run resumes,
captures 17 further frames after the reset, 20 in all, and the archive is
downloaded. -/
theorem handleGenerateStoryboard_reset_reload :
    (handleGenerateStoryboard 601 twoSecondInput (handlersAt 3 [.resetApp, .loadVideo])).map
        (fun tr => ((captureTimes tr).length,
          (captureTimes (tr.dropWhile (fun e => decide (e ≠ .handler .resetApp)))).length,
          (downloads tr).length))
      = some (20, 17, 1) := by decide

end Binary64
/-! ## Theorems: audio extraction in binary64 arithmetic -/

namespace F64

theorem rneDiv_exact (n d : Nat) (hd : 0 < d) (h : d ∣ n) : rneDiv n d = n / d := by
  unfold rneDiv
  simp only [Nat.mod_eq_zero_of_dvd h, Nat.mul_zero, hd, if_true]

/-- A whole number of magnitude below `2^53` is held exactly. -/
theorem roundNearest_int (z : Int) (hz : z.natAbs < 2 ^ 53) :
    roundNearest (z * (scale : Int)) 1 = fin (z * (scale : Int)) := by
  have hS : 0 < scale := by
    unfold scale
    exact Nat.two_pow_pos _
  have hnat : (z * (scale : Int)).natAbs = z.natAbs * scale := by
    rw [Int.natAbs_mul, Int.natAbs_ofNat]
  have hru : roundUnits (z.natAbs * scale) 1 = z.natAbs * scale := by
    unfold roundUnits
    split_ifs with h53
    · exact (rneDiv_exact _ 1 (by norm_num) (one_dvd _)).trans (Nat.div_one _)
    · simp only [Nat.div_one, Nat.one_mul]
      have hm0 : 0 < z.natAbs := by
        rcases Nat.eq_zero_or_pos z.natAbs with h | h
        · rw [h, Nat.zero_mul] at h53
          exact absurd (Nat.mul_pos (Nat.two_pow_pos 53) Nat.one_pos) h53
        · exact h
      have hx1 : 1 ≤ z.natAbs * scale := Nat.mul_pos hm0 hS
      have hx2 : z.natAbs * scale < 2 ^ 4096 := by
        have h1 : z.natAbs * scale < 2 ^ 53 * scale := Nat.mul_lt_mul_of_pos_right hz hS
        have h2 : 2 ^ 53 * scale = 2 ^ 1127 := by
          unfold scale
          rw [← pow_add]
        have h3 : 2 ^ 1127 ≤ 2 ^ 4096 := Nat.pow_le_pow_right (by norm_num) (by norm_num)
        omega
      obtain ⟨hl1, hl2⟩ := ilog2_spec _ hx1 hx2
      have hL : ilog2 (z.natAbs * scale) < 1127 := by
        have h1 : z.natAbs * scale < 2 ^ 53 * scale := Nat.mul_lt_mul_of_pos_right hz hS
        have h2 : 2 ^ 53 * scale = 2 ^ 1127 := by
          unfold scale
          rw [← pow_add]
        have : 2 ^ ilog2 (z.natAbs * scale) < 2 ^ 1127 := by omega
        exact (Nat.pow_lt_pow_iff_right (by norm_num : 1 < 2)).mp this
      generalize ilog2 (z.natAbs * scale) = L at hL
      have hdvd : 2 ^ (L - 52) ∣ z.natAbs * scale := by
        apply Dvd.dvd.mul_left
        unfold scale
        exact pow_dvd_pow 2 (by omega)
      rw [rneDiv_exact _ _ (Nat.two_pow_pos _) hdvd]
      exact Nat.div_mul_cancel hdvd
  have hsmall : ¬ (2 ^ 2098 ≤ z.natAbs * scale) := by
    have h1 : z.natAbs * scale < 2 ^ 53 * scale := Nat.mul_lt_mul_of_pos_right hz hS
    have h2 : 2 ^ 53 * scale = 2 ^ 1127 := by
      unfold scale
      rw [← pow_add]
    have h3 : 2 ^ 1127 ≤ 2 ^ 2098 := Nat.pow_le_pow_right (by norm_num) (by norm_num)
    omega
  unfold roundNearest
  simp only [hnat, hru, if_neg hsmall]
  have hSi : (0 : Int) < (scale : Int) := by exact_mod_cast hS
  by_cases h0 : 0 ≤ z
  · have : 0 ≤ z * (scale : Int) := Int.mul_nonneg h0 hSi.le
    simp only [if_pos this]
    have e : ((z.natAbs * scale : Nat) : Int) = z * (scale : Int) := by
      rw [Nat.cast_mul, Int.natAbs_of_nonneg h0]
    rw [e]
  · have hneg : z < 0 := not_le.mp h0
    have : ¬ (0 ≤ z * (scale : Int)) := not_le.mpr (Int.mul_neg_of_neg_of_pos hneg hSi)
    simp only [if_neg this]
    have e : -((z.natAbs * scale : Nat) : Int) = z * (scale : Int) := by
      rw [Nat.cast_mul, Int.ofNat_natAbs_of_nonpos hneg.le, neg_mul, neg_neg]
    rw [e]

theorem ofNat_exact (m : Nat) (hm : m < 2 ^ 53) : ofNat m = fin ((m : Int) * (scale : Int)) :=
  roundNearest_int m (by rw [Int.natAbs_ofNat]; exact hm)

end F64
namespace Binary64

theorem scale_pos_int : (0 : Int) < (F64.scale : Int) := by
  have := scale_pos
  exact_mod_cast this

theorem toInt_whole (z : Int) : F64.toInt (F64.fin (z * (F64.scale : Int))) = some z := by
  have hS := scale_pos_int
  simp only [F64.toInt, Int.mul_emod_left, if_true, Int.mul_ediv_cancel _ hS.ne']

theorem floor_fin (p : Int) :
    F64.floor (F64.fin p) = F64.fin (p / (F64.scale : Int) * (F64.scale : Int)) := rfl

/-- The product `t * sampleRate` of lines 421-422 for a time `s ≥ 0` that falls
within a buffer of `L < 2^32` frames: a finite double within `2^-22` of the
exact product, whose floor is at most `L`. -/
theorem mul_sampleRate (s : Int) (r L : Nat) (hs0 : 0 ≤ s) (hr : r < 2 ^ 53) (hL : L < 2 ^ 32)
    (hb : (s : ℚ) * r ≤ (L : ℚ) * F64.scale) :
    ∃ p : Int, F64.mul (F64.fin s) (F64.ofNat r) = F64.fin p ∧ 0 ≤ p
      ∧ |(p : ℚ) - (s : ℚ) * r| ≤ (F64.scale : ℚ) / 2 ^ 22
      ∧ p / (F64.scale : Int) ≤ L := by
  have hS := scale_pos
  have hSn : 0 < F64.scale := by exact_mod_cast hS
  have hSi := scale_pos_int
  have hsq : (0 : ℚ) ≤ s := by exact_mod_cast hs0
  have hLq : (L : ℚ) < 2 ^ 32 := by exact_mod_cast hL
  rw [F64.ofNat_exact r hr]
  have hmul : F64.mul (F64.fin s) (F64.fin ((r : Int) * (F64.scale : Int)))
      = F64.roundNearest (s * ((r : Int) * (F64.scale : Int))) F64.scale := rfl
  have e : (((s * ((r : Int) * (F64.scale : Int)) : Int)) : ℚ)
      = (s : ℚ) * r * F64.scale := by
    push_cast
    ring
  have hb1 : |(((s * ((r : Int) * (F64.scale : Int)) : Int)) : ℚ)|
      < 2 ^ 1106 * ((F64.scale : Nat) : ℚ) := by
    rw [e, abs_of_nonneg (mul_nonneg (mul_nonneg hsq (Nat.cast_nonneg r)) hS.le),
      two_pow_scale 1106 32 (by norm_num)]
    have h1 : (s : ℚ) * r * F64.scale ≤ (L : ℚ) * F64.scale * F64.scale :=
      mul_le_mul_of_nonneg_right hb hS.le
    have h2 : (L : ℚ) * F64.scale * F64.scale < 2 ^ 32 * F64.scale * F64.scale :=
      mul_lt_mul_of_pos_right (mul_lt_mul_of_pos_right hLq hS) hS
    linarith
  obtain ⟨p, hp, hperr, hp0, -⟩ := F64.roundNearest_spec
    (s * ((r : Int) * (F64.scale : Int))) F64.scale 1106 hSn (by norm_num) (by norm_num) hb1
  have hp0 : 0 ≤ p := hp0 (Int.mul_nonneg hs0 (Int.mul_nonneg (Int.ofNat_nonneg r) hSi.le))
  have herr : |(p : ℚ) - (s : ℚ) * r| ≤ (F64.scale : ℚ) / 2 ^ 22 := by
    have e2 : (((s * ((r : Int) * (F64.scale : Int)) : Int)) : ℚ) / ((F64.scale : Nat) : ℚ)
        = (s : ℚ) * r := by
      rw [e]
      exact mul_div_cancel_right₀ _ hS.ne'
    have e3 : (2 : ℚ) ^ 1106 / 2 ^ 54 = (F64.scale : ℚ) / 2 ^ 22 := by
      rw [two_pow_scale 1106 32 (by norm_num), div_eq_div_iff (by positivity) (by positivity)]
      rw [show (54 : Nat) = 32 + 22 by norm_num, pow_add]
      ring
    rw [e2, e3] at hperr
    exact hperr
  refine ⟨p, by rw [hmul, hp], hp0, herr, ?_⟩
  have hu := (abs_le.mp herr).2
  have h22 : (F64.scale : ℚ) / 2 ^ 22 < F64.scale := by
    apply div_lt_self hS
    norm_num
  have hpq : (p : ℚ) < ((L : ℚ) + 1) * F64.scale := by linarith
  have hpi : p < ((L : Int) + 1) * (F64.scale : Int) := by exact_mod_cast hpq
  have := Int.ediv_lt_of_lt_mul hSi hpi
  omega

theorem trim_arith (S ps pe s e r a z : ℚ) (hS : 0 < S)
    (hps : |ps - s * r| ≤ S / 2 ^ 22) (hpe : |pe - e * r| ≤ S / 2 ^ 22)
    (ha1 : a * S ≤ ps) (ha2 : ps < (a + 1) * S) (hz1 : z * S ≤ pe) (hz2 : pe < (z + 1) * S) :
    |(z - a) - (e / S - s / S) * r| ≤ 1 + 1 / 2 ^ 21 := by
  have hX : (e / S - s / S) * r * S = e * r - s * r := by
    field_simp
    ring
  generalize (e / S - s / S) * r = X at hX
  have h22 : S / 2 ^ 22 = S * (1 / 2 ^ 22) := by ring
  rw [h22] at hps hpe
  obtain ⟨p1, p2⟩ := abs_le.mp hps
  obtain ⟨q1, q2⟩ := abs_le.mp hpe
  rw [abs_le]
  constructor
  · apply le_of_mul_le_mul_right _ hS
    have e1 : (z - a - X) * S = z * S - a * S - X * S := by ring
    have e2 : -(1 + 1 / 2 ^ 21) * S = -S - S * (2 / 2 ^ 22) := by ring
    have e3 : (z + 1) * S = z * S + S := by ring
    rw [e1, e2, hX]
    rw [e3] at hz2
    have e4 : S * (2 / 2 ^ 22) = S * (1 / 2 ^ 22) + S * (1 / 2 ^ 22) := by ring
    linarith
  · apply le_of_mul_le_mul_right _ hS
    have e1 : (z - a - X) * S = z * S - a * S - X * S := by ring
    have e2 : (1 + 1 / 2 ^ 21) * S = S + S * (2 / 2 ^ 22) := by ring
    have e3 : (a + 1) * S = a * S + S := by ring
    rw [e1, e2, hX]
    rw [e3] at ha2
    have e4 : S * (2 / 2 ^ 22) = S * (1 / 2 ^ 22) + S * (1 / 2 ^ 22) := by ring
    linarith

end Binary64
namespace Binary64

theorem toRat_nonneg (k : Int) : 0 ≤ F64.toRat k ↔ 0 ≤ k := by
  have hS := scale_pos
  unfold F64.toRat
  rw [le_div_iff₀ hS, zero_mul]
  exact Int.cast_nonneg

theorem toRat_lt (a b : Int) : F64.toRat a < F64.toRat b ↔ a < b := by
  have hS := scale_pos
  unfold F64.toRat
  rw [div_lt_div_iff_of_pos_right hS]
  exact Int.cast_lt

theorem ofNat_zero : F64.ofNat 0 = F64.fin 0 := by
  rw [F64.ofNat_exact 0 (Nat.two_pow_pos 53)]
  simp

/-- Lines 420-426 for a trim range within the decoded buffer: `actualStart` and
`frameCount` are the whole numbers `a` and `z - a`, with `a` and `z` the floors
of the two products. -/
theorem trimFrames_eq (b : AudioBuffer) (t : TrimRange) (s e : Int)
    (hstart : t.start = F64.fin s) (hend : t.end_ = F64.fin e)
    (hr : b.sampleRate < 2 ^ 53) (hL : b.length < 2 ^ 32)
    (h0 : 0 ≤ F64.toRat s) (h1 : F64.toRat s < F64.toRat e)
    (h2 : F64.toRat e ≤ (b.length : ℚ) / (b.sampleRate : ℚ)) :
    ∃ a z : Int,
      F64.floor (F64.mul t.start (F64.ofNat b.sampleRate)) = F64.fin (a * (F64.scale : Int))
        ∧ F64.floor (F64.mul t.end_ (F64.ofNat b.sampleRate)) = F64.fin (z * (F64.scale : Int))
        ∧ 0 ≤ a ∧ a ≤ b.length ∧ 0 ≤ z ∧ z ≤ b.length
        ∧ trimFrames t b = (F64.fin (a * (F64.scale : Int)),
            F64.fin ((z - a) * (F64.scale : Int)))
        ∧ |((z - a : Int) : ℚ) - (F64.toRat e - F64.toRat s) * b.sampleRate|
            ≤ 1 + 1 / 2 ^ 21 := by
  have hS := scale_pos
  have hSi := scale_pos_int
  have hs0 : 0 ≤ s := (toRat_nonneg s).mp h0
  have hse : s < e := (toRat_lt s e).mp h1
  have hsq : (0 : ℚ) ≤ s := by exact_mod_cast hs0
  have hseq : (s : ℚ) < e := by exact_mod_cast hse
  have hrpos : (0 : ℚ) < (b.sampleRate : ℚ) := by
    rcases Nat.eq_zero_or_pos b.sampleRate with hz | hp
    · rw [hz] at h2
      simp only [Nat.cast_zero, div_zero] at h2
      have h3 : F64.toRat e ≤ 0 := h2
      have h4 : 0 < F64.toRat e := lt_of_le_of_lt h0 h1
      linarith
    · exact_mod_cast hp
  have hbe : (e : ℚ) * b.sampleRate ≤ (b.length : ℚ) * F64.scale := by
    unfold F64.toRat at h2
    rw [div_le_div_iff₀ hS hrpos] at h2
    exact h2
  have hbs : (s : ℚ) * b.sampleRate ≤ (b.length : ℚ) * F64.scale :=
    le_trans (mul_le_mul_of_nonneg_right hseq.le hrpos.le) hbe
  obtain ⟨ps, hps, hps0, hpserr, hpsL⟩ := mul_sampleRate s b.sampleRate b.length hs0 hr hL hbs
  obtain ⟨pe, hpe, hpe0, hpeerr, hpeL⟩ :=
    mul_sampleRate e b.sampleRate b.length (by omega) hr hL hbe
  have ha0 : 0 ≤ ps / (F64.scale : Int) := Int.ediv_nonneg hps0 hSi.le
  -- the two floors are ordered, the rounding being monotone up to `2^-22`
  have hfl (p : Int) : (p / (F64.scale : Int) : Int) * (F64.scale : Int) ≤ p
      ∧ p < (p / (F64.scale : Int) + 1) * (F64.scale : Int) := by
    constructor
    · exact Int.ediv_mul_le p hSi.ne'
    · have := Int.lt_ediv_add_one_mul_self p hSi
      exact this
  obtain ⟨a1, a2⟩ := hfl ps
  obtain ⟨z1, z2⟩ := hfl pe
  have a1q : ((ps / (F64.scale : Int) : Int) : ℚ) * F64.scale ≤ ps := by exact_mod_cast a1
  have a2q : (ps : ℚ) < (((ps / (F64.scale : Int) : Int) : ℚ) + 1) * F64.scale := by
    exact_mod_cast a2
  have z1q : ((pe / (F64.scale : Int) : Int) : ℚ) * F64.scale ≤ pe := by exact_mod_cast z1
  have z2q : (pe : ℚ) < (((pe / (F64.scale : Int) : Int) : ℚ) + 1) * F64.scale := by
    exact_mod_cast z2
  have hbound := trim_arith F64.scale ps pe s e b.sampleRate (ps / (F64.scale : Int) : Int)
    (pe / (F64.scale : Int) : Int) hS hpserr hpeerr a1q a2q z1q z2q
  have hz0 : 0 ≤ pe / (F64.scale : Int) := Int.ediv_nonneg hpe0 hSi.le
  have hzero := ofNat_zero
  have hLen := F64.ofNat_exact b.length (lt_trans hL (by norm_num))
  have hsub : F64.sub (F64.fin (pe / (F64.scale : Int) * (F64.scale : Int)))
        (F64.fin (ps / (F64.scale : Int) * (F64.scale : Int)))
      = F64.fin ((pe / (F64.scale : Int) - ps / (F64.scale : Int)) * (F64.scale : Int)) := by
    have e1 : pe / (F64.scale : Int) * (F64.scale : Int)
          - ps / (F64.scale : Int) * (F64.scale : Int)
        = (pe / (F64.scale : Int) - ps / (F64.scale : Int)) * (F64.scale : Int) := by ring
    simp only [F64.sub, e1]
    apply F64.roundNearest_int
    have : (pe / (F64.scale : Int) - ps / (F64.scale : Int)).natAbs ≤ b.length := by omega
    have h32 : (2 : Nat) ^ 32 ≤ 2 ^ 53 := Nat.pow_le_pow_right (by norm_num) (by norm_num)
    omega
  refine ⟨ps / (F64.scale : Int), pe / (F64.scale : Int), ?_, ?_, ha0, hpsL, hz0, hpeL, ?_, ?_⟩
  · rw [hstart, hps, floor_fin]
  · rw [hend, hpe, floor_fin]
  · unfold trimFrames
    simp only [hstart, hend, hps, hpe, floor_fin, hzero, hLen, F64.max, F64.min]
    have hmax : max (0 : Int) (ps / (F64.scale : Int) * (F64.scale : Int))
        = ps / (F64.scale : Int) * (F64.scale : Int) :=
      max_eq_right (Int.mul_nonneg ha0 hSi.le)
    have hmin : min ((b.length : Int) * (F64.scale : Int))
          (pe / (F64.scale : Int) * (F64.scale : Int))
        = pe / (F64.scale : Int) * (F64.scale : Int) :=
      min_eq_right (Int.mul_le_mul_of_nonneg_right hpeL hSi.le)
    rw [hmax, hmin, hsub]
  · have e2 : ((pe / (F64.scale : Int) - ps / (F64.scale : Int) : Int) : ℚ)
        = ((pe / (F64.scale : Int) : Int) : ℚ) - ((ps / (F64.scale : Int) : Int) : ℚ) := by
      push_cast
      rfl
    rw [e2]
    exact hbound

end Binary64
namespace Binary64

/-- C4 (amended). Trim-extraction size in the arithmetic of the code: for a
loaded file whose decoded buffer has sample rate `r` and `L < 2^32` frames, and a
finite trim range with `0 ≤ start < end ≤ L/r` whose two products have different
floors (`Math.floor(start * r) < Math.floor(end * r)`, the products being the
rounded ones), `handleExtractAudio(true)` encodes and downloads a container of
`f = Math.floor(end * r) - Math.floor(start * r)` frames: its data block has
`2 * channels * f` bytes, the header declares that size, and `f` differs from
`(end - start) * r` by at most one frame and the rounding of the two products
(`2^-21` frame). -/
theorem handleExtractAudio_trim_size (b : AudioBuffer) (t : TrimRange) (s e : Int)
    (hstart : t.start = F64.fin s) (hend : t.end_ = F64.fin e)
    (hr : b.sampleRate < 2 ^ 53) (hL : b.length < 2 ^ 32)
    (h0 : 0 ≤ F64.toRat s) (h1 : F64.toRat s < F64.toRat e)
    (h2 : F64.toRat e ≤ (b.length : ℚ) / (b.sampleRate : ℚ))
    (hf : F64.lt (F64.floor (F64.mul t.start (F64.ofNat b.sampleRate)))
      (F64.floor (F64.mul t.end_ (F64.ofNat b.sampleRate))) = true) :
    ∃ (a z : Int) (wav : List Nat),
      F64.floor (F64.mul t.start (F64.ofNat b.sampleRate)) = F64.fin (a * (F64.scale : Int))
        ∧ F64.floor (F64.mul t.end_ (F64.ofNat b.sampleRate)) = F64.fin (z * (F64.scale : Int))
        ∧ 0 ≤ a ∧ a < z ∧ z ≤ b.length
        ∧ handleExtractAudio true t (.decoded b) true
            = [.setIsExtractingAudio true, .decode, .encode (z - a).toNat, .download wav,
                .setIsExtractingAudio false]
        ∧ wav.length = 44 + 2 * b.numberOfChannels * (z - a).toNat
        ∧ getUint32 wav 40 = (2 * b.numberOfChannels * (z - a).toNat) % 4294967296
        ∧ |((z - a : Int) : ℚ) - (F64.toRat e - F64.toRat s) * b.sampleRate|
            ≤ 1 + 1 / 2 ^ 21 := by
  have hSi := scale_pos_int
  obtain ⟨a, z, ha, hz, ha0, -, -, hzL, htf, hbound⟩ :=
    trimFrames_eq b t s e hstart hend hr hL h0 h1 h2
  have haz : a < z := by
    rw [ha, hz] at hf
    simp only [F64.lt, decide_eq_true_eq] at hf
    exact lt_of_mul_lt_mul_right hf hSi.le
  obtain ⟨wav, hw⟩ : ∃ wav, bufferToWave (trimBuffer b a.toNat (z - a).toNat) (z - a).toNat
      = some wav := ⟨_, bufferToWave_eq _ _⟩
  have hse : F64.le t.end_ t.start = false := by
    rw [hstart, hend]
    simp only [F64.le, decide_eq_false_iff_not]
    exact not_le.mpr ((toRat_lt s e).mp h1)
  have hpos : F64.le (trimFrames t b).2 (F64.ofNat 0) = false := by
    rw [htf, ofNat_zero]
    simp only [F64.le, decide_eq_false_iff_not]
    exact not_le.mpr (Int.mul_pos (by omega) hSi)
  have hi1 : F64.toInt (trimFrames t b).1 = some a := by
    rw [htf]
    exact toInt_whole a
  have hi2 : F64.toInt (trimFrames t b).2 = some (z - a) := by
    rw [htf]
    exact toInt_whole (z - a)
  refine ⟨a, z, wav, ha, hz, ha0, haz, hzL, ?_, ?_, ?_, hbound⟩
  · unfold handleExtractAudio
    simp only [Bool.not_true, Bool.false_eq_true, if_false, Bool.true_and, hse, if_true, hpos,
      hi1, hi2, hw, List.cons_append, List.nil_append]
  · rw [bufferToWave_length _ _ _ hw, trimBuffer_numberOfChannels]
  · rw [bufferToWave_data_size _ _ _ hw, trimBuffer_numberOfChannels]

set_option exponentiation.threshold 5000 in
set_option maxRecDepth 1000000 in
theorem tenthSecondTrim_facts :
    tenthSecondTrim.start = F64.fin (1 * (F64.scale : Int))
      ∧ tenthSecondTrim.end_ = F64.fin ((((4953959590107546 * 2 ^ 1022 : Nat)) : Int))
      ∧ F64.floor (F64.mul tenthSecondTrim.start (F64.ofNat fiveSecondMono.sampleRate))
          = F64.fin (44100 * (F64.scale : Int))
      ∧ F64.floor (F64.mul tenthSecondTrim.end_ (F64.ofNat fiveSecondMono.sampleRate))
          = F64.fin (48510 * (F64.scale : Int))
      ∧ (4953959590107546 * 2 ^ 1022 : Nat) * 44100 ≤ 220500 * F64.scale
      ∧ F64.scale < (4953959590107546 * 2 ^ 1022 : Nat) := by decide

theorem handleExtractAudio_trim_size_witness :
    (tenthSecondTrim.start = F64.ofNat 1 ∧ tenthSecondTrim.end_ = F64.lit 11 10
      ∧ fiveSecondMono.sampleRate = 44100 ∧ fiveSecondMono.length = 220500
      ∧ fiveSecondMono.numberOfChannels = 1)
    ∧ ∃ wav : List Nat,
      handleExtractAudio true tenthSecondTrim (.decoded fiveSecondMono) true
          = [.setIsExtractingAudio true, .decode, .encode 4410, .download wav,
              .setIsExtractingAudio false]
        ∧ wav.length = 44 + 8820 ∧ getUint32 wav 40 = 8820 := by
  obtain ⟨hs, he, hfs, hfe, hle, hlt⟩ := tenthSecondTrim_facts
  have hS := scale_pos
  have hSi := scale_pos_int
  obtain ⟨a, z, wav, ha, hz, -, -, -, hrun, hlen, hdata, -⟩ :=
    handleExtractAudio_trim_size fiveSecondMono tenthSecondTrim _ _ hs he
      (by rw [fiveSecondMono_sampleRate]; norm_num) (by rw [fiveSecondMono_length]; norm_num)
      ((toRat_nonneg _).mpr (Int.mul_nonneg (by norm_num) hSi.le))
      ((toRat_lt _ _).mpr (by rw [one_mul]; exact_mod_cast hlt))
      (by
        rw [fiveSecondMono_sampleRate, fiveSecondMono_length]
        unfold F64.toRat
        rw [div_le_div_iff₀ hS (by norm_num)]
        exact_mod_cast hle)
      (by
        rw [hfs, hfe]
        simp only [F64.lt, decide_eq_true_eq]
        exact Int.mul_lt_mul_of_pos_right (by norm_num) hSi)
  have ea : a = 44100 := by
    rw [hfs] at ha
    exact (Int.eq_of_mul_eq_mul_right hSi.ne' (F64.fin.inj ha)).symm
  have ez : z = 48510 := by
    rw [hfe] at hz
    exact (Int.eq_of_mul_eq_mul_right hSi.ne' (F64.fin.inj hz)).symm
  have e3 : (z - a).toNat = 4410 := by
    rw [ea, ez]
    decide
  rw [e3] at hrun hlen hdata
  rw [fiveSecondMono_numberOfChannels] at hlen hdata
  have hlen2 : wav.length = 44 + 8820 := by
    rw [hlen]
  have hdata2 : getUint32 wav 40 = 8820 := by
    rw [hdata]
  have hdefs : tenthSecondTrim.start = F64.ofNat 1 ∧ tenthSecondTrim.end_ = F64.lit 11 10 := by
    unfold tenthSecondTrim
    simp only [and_self]
  exact ⟨⟨hdefs.1, hdefs.2, fiveSecondMono_sampleRate, fiveSecondMono_length,
    fiveSecondMono_numberOfChannels⟩, wav, hrun, hlen2, hdata2⟩

set_option exponentiation.threshold 5000 in
set_option maxRecDepth 1000000 in
/-- C4 (counterexample). On the silent 5 s, 44100 Hz mono buffer the trim range
from 0 to `2^-17` s satisfies `0 ≤ start < end ≤ 5 = L/r`, yet
`handleExtractAudio(true)` encodes nothing: both products have floor 0, the
frame count is 0 and the call reports the processing error instead of producing
a container. -/
theorem handleExtractAudio_trim_too_narrow :
    (F64.le (F64.fin 0) narrowTrim.start = true ∧ F64.lt narrowTrim.start narrowTrim.end_ = true
      ∧ F64.le narrowTrim.end_ (F64.ofNat 5) = true
      ∧ fiveSecondMono.length = 5 * fiveSecondMono.sampleRate)
    ∧ handleExtractAudio true narrowTrim (.decoded fiveSecondMono) true
        = [.setIsExtractingAudio true, .decode, .setError .processingFailed,
            .setIsExtractingAudio false] := by decide

/-- C14. Degenerate extraction is rejected before encoding. A decoded buffer
has `1 ≤ length < 2^32`. For every call of `handleExtractAudio`, trimmed or full,
with a file loaded and a resulting frame count `≤ 0`, the call is a trimmed one
(the frame count of a full extraction is the positive length of the buffer), it
reports an error, `bufferToWave` is never invoked and nothing is downloaded; and
a trimmed call whose range has `end ≤ start` reports its error at once, before
any decoding. -/
theorem extractAudio_degenerate (t t2 : TrimRange) (b : AudioBuffer) (decode : DecodeResult)
    (useTrim : Bool) (hL1 : 1 ≤ b.length) (hL2 : b.length < 2 ^ 32)
    (hdeg : F64.le (finalLength useTrim t b) (F64.ofNat 0) = true)
    (hrev : F64.le t2.end_ t2.start = true) :
    (useTrim = true
      ∧ (∃ e, ExtractEffect.setError e ∈ handleExtractAudio true t (.decoded b) useTrim)
      ∧ (∀ n, ExtractEffect.encode n ∉ handleExtractAudio true t (.decoded b) useTrim)
      ∧ (∀ w, ExtractEffect.download w ∉ handleExtractAudio true t (.decoded b) useTrim))
    ∧ handleExtractAudio true t2 decode true = [.setError .endNotAfterStart] := by
  have hSi := scale_pos_int
  have htrim : useTrim = true := by
    cases useTrim with
    | true => rfl
    | false =>
        simp only [finalLength, Bool.false_eq_true, if_false] at hdeg
        rw [F64.ofNat_exact b.length (lt_trans hL2 (by norm_num)), ofNat_zero] at hdeg
        simp only [F64.le, decide_eq_true_eq] at hdeg
        have : 0 < (b.length : Int) * (F64.scale : Int) :=
          Int.mul_pos (by exact_mod_cast hL1) hSi
        omega
  subst htrim
  simp only [finalLength, if_true] at hdeg
  refine ⟨⟨rfl, ?_⟩, ?_⟩
  · by_cases hle : F64.le t.end_ t.start = true
    · have e : handleExtractAudio true t (.decoded b) true = [.setError .endNotAfterStart] := by
        simp [handleExtractAudio, hle]
      rw [e]
      exact ⟨⟨_, List.mem_singleton.mpr rfl⟩, by simp, by simp⟩
    · have e : handleExtractAudio true t (.decoded b) true
          = [.setIsExtractingAudio true, .decode, .setError .processingFailed,
              .setIsExtractingAudio false] := by
        simp [handleExtractAudio, hle, hdeg]
      rw [e]
      exact ⟨⟨.processingFailed, by simp⟩, by simp, by simp⟩
  · simp [handleExtractAudio, hrev]

set_option exponentiation.threshold 5000 in
set_option maxRecDepth 1000000 in
theorem narrowTrim_degenerate :
    F64.le (finalLength true narrowTrim fiveSecondMono) (F64.ofNat 0) = true
      ∧ F64.le reversedTrim.end_ reversedTrim.start = true := by decide

theorem extractAudio_degenerate_witness :
    (1 ≤ fiveSecondMono.length ∧ fiveSecondMono.length < 2 ^ 32
      ∧ F64.le (finalLength true narrowTrim fiveSecondMono) (F64.ofNat 0) = true
      ∧ F64.le reversedTrim.end_ reversedTrim.start = true)
    ∧ (true = true
      ∧ (∃ e, ExtractEffect.setError e
          ∈ handleExtractAudio true narrowTrim (.decoded fiveSecondMono) true)
      ∧ (∀ n, ExtractEffect.encode n
          ∉ handleExtractAudio true narrowTrim (.decoded fiveSecondMono) true)
      ∧ (∀ w, ExtractEffect.download w
          ∉ handleExtractAudio true narrowTrim (.decoded fiveSecondMono) true))
    ∧ handleExtractAudio true reversedTrim (.decoded fiveSecondMono) true
        = [.setError .endNotAfterStart] :=
  have h1 : 1 ≤ fiveSecondMono.length := by rw [fiveSecondMono_length]; norm_num
  have h2 : fiveSecondMono.length < 2 ^ 32 := by rw [fiveSecondMono_length]; norm_num
  ⟨⟨h1, h2, narrowTrim_degenerate.1, narrowTrim_degenerate.2⟩,
    extractAudio_degenerate narrowTrim reversedTrim fiveSecondMono (.decoded fiveSecondMono)
      true h1 h2 narrowTrim_degenerate.1 narrowTrim_degenerate.2⟩

end Binary64
namespace Binary64

set_option exponentiation.threshold 5000 in
set_option maxRecDepth 1000000 in
/-- The rounding of the product matters: for `end = 0.12` at 44100 Hz the code
computes `Math.floor(0.12 * 44100) = 5292`, the product rounding to 5292, while
the exact product of the double `0.12` and 44100 has floor 5291. -/
theorem floor_rounded_product :
    F64.floor (F64.mul (F64.lit 12 100) (F64.ofNat 44100)) = F64.ofNat 5292
      ∧ F64.lit 12 100 = F64.fin ((8646911284551352 * 2 ^ 1018 : Nat) : Int)
      ∧ (8646911284551352 * 2 ^ 1018 * 44100) / 2 ^ 1074 = 5291 := by
  decide

end Binary64
/-! ## Theorems: the trim range in binary64 arithmetic -/

namespace Binary64

theorem roundNearest_ne_nan (n : Int) (d : Nat) : F64.roundNearest n d ≠ F64.nan := by
  unfold F64.roundNearest
  intro h
  dsimp only at h
  split_ifs at h

/-- Clamping a number that is not `NaN` into `[0, d]` gives a finite number of
that interval. -/
theorem clamp_fin (d : Int) (hd : 0 ≤ d) (M : F64) (hM : M ≠ F64.nan) :
    ∃ m : Int, F64.max (F64.fin 0) (F64.min (F64.fin d) M) = F64.fin m ∧ 0 ≤ m ∧ m ≤ d := by
  cases M with
  | fin t => exact ⟨Max.max 0 (Min.min d t), rfl, le_max_left _ _, max_le hd (min_le_left _ _)⟩
  | posInf => exact ⟨Max.max 0 d, rfl, le_max_left _ _, max_le hd (le_refl _)⟩
  | negInf => exact ⟨0, rfl, le_refl _, hd⟩
  | nan => exact absurd rfl hM

/-- The pointer time of lines 125-130 is a finite number of `[0, duration]`,
wherever the pointer is. -/
theorem pointerTime_fin (d x l w : Int) (hd : 0 < d) (hw : 0 < w) :
    ∃ m : Int, pointerTime (F64.fin d) (F64.fin x) { left := F64.fin l, width := F64.fin w }
      = F64.fin m ∧ 0 ≤ m ∧ m ≤ d := by
  unfold pointerTime
  rw [ofNat_zero]
  apply clamp_fin d hd.le
  have hsub : F64.sub (F64.fin x) (F64.fin l) = F64.roundNearest (x - l) 1 := rfl
  dsimp only
  rw [hsub]
  have h1 := roundNearest_ne_nan (x - l) 1
  cases h : F64.roundNearest (x - l) 1 with
  | nan => exact absurd h h1
  | fin a =>
      have hdiv : F64.div (F64.fin a) (F64.fin w)
          = F64.roundNearest (a * (F64.scale : Int)) w.natAbs := by
        simp only [F64.div, hw.ne', if_false, hw, if_true]
      rw [hdiv]
      have h2 := roundNearest_ne_nan (a * (F64.scale : Int)) w.natAbs
      cases h3 : F64.roundNearest (a * (F64.scale : Int)) w.natAbs with
      | nan => exact absurd h3 h2
      | fin q =>
          have hmul : F64.mul (F64.fin q) (F64.fin d) = F64.roundNearest (q * d) F64.scale := rfl
          rw [hmul]
          exact roundNearest_ne_nan (q * d) F64.scale
      | posInf =>
          simp only [F64.mul, hd.ne', if_false, hd, if_true]
          intro hc
          cases hc
      | negInf =>
          simp only [F64.mul, hd.ne', if_false, hd, if_true]
          intro hc
          cases hc
  | posInf =>
      simp only [F64.div, hw.le, if_true, F64.mul, hd.ne', if_false, hd]
      intro hc
      cases hc
  | negInf =>
      simp only [F64.div, hw.le, if_true, F64.mul, hd.ne', if_false, hd]
      intro hc
      cases hc

/-- Rounding an integer number of units of magnitude below `8 * 2^j` seconds:
the error is at most `2^j / 2^51` seconds. -/
theorem round_near (n : Int) (j : Nat) (hj : j ≤ 1020)
    (h : |(n : ℚ)| < 8 * (2 ^ j * (F64.scale : ℚ))) :
    ∃ k : Int, F64.roundNearest n 1 = F64.fin k
      ∧ |(k : ℚ) - n| ≤ 2 ^ j * (F64.scale : ℚ) / 2 ^ 51 ∧ (0 ≤ n → 0 ≤ k) := by
  have e1 : (2 : ℚ) ^ (1077 + j) = 8 * (2 ^ j * (F64.scale : ℚ)) := by
    rw [two_pow_scale (1077 + j) (j + 3) (by omega), pow_add]
    ring
  have hb : |(n : ℚ)| < 2 ^ (1077 + j) * ((1 : Nat) : ℚ) := by
    rw [e1, Nat.cast_one, mul_one]
    exact h
  obtain ⟨k, hk, herr, h0, -⟩ := F64.roundNearest_spec n 1 (1077 + j) one_pos (by omega)
    (by omega) hb
  refine ⟨k, hk, ?_, h0⟩
  rw [Nat.cast_one, div_one, e1] at herr
  have e2 : 8 * (2 ^ j * (F64.scale : ℚ)) / 2 ^ 54 = 2 ^ j * (F64.scale : ℚ) / 2 ^ 51 := by
    rw [div_eq_div_iff (by norm_num) (by norm_num)]
    ring
  rw [e2] at herr
  exact herr

theorem add_near (a b : Int) (j : Nat) (hj : j ≤ 1020)
    (h : |(a : ℚ) + b| < 8 * (2 ^ j * (F64.scale : ℚ))) :
    ∃ k : Int, F64.add (F64.fin a) (F64.fin b) = F64.fin k
      ∧ |(k : ℚ) - ((a : ℚ) + b)| ≤ 2 ^ j * (F64.scale : ℚ) / 2 ^ 51 := by
  have hb : |((a + b : Int) : ℚ)| < 8 * (2 ^ j * (F64.scale : ℚ)) := by
    rw [Int.cast_add]
    exact h
  obtain ⟨k, hk, herr, -⟩ := round_near (a + b) j hj hb
  rw [Int.cast_add] at herr
  exact ⟨k, hk, herr⟩

theorem sub_near (a b : Int) (j : Nat) (hj : j ≤ 1020)
    (h : |(a : ℚ) - b| < 8 * (2 ^ j * (F64.scale : ℚ))) :
    ∃ k : Int, F64.sub (F64.fin a) (F64.fin b) = F64.fin k
      ∧ |(k : ℚ) - ((a : ℚ) - b)| ≤ 2 ^ j * (F64.scale : ℚ) / 2 ^ 51 := by
  have hb : |((a - b : Int) : ℚ)| < 8 * (2 ^ j * (F64.scale : ℚ)) := by
    rw [Int.cast_sub]
    exact h
  obtain ⟨k, hk, herr, -⟩ := round_near (a - b) j hj hb
  rw [Int.cast_sub] at herr
  exact ⟨k, hk, herr⟩

/-- A drag of the start handle keeps the range within the bounds, loosened by
two rounding errors. -/
theorem start_arith (S u d τ s e c m r : ℚ) (hc2 : c ≤ S / 10 + u)
    (hc1 : S / 10 ≤ c) (hd : S / 10 ≤ d) (hτ : 0 ≤ τ) (h : Within S d τ s e)
    (hm0 : 0 ≤ m) (hr : |r - (e - c)| ≤ u) :
    Within S d (τ + 2 * u) (min m r) e := by
  obtain ⟨h1, h2, h3, h4, h5, h6⟩ := h
  obtain ⟨r1, r2⟩ := abs_le.mp hr
  unfold Within
  rcases le_total m r with hmr | hmr
  · rw [min_eq_left hmr]
    refine ⟨by linarith, by linarith, by linarith, by linarith, by linarith, by linarith⟩
  · rw [min_eq_right hmr]
    refine ⟨by linarith, by linarith, by linarith, by linarith, by linarith, by linarith⟩

/-- A drag of the end handle keeps the range within the bounds, loosened by two
rounding errors. -/
theorem end_arith (S u d τ s e c m r : ℚ) (hc2 : c ≤ S / 10 + u)
    (hc1 : S / 10 ≤ c) (hd : S / 10 ≤ d) (hτ : 0 ≤ τ) (h : Within S d τ s e)
    (hm1 : m ≤ d) (hr : |r - (s + c)| ≤ u) :
    Within S d (τ + 2 * u) s (max m r) := by
  obtain ⟨h1, h2, h3, h4, h5, h6⟩ := h
  obtain ⟨r1, r2⟩ := abs_le.mp hr
  unfold Within
  rcases le_total m r with hmr | hmr
  · rw [max_eq_right hmr]
    refine ⟨by linarith, by linarith, by linarith, by linarith, by linarith, by linarith⟩
  · rw [max_eq_left hmr]
    refine ⟨by linarith, by linarith, by linarith, by linarith, by linarith, by linarith⟩

/-- A drag of the range that stays below the right edge. -/
theorem range_arith_free (S u d τ s e w a t : ℚ) (hu : 0 ≤ u) (hτ : 0 ≤ τ)
    (h : Within S d τ s e)
    (hw : |w - (e - s)| ≤ u) (ha : 0 ≤ a) (ht : |t - (a + w)| ≤ u) (htd : t ≤ d) :
    Within S d (τ + 2 * u) a t := by
  obtain ⟨h1, h2, h3, h4, h5, h6⟩ := h
  obtain ⟨w1, w2⟩ := abs_le.mp hw
  obtain ⟨t1, t2⟩ := abs_le.mp ht
  unfold Within
  refine ⟨by linarith, by linarith, by linarith, by linarith, by linarith, by linarith⟩

/-- A drag of the range that is stopped at the right edge. -/
theorem range_arith_edge (S u d τ s e w a t : ℚ) (hτ : 0 ≤ τ)
    (hd : S / 10 ≤ d) (h : Within S d τ s e)
    (hw : |w - (e - s)| ≤ u) (ha : |a - (d - w)| ≤ u) (ht : |t - (a + w)| ≤ u) :
    Within S d (τ + 2 * u) a t := by
  obtain ⟨h1, h2, h3, h4, h5, h6⟩ := h
  obtain ⟨w1, w2⟩ := abs_le.mp hw
  obtain ⟨a1, a2⟩ := abs_le.mp ha
  obtain ⟨t1, t2⟩ := abs_le.mp ht
  unfold Within
  refine ⟨by linarith, by linarith, by linarith, by linarith, by linarith, by linarith⟩

end Binary64
namespace Binary64

theorem tenth_arith (S P c : ℚ) (hS : 0 < S) (h1 : S ≤ 10 * c) (h2 : 10 * c - S ≤ S / 2 ^ 53)
    (hP : S ≤ P) : S / 10 ≤ c ∧ c ≤ S / 10 + P / 2 ^ 51 := by
  constructor
  · linarith
  · have h3 : S / 2 ^ 53 ≤ P / 2 ^ 51 := by
      rw [div_le_div_iff₀ (by norm_num) (by norm_num)]
      nlinarith
    linarith

theorem pow_scale_ge (j : Nat) : (F64.scale : ℚ) ≤ 2 ^ j * (F64.scale : ℚ) := by
  have hS := scale_pos
  have h1 : (1 : ℚ) ≤ 2 ^ j := one_le_pow₀ (by norm_num)
  exact le_mul_of_one_le_left hS.le h1

/-- The updater of lines 132-157, applied to a range within `τ` of the bounds
with a pointer time in `[0, d]`, returns a range within `τ + 2u` of them,
`u = 2^j / 2^51` seconds being the rounding error of one operation. -/
theorem nextTrimRange_near (h : HandleType) (d : Int) (j : Nat) (τ : ℚ) (s e o m : Int)
    (hj : j ≤ 1020) (hd : (F64.scale : ℚ) / 10 ≤ d)
    (hdP : (d : ℚ) + F64.scale ≤ 2 ^ j * (F64.scale : ℚ)) (hτ0 : 0 ≤ τ)
    (hτ1 : τ + 2 * (2 ^ j * (F64.scale : ℚ) / 2 ^ 51) ≤ (F64.scale : ℚ) / 20)
    (hW : Within F64.scale d τ s e) (ho : |(o : ℚ)| ≤ 4 * (2 ^ j * (F64.scale : ℚ)))
    (hm0 : 0 ≤ m) (hm1 : m ≤ d) :
    ∃ s2 e2 : Int, nextTrimRange h (F64.fin m) (F64.fin o) (F64.fin d)
        { start := F64.fin s, end_ := F64.fin e } = { start := F64.fin s2, end_ := F64.fin e2 }
      ∧ Within F64.scale d (τ + 2 * (2 ^ j * (F64.scale : ℚ) / 2 ^ 51)) s2 e2 := by
  have hS := scale_pos
  have hP := pow_scale_ge j
  have hmq0 : (0 : ℚ) ≤ m := by exact_mod_cast hm0
  have hmq1 : (m : ℚ) ≤ d := by exact_mod_cast hm1
  obtain ⟨c, hc, -, hc1, hc2⟩ := interval_near_rat
  unfold interval at hc
  obtain ⟨hc3, hc4⟩ := tenth_arith _ _ _ hS hc1 hc2 hP
  have hW2 := hW
  obtain ⟨h1, h2, h3, h4, h5, h6⟩ := hW2
  obtain ⟨o1, o2⟩ := abs_le.mp ho
  have hu : (0 : ℚ) ≤ 2 ^ j * (F64.scale : ℚ) / 2 ^ 51 := by linarith
  cases h with
  | start =>
      have hb : |(e : ℚ) - ((c : Nat) : Int)| < 8 * (2 ^ j * (F64.scale : ℚ)) := by
        rw [Int.cast_natCast, abs_lt]
        constructor <;> linarith
      obtain ⟨r, hr, herr⟩ := sub_near e c j hj hb
      rw [Int.cast_natCast] at herr
      refine ⟨Min.min m r, e, ?_, ?_⟩
      · simp only [nextTrimRange, hc, hr]
        rfl
      · rw [Int.cast_min]
        exact start_arith _ _ _ _ _ _ _ _ _ hc4 hc3 hd hτ0 hW hmq0 herr
  | end_ =>
      have hb : |(s : ℚ) + ((c : Nat) : Int)| < 8 * (2 ^ j * (F64.scale : ℚ)) := by
        rw [Int.cast_natCast, abs_lt]
        constructor <;> linarith
      obtain ⟨r, hr, herr⟩ := add_near s c j hj hb
      rw [Int.cast_natCast] at herr
      refine ⟨s, Max.max m r, ?_, ?_⟩
      · simp only [nextTrimRange, hc, hr]
        rfl
      · rw [Int.cast_max]
        exact end_arith _ _ _ _ _ _ _ _ _ hc4 hc3 hd hτ0 hW hmq1 herr
  | range =>
      have hb1 : |(e : ℚ) - s| < 8 * (2 ^ j * (F64.scale : ℚ)) := by
        rw [abs_lt]
        constructor <;> linarith
      obtain ⟨w, hw, hwerr⟩ := sub_near e s j hj hb1
      obtain ⟨w1, w2⟩ := abs_le.mp hwerr
      have hb2 : |(m : ℚ) - o| < 8 * (2 ^ j * (F64.scale : ℚ)) := by
        rw [abs_lt]
        constructor <;> linarith
      obtain ⟨n0, hn0, hn0err⟩ := sub_near m o j hj hb2
      obtain ⟨n1, n2⟩ := abs_le.mp hn0err
      have hstart : ∃ a : Int, (if F64.lt (F64.fin n0) (F64.ofNat 0) = true then F64.ofNat 0
          else F64.fin n0) = F64.fin a ∧ 0 ≤ a ∧ (a : ℚ) ≤ 5 * (2 ^ j * (F64.scale : ℚ)) := by
        rw [ofNat_zero]
        by_cases hneg : n0 < 0
        · refine ⟨0, ?_, le_refl _, ?_⟩
          · simp only [F64.lt, hneg, decide_True, if_true]
          · rw [Int.cast_zero]
            linarith
        · refine ⟨n0, ?_, not_lt.mp hneg, ?_⟩
          · simp only [F64.lt, hneg, decide_False, if_false, Bool.false_eq_true]
          · linarith
      obtain ⟨a, ha, ha0, ha1⟩ := hstart
      have haq : (0 : ℚ) ≤ a := by exact_mod_cast ha0
      have hb3 : |(a : ℚ) + w| < 8 * (2 ^ j * (F64.scale : ℚ)) := by
        rw [abs_lt]
        constructor <;> linarith
      obtain ⟨t, ht, hterr⟩ := add_near a w j hj hb3
      by_cases hedge : d < t
      · have hb4 : |(d : ℚ) - w| < 8 * (2 ^ j * (F64.scale : ℚ)) := by
          rw [abs_lt]
          constructor <;> linarith
        obtain ⟨a2, ha2, ha2err⟩ := sub_near d w j hj hb4
        obtain ⟨p1, p2⟩ := abs_le.mp ha2err
        have hb5 : |(a2 : ℚ) + w| < 8 * (2 ^ j * (F64.scale : ℚ)) := by
          rw [abs_lt]
          constructor <;> linarith
        obtain ⟨t2, ht2, ht2err⟩ := add_near a2 w j hj hb5
        refine ⟨a2, t2, ?_, ?_⟩
        · simp only [nextTrimRange, hw, hn0, ha, ht]
          simp only [F64.gt, F64.lt, hedge, decide_True, if_true, ha2, ht2]
        · exact range_arith_edge _ _ _ _ _ _ _ _ _ hτ0 hd hW hwerr ha2err ht2err
      · refine ⟨a, t, ?_, ?_⟩
        · simp only [nextTrimRange, hw, hn0, ha, ht]
          simp only [F64.gt, F64.lt, hedge, decide_False, if_false, Bool.false_eq_true, ha, ht]
        · have htd : (t : ℚ) ≤ d := by exact_mod_cast not_lt.mp hedge
          exact range_arith_free _ _ _ _ _ _ _ _ _ hu hτ0 hW hwerr haq hterr htd

end Binary64
namespace Binary64

theorem down_arith_quotient (S w x b : ℚ) (hS : 0 < S) (hw : S ≤ 2 ^ 20 * w) (hb0 : 0 ≤ b)
    (hb : b ≤ x + S / 2 ^ 21) (hx : x ≤ w) :
    0 < w ∧ |b * S| < 2 * S * w ∧ ∀ q : ℚ, |q - b * S / w| ≤ S / 2 ^ 53 → q ≤ 2 * S := by
  have hw0 : 0 < w := by
    by_contra hc
    push_neg at hc
    have : (2 : ℚ) ^ 20 * w ≤ 0 := mul_nonpos_of_nonneg_of_nonpos (by norm_num) hc
    linarith
  have e21 : S / 2 ^ 21 = S * (1 / 2 ^ 21) := by ring
  have e53 : S / 2 ^ 53 = S * (1 / 2 ^ 53) := by ring
  have hb2 : b ≤ 3 / 2 * w := by
    rw [e21] at hb
    norm_num at hb hw ⊢
    linarith
  have hbS : b * S ≤ 3 / 2 * w * S := mul_le_mul_of_nonneg_right hb2 hS.le
  have hwS : 0 < w * S := mul_pos hw0 hS
  refine ⟨hw0, ?_, ?_⟩
  · rw [abs_of_nonneg (mul_nonneg hb0 hS.le)]
    linarith
  · intro q hq
    have hquo : b * S / w ≤ 3 / 2 * S := by
      rw [div_le_iff₀ hw0]
      linarith
    have := (abs_le.mp hq).2
    rw [e53] at this
    norm_num at this ⊢
    linarith

theorem down_arith_product (S P d q : ℚ) (hS : 0 < S) (hq0 : 0 ≤ q) (hq : q ≤ 2 * S)
    (hd0 : 0 ≤ d) (hdP : d + S ≤ P) : |q * d| < 8 * P * S ∧ q * d / S ≤ 2 * d := by
  have h1 : q * d ≤ 2 * S * d := mul_le_mul_of_nonneg_right hq hd0
  have h2 : d * S ≤ (P - S) * S := mul_le_mul_of_nonneg_right (by linarith) hS.le
  have h3 : 0 < S * S := mul_pos hS hS
  have h4 : 0 < P * S := mul_pos (by linarith) hS
  refine ⟨?_, ?_⟩
  · rw [abs_of_nonneg (mul_nonneg hq0 hd0)]
    linarith
  · rw [div_le_iff₀ hS]
    linarith

/-- The drag offset captured by a press on the range handle with the pointer on
the timeline is a finite number of at most `4 * 2^j` seconds in magnitude. -/
theorem dragOffset_near (d : Int) (j : Nat) (τ : ℚ) (s e x l w : Int) (hj : j ≤ 1020)
    (hd : (F64.scale : ℚ) / 10 ≤ d)
    (hdP : (d : ℚ) + F64.scale ≤ 2 ^ j * (F64.scale : ℚ))
    (hτ1 : τ + 2 * (2 ^ j * (F64.scale : ℚ) / 2 ^ 51) ≤ (F64.scale : ℚ) / 20)
    (hW : Within F64.scale d τ s e) (hx0 : l ≤ x) (hx1 : x - l ≤ w)
    (hw0 : (F64.scale : Int) ≤ 2 ^ 20 * w) (hw1 : w ≤ 2 ^ 32 * (F64.scale : Int)) :
    ∃ o : Int, F64.sub (F64.mul (F64.div (F64.sub (F64.fin x) (F64.fin l)) (F64.fin w))
        (F64.fin d)) (F64.fin s) = F64.fin o ∧ |(o : ℚ)| ≤ 4 * (2 ^ j * (F64.scale : ℚ)) := by
  have hS := scale_pos
  have hSn : 0 < F64.scale := by exact_mod_cast hS
  have hSi := scale_pos_int
  have hP := pow_scale_ge j
  obtain ⟨h1, h2, h3, h4, h5, h6⟩ := hW
  have hdq0 : (0 : ℚ) ≤ d := by linarith
  have hd0 : 0 ≤ d := by exact_mod_cast hdq0
  have hxl0 : (0 : ℚ) ≤ ((x - l : Int) : ℚ) := by
    have : 0 ≤ x - l := by linarith
    exact_mod_cast this
  have hxlw : ((x - l : Int) : ℚ) ≤ w := by exact_mod_cast hx1
  have hwq0 : (F64.scale : ℚ) ≤ 2 ^ 20 * (w : ℚ) := by exact_mod_cast hw0
  have hwq1 : (w : ℚ) ≤ 2 ^ 32 * (F64.scale : ℚ) := by exact_mod_cast hw1
  -- the pixel difference
  have hsub : F64.sub (F64.fin x) (F64.fin l) = F64.roundNearest (x - l) 1 := rfl
  have e1107 : (2 : ℚ) ^ 1107 = (F64.scale : ℚ) * 2 ^ 33 :=
    two_pow_scale 1107 33 (by norm_num)
  have hb1 : |((x - l : Int) : ℚ)| < 2 ^ 1107 * ((1 : Nat) : ℚ) := by
    rw [abs_of_nonneg hxl0, e1107, Nat.cast_one, mul_one]
    have h33 : (2 : ℚ) ^ 32 * (F64.scale : ℚ) < (F64.scale : ℚ) * 2 ^ 33 := by
      norm_num
      linarith
    linarith
  obtain ⟨b, hb, hberr, hbs, -⟩ := F64.roundNearest_spec (x - l) 1 1107 one_pos (by norm_num)
    (by norm_num) hb1
  have hb0 : 0 ≤ b := hbs (by linarith)
  have hbq0 : (0 : ℚ) ≤ b := by exact_mod_cast hb0
  have hbup : (b : ℚ) ≤ ((x - l : Int) : ℚ) + (F64.scale : ℚ) / 2 ^ 21 := by
    have h := (abs_le.mp hberr).2
    rw [Nat.cast_one, div_one, e1107] at h
    have e : (F64.scale : ℚ) * 2 ^ 33 / 2 ^ 54 = (F64.scale : ℚ) / 2 ^ 21 := by
      rw [div_eq_div_iff (by norm_num) (by norm_num)]
      ring
    rw [e] at h
    linarith
  obtain ⟨hwpos, hquo1, hquo2⟩ := down_arith_quotient _ _ _ _ hS hwq0 hbq0 hbup hxlw
  have hwi : 0 < w := by exact_mod_cast hwpos
  -- the quotient by the width
  have hdiv : F64.div (F64.fin b) (F64.fin w)
      = F64.roundNearest (b * (F64.scale : Int)) w.natAbs := by
    simp only [F64.div, hwi.ne', if_false, hwi, if_true]
  have hwn : ((w.natAbs : Nat) : ℚ) = (w : ℚ) := by
    rw [Nat.cast_natAbs, Int.cast_abs, abs_of_pos hwpos]
  have hwn0 : 0 < w.natAbs := Int.natAbs_pos.mpr hwi.ne'
  have e1075 : (2 : ℚ) ^ 1075 = (F64.scale : ℚ) * 2 ^ 1 :=
    two_pow_scale 1075 1 (by norm_num)
  have hb2 : |((b * (F64.scale : Int) : Int) : ℚ)| < 2 ^ 1075 * ((w.natAbs : Nat) : ℚ) := by
    rw [hwn, e1075, Int.cast_mul, Int.cast_natCast]
    have e : (F64.scale : ℚ) * 2 ^ 1 * (w : ℚ) = 2 * (F64.scale : ℚ) * w := by ring
    rw [e]
    exact hquo1
  obtain ⟨q, hq, hqerr, hqs, -⟩ := F64.roundNearest_spec (b * (F64.scale : Int)) w.natAbs 1075
    hwn0 (by norm_num) (by norm_num) hb2
  have hq0 : 0 ≤ q := hqs (Int.mul_nonneg hb0 hSi.le)
  have hqq0 : (0 : ℚ) ≤ q := by exact_mod_cast hq0
  have hq2 : (q : ℚ) ≤ 2 * (F64.scale : ℚ) := by
    apply hquo2
    rw [hwn, e1075, Int.cast_mul, Int.cast_natCast] at hqerr
    have e : (F64.scale : ℚ) * 2 ^ 1 / 2 ^ 54 = (F64.scale : ℚ) / 2 ^ 53 := by
      rw [div_eq_div_iff (by norm_num) (by norm_num)]
      ring
    rw [e] at hqerr
    exact hqerr
  obtain ⟨hprod1, hprod2⟩ := down_arith_product _ _ _ _ hS hqq0 hq2 hdq0 hdP
  -- the product with the duration
  have hmul : F64.mul (F64.fin q) (F64.fin d) = F64.roundNearest (q * d) F64.scale := rfl
  have eJ : (2 : ℚ) ^ (1077 + j) = 8 * (2 ^ j * (F64.scale : ℚ)) := by
    rw [two_pow_scale (1077 + j) (j + 3) (by omega), pow_add]
    ring
  have hb3 : |((q * d : Int) : ℚ)| < 2 ^ (1077 + j) * ((F64.scale : Nat) : ℚ) := by
    rw [eJ, Int.cast_mul]
    exact hprod1
  obtain ⟨t, ht, hterr, hts, -⟩ := F64.roundNearest_spec (q * d) F64.scale (1077 + j) hSn
    (by omega) (by omega) hb3
  have ht0 : 0 ≤ t := hts (Int.mul_nonneg hq0 hd0)
  have htq0 : (0 : ℚ) ≤ t := by exact_mod_cast ht0
  have htup : (t : ℚ) ≤ 2 * d + 2 ^ j * (F64.scale : ℚ) / 2 ^ 51 := by
    have h := (abs_le.mp hterr).2
    rw [eJ, Int.cast_mul] at h
    have e : 8 * (2 ^ j * (F64.scale : ℚ)) / 2 ^ 54 = 2 ^ j * (F64.scale : ℚ) / 2 ^ 51 := by
      rw [div_eq_div_iff (by norm_num) (by norm_num)]
      ring
    rw [e] at h
    linarith
  -- the difference with the start of the range
  have hb4 : |(t : ℚ) - s| < 8 * (2 ^ j * (F64.scale : ℚ)) := by
    rw [abs_lt]
    constructor <;> linarith
  obtain ⟨o, ho, hoerr⟩ := sub_near t s j hj hb4
  refine ⟨o, by rw [hsub, hb, hdiv, hq, hmul, ht, ho], ?_⟩
  obtain ⟨o1, o2⟩ := abs_le.mp hoerr
  rw [abs_le]
  constructor <;> linarith

theorem within_mono (S d τ τ2 s e : ℚ) (hτ : τ ≤ τ2) (h : Within S d τ s e) :
    Within S d τ2 s e := by
  obtain ⟨h1, h2, h3, h4, h5, h6⟩ := h
  exact ⟨by linarith, by linarith, by linarith, by linarith, by linarith, by linarith⟩

/-- One pointer event loosens the bounds by at most two rounding errors. -/
theorem dragStep_near (d : Int) (j : Nat) (τ : ℚ) (st : TrimState) (ev : DragEvent)
    (hj : j ≤ 1020) (hd : (F64.scale : ℚ) / 10 ≤ d)
    (hdP : (d : ℚ) + F64.scale ≤ 2 ^ j * (F64.scale : ℚ)) (hτ0 : 0 ≤ τ)
    (hτ1 : τ + 2 * (2 ^ j * (F64.scale : ℚ) / 2 ^ 51) ≤ (F64.scale : ℚ) / 20)
    (h : st.Near d j τ) (hl : ev.LaidOut) :
    (dragStep st ev).Near d j (τ + 2 * (2 ^ j * (F64.scale : ℚ) / 2 ^ 51)) := by
  have hS := scale_pos
  have hP := pow_scale_ge j
  have hu : (0 : ℚ) ≤ 2 * (2 ^ j * (F64.scale : ℚ) / 2 ^ 51) := by
    have : (0 : ℚ) ≤ 2 ^ j * (F64.scale : ℚ) / 2 ^ 51 := by linarith
    linarith
  have hmono : τ ≤ τ + 2 * (2 ^ j * (F64.scale : ℚ) / 2 ^ 51) := by linarith
  have hdq : (0 : ℚ) < d := by linarith
  have hd0 : 0 < d := by exact_mod_cast hdq
  obtain ⟨s, e, o, hdur, htr, hoff, hW, ho⟩ := h
  obtain ⟨duration, trimRange, draggingHandle, dragOffset⟩ := st
  simp only at hdur htr hoff
  rw [hdur, htr, hoff]
  have hkeep : ∀ g : Option HandleType,
      TrimState.Near d j (τ + 2 * (2 ^ j * (F64.scale : ℚ) / 2 ^ 51))
        { duration := F64.fin d, trimRange := { start := F64.fin s, end_ := F64.fin e },
          draggingHandle := g, dragOffset := F64.fin o } :=
    fun g => ⟨s, e, o, rfl, rfl, rfl, within_mono _ _ _ _ _ _ hmono hW, ho⟩
  cases ev with
  | mouseUp => exact hkeep none
  | mouseDown handleType clientX timeline =>
      cases timeline with
      | none =>
          cases handleType <;> exact hkeep _
      | some rect =>
          cases handleType with
          | start => exact hkeep _
          | end_ => exact hkeep _
          | range =>
              obtain ⟨x, l, w, hx, hleft, hwidth, hx0, hx1, hw0, hw1⟩ := hl
              obtain ⟨o2, ho2, ho2b⟩ := dragOffset_near d j τ s e x l w hj hd hdP hτ1 hW
                hx0 hx1 hw0 hw1
              refine ⟨s, e, o2, rfl, rfl, ?_, within_mono _ _ _ _ _ _ hmono hW, ho2b⟩
              simp only [dragStep, handleTimelineMouseDown, hx, hleft, hwidth, ho2]
  | mouseMove clientX timeline =>
      cases draggingHandle with
      | none =>
          cases timeline <;> exact hkeep none
      | some g =>
          cases timeline with
          | none => exact hkeep _
          | some rect =>
              obtain ⟨x, l, w, hx, hleft, hwidth, hw0⟩ := hl
              obtain ⟨rl, rw⟩ := rect
              simp only at hleft hwidth
              rw [hx, hleft, hwidth]
              obtain ⟨m, hm, hm0, hm1⟩ := pointerTime_fin d x l w hd0 hw0
              obtain ⟨s2, e2, hnext, hW2⟩ := nextTrimRange_near g d j τ s e o m hj hd hdP hτ0 hτ1
                hW ho hm0 hm1
              refine ⟨s2, e2, o, ?_, ?_, ?_, hW2, ho⟩
              · simp only [dragStep, handleMouseMove, F64.fin.injEq, hd0.ne', if_false]
              · simp only [dragStep, handleMouseMove, F64.fin.injEq, hd0.ne', if_false, hm, hnext]
              · simp only [dragStep, handleMouseMove, F64.fin.injEq, hd0.ne', if_false]

/-- A sequence of pointer events loosens the bounds by at most two rounding
errors per event. -/
theorem runDrag_near (d : Int) (j : Nat) (hj : j ≤ 1020) (hd : (F64.scale : ℚ) / 10 ≤ d)
    (hdP : (d : ℚ) + F64.scale ≤ 2 ^ j * (F64.scale : ℚ)) (events : List DragEvent) :
    ∀ (st : TrimState) (τ : ℚ), 0 ≤ τ →
      τ + (events.length : ℚ) * (2 * (2 ^ j * (F64.scale : ℚ) / 2 ^ 51)) ≤ (F64.scale : ℚ) / 20 →
      st.Near d j τ → (∀ ev ∈ events, ev.LaidOut) →
      (runDrag st events).Near d j
        (τ + (events.length : ℚ) * (2 * (2 ^ j * (F64.scale : ℚ) / 2 ^ 51))) := by
  have hS := scale_pos
  have hP := pow_scale_ge j
  have hu : (0 : ℚ) ≤ 2 * (2 ^ j * (F64.scale : ℚ) / 2 ^ 51) := by
    have : (0 : ℚ) ≤ 2 ^ j * (F64.scale : ℚ) / 2 ^ 51 := by linarith
    linarith
  induction events with
  | nil =>
      intro st τ _ _ h _
      rw [List.length_nil, Nat.cast_zero, zero_mul, add_zero]
      exact h
  | cons ev rest ih =>
      intro st τ hτ0 hτ1 h hl
      rw [List.length_cons, Nat.cast_succ, add_mul, one_mul] at hτ1 ⊢
      have hrest : (0 : ℚ) ≤ (rest.length : ℚ) * (2 * (2 ^ j * (F64.scale : ℚ) / 2 ^ 51)) :=
        mul_nonneg (Nat.cast_nonneg _) hu
      have hstep := dragStep_near d j τ st ev hj hd hdP hτ0 (by linarith) h
        (hl ev (List.mem_cons_self _ _))
      have hnext := ih (dragStep st ev) (τ + 2 * (2 ^ j * (F64.scale : ℚ) / 2 ^ 51))
        (by linarith) (by linarith) hstep (fun ev2 h2 => hl ev2 (List.mem_cons_of_mem _ h2))
      have e : τ + 2 * (2 ^ j * (F64.scale : ℚ) / 2 ^ 51)
          + (rest.length : ℚ) * (2 * (2 ^ j * (F64.scale : ℚ) / 2 ^ 51))
          = τ + ((rest.length : ℚ) * (2 * (2 ^ j * (F64.scale : ℚ) / 2 ^ 51))
            + 2 * (2 ^ j * (F64.scale : ℚ) / 2 ^ 51)) := by ring
      rw [e] at hnext
      exact hnext

end Binary64
namespace Binary64

theorem seconds_arith (S d s e N : ℚ) (hS : 0 < S) (hN : N ≤ 1 / 20)
    (h : Within S d (N * S) s e) :
    -N ≤ s / S ∧ s / S < e / S ∧ e / S ≤ d / S + N ∧ 1 / 10 - N ≤ e / S - s / S := by
  obtain ⟨h1, h2, h3, -, -, -⟩ := h
  have hNS : N * S ≤ 1 / 20 * S := mul_le_mul_of_nonneg_right hN hS.le
  refine ⟨?_, ?_, ?_, ?_⟩
  · rw [le_div_iff₀ hS]
    linarith
  · rw [div_lt_div_iff_of_pos_right hS]
    linarith
  · have e3 : d / S + N = (d + N * S) / S := by
      field_simp
    rw [e3, div_le_div_iff_of_pos_right hS]
    exact h2
  · rw [← sub_div, le_div_iff₀ hS]
    linarith

theorem tolerance_arith (S N P : ℚ) (n : ℚ) (hN : N = n * P / 2 ^ 50) :
    0 + n * (2 * (P * S / 2 ^ 51)) = N * S := by
  rw [hN]
  ring

/-- C5 (amended). Trim-range invariant in the arithmetic of the code. Let a
video of finite duration `D` seconds, `0.1 ≤ D` and `D + 1 ≤ 2^j`, be loaded:
`handleMainVideoLoaded`, the main video mounted, sets the range to `{0, D}`, the
drag offset left by earlier gestures being at most `4 * 2^j` seconds in
magnitude. After any `n` pointer events handled by `handleTimelineMouseDown`,
`handleMouseMove` and `handleMouseUp`, laid out as `DragEvent.LaidOut` says,
with `n * 2^j / 2^50 ≤ 1/20`, the range is finite and satisfies the bounds of
the claim up to the accumulated rounding error `tol = n * 2^j / 2^50` seconds:
`-tol ≤ start < end ≤ D + tol` and `end - start ≥ 0.1 - tol`. -/
theorem trimRange_invariant (st0 : TrimState) (o0 d : Int) (j : Nat) (events : List DragEvent)
    (ho0 : st0.dragOffset = F64.fin o0) (ho1 : |F64.toRat o0| ≤ 4 * 2 ^ j)
    (hd : (1 : ℚ) / 10 ≤ F64.toRat d) (hdP : F64.toRat d + 1 ≤ 2 ^ j) (hj : j ≤ 1020)
    (hlaid : ∀ ev ∈ events, ev.LaidOut)
    (hn : (events.length : ℚ) * 2 ^ j / 2 ^ 50 ≤ 1 / 20) :
    ∃ s e : Int,
      (runDrag (handleMainVideoLoaded st0 (some (F64.fin d))) events).trimRange
          = { start := F64.fin s, end_ := F64.fin e }
        ∧ -((events.length : ℚ) * 2 ^ j / 2 ^ 50) ≤ F64.toRat s
        ∧ F64.toRat s < F64.toRat e
        ∧ F64.toRat e ≤ F64.toRat d + (events.length : ℚ) * 2 ^ j / 2 ^ 50
        ∧ (1 : ℚ) / 10 - (events.length : ℚ) * 2 ^ j / 2 ^ 50 ≤ F64.toRat e - F64.toRat s := by
  have hS := scale_pos
  unfold F64.toRat at ho1 hd hdP ⊢
  have hd2 : (F64.scale : ℚ) / 10 ≤ d := by
    rw [le_div_iff₀ hS] at hd
    linarith
  have hdP2 : (d : ℚ) + F64.scale ≤ 2 ^ j * (F64.scale : ℚ) := by
    rw [← le_sub_iff_add_le, div_le_iff₀ hS] at hdP
    linarith
  have ho2 : |(o0 : ℚ)| ≤ 4 * (2 ^ j * (F64.scale : ℚ)) := by
    rw [abs_div, abs_of_pos hS, div_le_iff₀ hS] at ho1
    linarith
  have hinit : (handleMainVideoLoaded st0 (some (F64.fin d))).Near d j 0 := by
    refine ⟨0, d, o0, rfl, rfl, ho0, ?_, ho2⟩
    unfold Within
    rw [Int.cast_zero]
    refine ⟨by linarith, by linarith, by linarith, by linarith, by linarith, by linarith⟩
  have htol := tolerance_arith (F64.scale : ℚ) _ (2 ^ j) (events.length : ℚ) rfl
  have hbudget : 0 + (events.length : ℚ) * (2 * (2 ^ j * (F64.scale : ℚ) / 2 ^ 51))
      ≤ (F64.scale : ℚ) / 20 := by
    rw [htol]
    have := mul_le_mul_of_nonneg_right hn hS.le
    linarith
  obtain ⟨s, e, o, -, htr, -, hW, -⟩ := runDrag_near d j hj hd2 hdP2 events
    (handleMainVideoLoaded st0 (some (F64.fin d))) 0 (le_refl _) hbudget hinit hlaid
  rw [htol] at hW
  exact ⟨s, e, htr, seconds_arith _ _ _ _ _ hS hn hW⟩

set_option exponentiation.threshold 5000 in
set_option maxRecDepth 1000000 in
theorem dragRangeEvents_laidOut : ∀ ev ∈ dragRangeEvents, ev.LaidOut := by
  intro ev hev
  simp only [dragRangeEvents, List.mem_cons, List.mem_singleton, List.not_mem_nil,
    or_false] at hev
  rcases hev with rfl | rfl | rfl
  · exact ⟨100 * (F64.scale : Int), 0, 200 * (F64.scale : Int), by decide, rfl, by decide,
      by decide, by decide, by decide, by decide⟩
  · exact ⟨150 * (F64.scale : Int), 0, 200 * (F64.scale : Int), by decide, rfl, by decide,
      by decide⟩
  · exact trivial

set_option exponentiation.threshold 5000 in
set_option maxRecDepth 1000000 in
theorem trimRange_invariant_witness :
    ∃ s e : Int,
      (runDrag (handleMainVideoLoaded initialTrimState (some (F64.fin (10 * (F64.scale : Int)))))
          dragRangeEvents).trimRange = { start := F64.fin s, end_ := F64.fin e }
        ∧ -((dragRangeEvents.length : ℚ) * 2 ^ 4 / 2 ^ 50) ≤ F64.toRat s
        ∧ F64.toRat s < F64.toRat e
        ∧ F64.toRat e ≤ F64.toRat (10 * (F64.scale : Int))
            + (dragRangeEvents.length : ℚ) * 2 ^ 4 / 2 ^ 50
        ∧ (1 : ℚ) / 10 - (dragRangeEvents.length : ℚ) * 2 ^ 4 / 2 ^ 50
            ≤ F64.toRat e - F64.toRat s := by
  have hS := scale_pos
  have e10 : F64.toRat (10 * (F64.scale : Int)) = 10 := by
    unfold F64.toRat
    rw [Int.cast_mul, Int.cast_natCast]
    exact mul_div_cancel_right₀ _ hS.ne'
  have e0 : F64.toRat 0 = 0 := by
    unfold F64.toRat
    rw [Int.cast_zero, zero_div]
  refine trimRange_invariant initialTrimState 0 (10 * (F64.scale : Int)) 4 dragRangeEvents rfl
    ?_ ?_ ?_ (by norm_num) dragRangeEvents_laidOut ?_
  · rw [e0]
    norm_num
  · rw [e10]
    norm_num
  · rw [e10]
    norm_num
  · have : (dragRangeEvents.length : ℚ) = 3 := by
      norm_num [dragRangeEvents]
    rw [this]
    norm_num

set_option exponentiation.threshold 5000 in
set_option maxRecDepth 1000000 in
/-- C5 (counterexample). A 10 second video is loaded and the start handle is
dragged to the right edge of the timeline: the updater stores
`Math.min(10, 10 - 0.1)`, the double `9.9`, and the range `{9.9, 10}` is shorter
than the double `0.1` (`10 - 9.9` is `0.09999999999999964`), both in the exact
difference of the two doubles and in the difference the code would compute. -/
theorem trimRange_invariant_fails :
    (runDrag (handleMainVideoLoaded initialTrimState (some (F64.ofNat 10)))
        dragStartToRightEdge).trimRange.start = F64.lit 99 10
      ∧ (runDrag (handleMainVideoLoaded initialTrimState (some (F64.ofNat 10)))
        dragStartToRightEdge).trimRange.end_ = F64.ofNat 10
      ∧ F64.lit 99 10 = F64.fin ((5573204538870989 * 2 ^ 1025 : Nat) : Int)
      ∧ F64.ofNat 10 = F64.fin ((10 * 2 ^ 1074 : Nat) : Int)
      ∧ 10 * (10 * 2 ^ 1074 - 5573204538870989 * 2 ^ 1025) < 2 ^ 1074
      ∧ F64.lt (F64.sub (F64.ofNat 10) (F64.lit 99 10)) (F64.lit 1 10) = true := by
  decide

end Binary64

end FrameExtractor
